import Mathlib

/-!
# Min-working-var: the S-expression to C++ translator of `main.cpp`

A shallow embedding of the lexer (`Lexer::getNextToken`) and of the
recursive-descent translator (`Parser::parse` and the rules it calls).

Modelling conventions.

* A `const char *` into the NUL-terminated input is the list of characters from
  that address up to the terminator: `*p` is the head of the list (`'\x00'` for
  the empty list), `p++` is the tail, and the pointer difference `pos - start`
  is the difference of the two lengths.
* Characters are classified as in the "C" locale.
* `llvm::report_fatal_error` ends the run: it is the `fatal` outcome, which
  records the message and the text written to `out` so far.
* Every `while` loop of the translator is a recursive function on a fuel
  argument; a run that exhausts it has the outcome `outOfFuel`.
-/

set_option autoImplicit false

/-! ## Tokens -/

/-- The enumeration `TokenKind`. -/
inductive TokenKind where
  | tok_eof
  | tok_identifier
  | tok_integer
  | tok_string
  | tok_symbol
  | tok_open_paren
  | tok_close_paren
  | tok_newline
  | tok_equal
  | tok_arrow
  | tok_comment
  | tok_dot
  | tok_comma
  | tok_add
  | tok_sub
  | tok_div
  | tok_mut
  | tok_assign
  deriving DecidableEq, Repr

/-- The struct `Token`: a kind and the captured text. -/
structure Token where
  kind : TokenKind
  value : List Char
  deriving DecidableEq, Repr

/-- The messages passed to `llvm::report_fatal_error`, one constructor for each
call site's text. -/
inductive Fatal where
  /-- "Unterminated string" -/
  | unterminatedString
  /-- "Invalid character" -/
  | invalidCharacter
  /-- "Expected '('" (in `parse` and in `parseClass`) -/
  | expectedOpenParen
  /-- "Expected 'class' or 'function' @ 40" -/
  | expectedClassOrFunction
  /-- "Expected identifier" -/
  | expectedIdentifier
  /-- "Expected 'public' or 'private' @ 80" -/
  | expectedPublicOrPrivate80
  /-- "Expected 'public' or 'private'" -/
  | expectedPublicOrPrivate
  /-- "Constructer not supported" -/
  | constructerNotSupported
  /-- "Expected '(' @ main" -/
  | expectedOpenParenMain
  /-- "Expected ')' @ main" -/
  | expectedCloseParenMain
  /-- "Expected '(' " (in `parseFunctionHelper`) -/
  | expectedOpenParenFunction
  deriving DecidableEq, Repr

/-! ## Character classes of `<cctype>` in the "C" locale -/

/-- The function `isspace`: space, `\t`, `\n`, `\v`, `\f`, `\r`. -/
def isspace (c : Char) : Bool :=
  c = ' ' || c = '\t' || c = '\n' || c = '\x0b' || c = '\x0c' || c = '\r'

/-- The function `isalpha`: `A`-`Z` and `a`-`z`. -/
def isalpha (c : Char) : Bool :=
  (65 ≤ c.toNat && c.toNat ≤ 90) || (97 ≤ c.toNat && c.toNat ≤ 122)

/-- The function `isdigit`: `0`-`9`. -/
def isdigit (c : Char) : Bool :=
  48 ≤ c.toNat && c.toNat ≤ 57

/-- The function `isalnum`. -/
def isalnum (c : Char) : Bool :=
  isalpha c || isdigit c

/-! ## The lexer -/

/-- The class `Lexer`: the two pointers `pos` and `start`, each given as the
text from that address to the terminator. -/
structure Lexer where
  pos : List Char
  start : List Char
  deriving DecidableEq, Repr

/-- What a call of `getNextToken` does: it returns a token and leaves the lexer
in a new state, or it reports a fatal error. -/
inductive LexResult where
  | tok (t : Token) (lx : Lexer)
  | fatal (e : Fatal)
  deriving DecidableEq, Repr

namespace Lexer

/-- The constructor `Lexer(input)`: `pos(input), start(input)`. -/
def init (input : List Char) : Lexer :=
  ⟨input, input⟩

/-- The dereference `*p`; the terminator is read at the end of the text. -/
def peek (p : List Char) : Char :=
  p.headD '\x00'

/-- The value `llvm::StringRef(start, pos - start)`. -/
def slice (start pos : List Char) : List Char :=
  start.take (start.length - pos.length)

/-- Loop condition of the whitespace loop: `isspace(*pos) || *pos == '\n'`. -/
def spaceChar (c : Char) : Bool :=
  isspace c || c = '\n'

/-- Loop condition of the identifier loop. -/
def identChar (c : Char) : Bool :=
  isalnum c || c = '_' || c = '*' || c = '&' || c = '.'

/-- Loop condition of the number loop: `isdigit(*pos) || *pos == '.'`. -/
def numberChar (c : Char) : Bool :=
  isdigit c || c = '.'

/-- Loop condition of the string loop: `*pos != '"' && *pos != '\0'`. -/
def stringChar (c : Char) : Bool :=
  c ≠ '"' && c ≠ '\x00'

/-- Loop condition of the sigil loops: `isalnum(*pos) || *pos == '_'`. -/
def nameChar (c : Char) : Bool :=
  isalnum c || c = '_'

/-- Loop condition of the comment loop: `*pos != '\n' && *pos != '\0'`. -/
def commentChar (c : Char) : Bool :=
  c ≠ '\n' && c ≠ '\x00'

/-- The loop `while (cond(*pos)) pos++;`. Each condition above is false at the
terminator, so the loop stops at the end of the text at the latest. -/
def scan (cond : Char → Bool) (pos : List Char) : List Char :=
  pos.dropWhile cond

/-- The method `Lexer::identifier`. -/
def identifier (start pos : List Char) : Token :=
  ⟨.tok_identifier, slice start pos⟩

/-- The method `Lexer::integer`. -/
def integer (start pos : List Char) : Token :=
  ⟨.tok_integer, slice start pos⟩

/-- The method `Lexer::symbol`: `StringRef(start, 1)`; `pos` is not moved. -/
def symbol (start : List Char) : Token :=
  ⟨.tok_symbol, start.take 1⟩

/-- The `case ';'` of the switch, also the place where `case '&'` would fall
through to. -/
def commentCase (start pos : List Char) : LexResult :=
  .tok ⟨.tok_comment, []⟩ ⟨scan commentChar pos, start⟩

/-- The `case '/'` of the switch, also the place where `case '*'` would fall
through to. -/
def divCase (start pos : List Char) : LexResult :=
  .tok ⟨.tok_div, ['/']⟩ ⟨pos.tail, start⟩

/-- The method `Lexer::getNextToken`. -/
def getNextToken (lx : Lexer) : LexResult :=
  let pos := scan spaceChar lx.pos
  let start := pos
  if peek pos = '\x00' then .tok ⟨.tok_eof, []⟩ ⟨pos, start⟩
  else if isalpha (peek pos) then
    let pos := scan identChar pos
    .tok (identifier start pos) ⟨pos, start⟩
  else if isdigit (peek pos) then
    let pos := scan numberChar pos
    .tok (integer start pos) ⟨pos, start⟩
  else if peek pos = '"' then
    let pos := pos.tail
    let pos := scan stringChar pos
    if peek pos = '"' then
      let pos := pos.tail
      .tok ⟨.tok_string, slice start pos⟩ ⟨pos, start⟩
    else .fatal .unterminatedString
  else if peek pos = '(' then
    .tok ⟨.tok_open_paren, ['(']⟩ ⟨pos.tail, start⟩
  else if peek pos = ')' then
    .tok ⟨.tok_close_paren, [')']⟩ ⟨pos.tail, start⟩
  else if peek pos = '=' then
    let pos := pos.tail
    if peek pos = '=' then .tok ⟨.tok_equal, ['=', '=']⟩ ⟨pos.tail, start⟩
    else .tok ⟨.tok_assign, ['=']⟩ ⟨pos, start⟩
  else if peek pos = '-' then
    let pos := pos.tail
    if peek pos = '>' then .tok ⟨.tok_arrow, ['-', '>']⟩ ⟨pos.tail, start⟩
    else .tok ⟨.tok_sub, ['-']⟩ ⟨pos, start⟩
  else if peek pos = '.' then
    .tok ⟨.tok_dot, ['.']⟩ ⟨pos.tail, start⟩
  else if peek pos = '+' then
    .tok ⟨.tok_add, ['+']⟩ ⟨pos.tail, start⟩
  else if peek pos = '*' then
    let pos := pos.tail
    if isalpha (peek pos) then
      -- `while (...) { pos++; return ...; }`: the body returns in its first round
      if nameChar (peek pos) then
        let pos := pos.tail
        .tok ⟨.tok_identifier, slice start pos⟩ ⟨pos, start⟩
      else divCase start pos
    else .tok ⟨.tok_mut, ['*']⟩ ⟨pos, start⟩
  else if peek pos = '/' then
    divCase start pos
  else if peek pos = '&' then
    let pos := pos.tail
    if isalpha (peek pos) then
      if nameChar (peek pos) then
        let pos := pos.tail
        .tok ⟨.tok_identifier, slice start pos⟩ ⟨pos, start⟩
      else commentCase start pos
    else .fatal .invalidCharacter
  else if peek pos = ';' then
    commentCase start pos
  else if peek pos = ',' then
    .tok ⟨.tok_comma, [',']⟩ ⟨pos.tail, start⟩
  else .tok (symbol start) ⟨pos, start⟩

end Lexer


/-! ## The translator -/

namespace Parser

/-- The state the translator works on: the lexer the `Parser` refers to, the
global `Token token`, and the text written to the global stream `out`. -/
structure State where
  lexer : Lexer
  token : Token
  out : List Char
  deriving DecidableEq, Repr

/-- How a rule ends: it returns (`done`), it reports a fatal error (`fatal`,
with the text written before it), or the fuel of a loop is used up. -/
inductive Outcome (α : Type) where
  | done (a : α) (s : State)
  | fatal (e : Fatal) (out : List Char)
  | outOfFuel
  deriving DecidableEq, Repr

/-- A rule of the translator: a function of the state. -/
def Run (α : Type) : Type :=
  State → Outcome α

/-- Sequencing of two rules. -/
def Run.bind {α β : Type} (x : Run α) (f : α → Run β) : Run β :=
  fun s =>
    match x s with
    | .done a s1 => f a s1
    | .fatal e o => .fatal e o
    | .outOfFuel => .outOfFuel

instance : Monad Run where
  pure a := fun s => .done a s
  bind := Run.bind

/-- The call `lexer.getNextToken()`. -/
def next : Run Token :=
  fun s =>
    match s.lexer.getNextToken with
    | .tok t lx => .done t { s with lexer := lx }
    | .fatal e => .fatal e s.out

/-- Reading the global `token`. -/
def getToken : Run Token :=
  fun s => .done s.token s

/-- The assignment `token = lexer.getNextToken();` to the global `token`. -/
def advance : Run Unit :=
  fun s =>
    match s.lexer.getNextToken with
    | .tok t lx => .done () { s with lexer := lx, token := t }
    | .fatal e => .fatal e s.out

/-- The function `write`: `out << str`. -/
def write (str : List Char) : Run Unit :=
  fun s => .done () { s with out := s.out ++ str }

/-- The call `llvm::report_fatal_error(msg)`. -/
def reportFatalError {α : Type} (e : Fatal) : Run α :=
  fun s => .fatal e s.out

/-- A loop that has no fuel left. -/
def outOfFuel {α : Type} : Run α :=
  fun _ => .outOfFuel

/-- The method `Parser::parseConstructer`. -/
def parseConstructer : Run Unit :=
  reportFatalError .constructerNotSupported

/-- The method `Parser::parseCallHelper`; its argument `currentToken` is not
used by the body. -/
def parseCallHelper (_currentToken : Token) : Run Unit := do
  let a ← next
  if a.kind = .tok_identifier ∧ a.value = "cMethod".toList then
    parseConstructer
  if a.kind = .tok_identifier ∧ a.value = "init".toList then
    let b ← next
    let c ← next
    write (b.value ++ " ".toList ++ c.value ++ " ; \n".toList)
  else
    let b ← next
    let c ← next
    write (b.value ++ " ".toList ++ a.value ++ "".toList ++ c.value ++ "; \n".toList)

/-- The loop
`while (true) { parseCallHelper(token); Token next1 = ...; Token token = ...;
if (next1.kind == tok_close_paren && token.kind == tok_close_paren) break; }`
that `parsePublic`, `parsePrivate`, `mainHelper` and `parseFunctionHelper` each
contain. The `token` passed to `parseCallHelper` is the global one: the local
`Token token` is declared after the call and lives for one round only. -/
def callLoop : Nat → Run Unit
  | 0 => outOfFuel
  | fuel + 1 => do
    parseCallHelper (← getToken)
    let next1 ← next
    let token ← next
    if next1.kind = .tok_close_paren ∧ token.kind = .tok_close_paren then
      pure ()
    else
      callLoop fuel

/-- The method `Parser::parsePublic`. -/
def parsePublic (fuel : Nat) : Run Unit := do
  advance
  callLoop fuel

/-- The method `Parser::parsePrivate`. -/
def parsePrivate (fuel : Nat) : Run Unit := do
  advance
  callLoop fuel

/-- The method `Parser::parseClass`. -/
def parseClass (fuel : Nat) : Run Unit := do
  write "class ".toList
  advance
  if (← getToken).kind ≠ .tok_identifier then
    reportFatalError .expectedIdentifier
  else
    write ((← getToken).value ++ " \x7b \n".toList)
  advance
  if (← getToken).kind = .tok_close_paren then
    write "\x7d; \n".toList
  else
    if (← getToken).kind ≠ .tok_open_paren then
      reportFatalError .expectedOpenParen
    advance
    if (← getToken).kind ≠ .tok_identifier then
      reportFatalError .expectedIdentifier
    if (← getToken).value = "public".toList then
      write "public: \n".toList
      parsePublic fuel
      advance
      if (← getToken).kind = .tok_close_paren then
        write "\x7d; \n".toList
      else if (← getToken).kind = .tok_open_paren then
        advance
        if (← getToken).kind = .tok_identifier then
          if (← getToken).value = "private".toList then
            write "private: \n".toList
            parsePrivate fuel
            advance
            if (← getToken).kind = .tok_close_paren then
              write "\x7d; \n".toList
          else
            reportFatalError .expectedPublicOrPrivate80
    else if (← getToken).value = "private".toList then
      write "private: \n".toList
      parsePrivate fuel
      advance
      if (← getToken).kind = .tok_close_paren then
        write "\x7d; \n".toList
    else
      reportFatalError .expectedPublicOrPrivate

/-- The method `Parser::mainHelper`. -/
def mainHelper (fuel : Nat) : Run Unit := do
  write "int main ".toList
  advance
  if (← getToken).kind ≠ .tok_open_paren then
    reportFatalError .expectedOpenParenMain
  advance
  if (← getToken).kind ≠ .tok_close_paren then
    reportFatalError .expectedCloseParenMain
  write "() \x7b \n".toList
  advance
  if (← getToken).kind = .tok_close_paren then
    write "return 0;".toList
    write "\x7d \n".toList
  else
    callLoop fuel
    write "return 0;".toList
    write "\x7d \n".toList

/-- The parameter loop of `parseFunctionHelper`:
`while (token.kind != tok_close_paren) { write(token.value + " "); token = ...; }`. -/
def paramLoop : Nat → Run Unit
  | 0 => outOfFuel
  | fuel + 1 => do
    if (← getToken).kind ≠ .tok_close_paren then
      write ((← getToken).value ++ " ".toList)
      advance
      paramLoop fuel
    else
      pure ()

/-- The method `Parser::parseFunctionHelper`. -/
def parseFunctionHelper (fuel : Nat) : Run Unit := do
  write ("void ".toList ++ (← getToken).value)
  advance
  if (← getToken).kind ≠ .tok_open_paren then
    reportFatalError .expectedOpenParenFunction
  write "(".toList
  advance
  if (← getToken).kind = .tok_close_paren then
    write "() \x7b \n".toList
  else
    paramLoop fuel
    write ") \x7b".toList
  advance
  if (← getToken).kind = .tok_close_paren then
    write "\x7d".toList
  else
    callLoop fuel
    write "\x7d".toList

/-- The method `Parser::parseFunction`. -/
def parseFunction (fuel : Nat) : Run Unit := do
  advance
  if (← getToken).kind = .tok_identifier then
    if (← getToken).value = "main".toList then
      mainHelper fuel
    else
      parseFunctionHelper fuel

/-- The loop `while (true)` of `Parser::parse`; `fuel` is handed to the rules
it calls, the second argument bounds its own rounds. A token that is neither
the end of the input nor an identifier matches no `case` and is passed over. -/
def parseLoop (fuel : Nat) : Nat → Run Unit
  | 0 => outOfFuel
  | rounds + 1 => do
    advance
    match (← getToken).kind with
    | .tok_eof => pure ()
    | .tok_identifier =>
      if (← getToken).value = "class".toList then
        parseClass fuel
        parseLoop fuel rounds
      else if (← getToken).value = "fn".toList then
        parseFunction fuel
        parseLoop fuel rounds
      else
        reportFatalError .expectedClassOrFunction
    | _ => parseLoop fuel rounds

/-- The method `Parser::parse`. -/
def parse (fuel : Nat) : Run Unit := do
  advance
  match (← getToken).kind with
  | .tok_open_paren => parseLoop fuel fuel
  | .tok_close_paren => pure ()
  | _ => reportFatalError .expectedOpenParen

/-- The state at the start of `main`: `Lexer lexer(input)`, the global `token`
built by the default constructor `Token()`, nothing written. -/
def initial (input : List Char) : State :=
  ⟨Lexer.init input, ⟨.tok_eof, []⟩, []⟩

end Parser

/-- One run of the translator on `input`: `Lexer lexer(input); Parser
parser(lexer); parser.parse();`. -/
def runTranslator (fuel : Nat) (input : List Char) : Parser.Outcome Unit :=
  Parser.parse fuel (Parser.initial input)


/-! ## Source texts and expected outputs named by the properties -/

/-- An identifier as the letter rule of the lexer reads it: a letter followed
by letters, digits, `_`, `*`, `&` and `.`. -/
def isIdentifier : List Char → Bool
  | [] => false
  | c :: cs => isalpha c && cs.all Lexer.identChar

/-- A numeric literal as the digit rule of the lexer reads it: a digit
followed by digits and dots. -/
def isNumber : List Char → Bool
  | [] => false
  | c :: cs => isdigit c && cs.all Lexer.numberChar

/-- The operator tokens that have a fixed text, with their kinds. -/
def operatorKind (w : List Char) : Option TokenKind :=
  if w = "=".toList then some .tok_assign
  else if w = "==".toList then some .tok_equal
  else if w = "-".toList then some .tok_sub
  else if w = "->".toList then some .tok_arrow
  else if w = ".".toList then some .tok_dot
  else if w = "+".toList then some .tok_add
  else if w = "*".toList then some .tok_mut
  else if w = "/".toList then some .tok_div
  else if w = ",".toList then some .tok_comma
  else none

/-- The kind of the token a word is read as: identifier, numeric literal or
operator token. -/
def wordKind (w : List Char) : Option TokenKind :=
  if isIdentifier w then some .tok_identifier
  else if isNumber w then some .tok_integer
  else operatorKind w

/-- A character after which no token of the kinds above goes on: not an
identifier character, not `=`, not `>`. Whitespace, both parentheses and the
terminator are such characters. -/
def boundary (c : Char) : Bool :=
  !Lexer.identChar c && c ≠ '=' && c ≠ '>'

/-- A three-token call-form `(op lhs rhs)` of the source text, with the
whitespace `lead` in front of its opening parenthesis. -/
structure CallForm where
  lead : List Char
  op : List Char
  lhs : List Char
  rhs : List Char
  deriving DecidableEq, Repr

namespace CallForm

/-- The operator is an identifier other than `cMethod` or an operator token,
and both operands are identifiers or numeric literals. -/
def wellFormed (f : CallForm) : Bool :=
  f.lead.all Lexer.spaceChar
    && ((isIdentifier f.op && f.op ≠ "cMethod".toList) || (operatorKind f.op).isSome)
    && (isIdentifier f.lhs || isNumber f.lhs)
    && (isIdentifier f.rhs || isNumber f.rhs)

/-- The three tokens of the form, separated by one space. -/
def body (f : CallForm) : List Char :=
  f.op ++ " ".toList ++ f.lhs ++ " ".toList ++ f.rhs

/-- The source text of the form. -/
def source (f : CallForm) : List Char :=
  f.lead ++ "(".toList ++ f.body ++ ")".toList

/-- The text the form is rendered as: `T N ; ` for `(init T N)` and `L opR; `
for `(op L R)`, each followed by a newline. -/
def text (f : CallForm) : List Char :=
  if f.op = "init".toList then f.lhs ++ " ".toList ++ f.rhs ++ " ; \n".toList
  else f.lhs ++ " ".toList ++ f.op ++ f.rhs ++ "; \n".toList

end CallForm

/-- The source text of a sequence of call-forms. -/
def formsSource : List CallForm → List Char
  | [] => []
  | f :: fs => f.source ++ formsSource fs

/-- The text a sequence of call-forms is rendered as. -/
def formsText : List CallForm → List Char
  | [] => []
  | f :: fs => f.text ++ formsText fs

namespace Lexer

/-- The result of the call number `n + 1` of `getNextToken`, the calls before
it having returned. -/
def calls : Nat → Lexer → LexResult
  | 0, lx => getNextToken lx
  | n + 1, lx =>
    match getNextToken lx with
    | .tok _ lx1 => calls n lx1
    | .fatal e => .fatal e

end Lexer

/-- What a caller sees of a call: the token or the error. -/
def LexResult.seen : LexResult → Except Fatal Token
  | .tok t _ => .ok t
  | .fatal e => .error e

/-- The text written by `parseClass` before the first block is entered. -/
def classHeader (out : List Char) (n : Token) (marker : List Char) : List Char :=
  out ++ "class ".toList ++ (n.value ++ " \x7b \n".toList) ++ marker

/-- Where in a class declaration a block of call-forms stands: the `public`
block, a sole `private` block, or the `private` block that follows a `public`
block made of the forms `pub`. -/
inductive BlockPlace where
  | publicBlock
  | privateBlock
  | privateAfterPublic (pub : List CallForm)

namespace BlockPlace

/-- The text written for what `opening` holds. -/
def marker : BlockPlace → List Char
  | publicBlock => "public: \n".toList
  | privateBlock => "private: \n".toList
  | privateAfterPublic pub => "public: \n".toList ++ (formsText pub ++ "private: \n".toList)

/-- The forms of the earlier block are well-formed and there is at least one. -/
def wellFormed : BlockPlace → Bool
  | privateAfterPublic pub => !pub.isEmpty && pub.all CallForm.wellFormed
  | _ => true

end BlockPlace

/-- The source text `(fn main() f1 ... fn)`. -/
def mainSource (forms : List CallForm) : List Char :=
  "(fn main()".toList ++ (formsSource forms ++ ")".toList)

/-- The source text `(class N (private g1 ... gn))`. -/
def privateClassSource (name : List Char) (priv : List CallForm) : List Char :=
  "(class ".toList ++ (name ++ (" (private".toList ++ (formsSource priv ++ "))".toList)))

/-- The source text `(class N (public f1 ... fm) (private g1 ... gn))`. -/
def twoBlockClassSource (name : List Char) (pub priv : List CallForm) : List Char :=
  "(class ".toList ++ (name ++ (" (public".toList ++ (formsSource pub ++
    (") (private".toList ++ (formsSource priv ++ "))".toList)))))

/-- A string literal as the quote rule of the lexer reads it: a quote, then
characters other than the quote and the terminator, then a quote. -/
def isStringLiteral : List Char → Bool
  | [] => false
  | c :: cs => c = '"' && cs.getLast? = some '"' && cs.dropLast.all Lexer.stringChar

/-- A sigil name that the lexer reads as one identifier token: `*` or `&`
followed by one letter. -/
def isSigilName : List Char → Bool
  | [s, c] => (s = '*' || s = '&') && isalpha c
  | _ => false

/-- The kind of the token a word is read as, for every kind of token that has
a text of its own and moves the cursor: identifier, numeric literal, operator
token, string literal, sigil name. Left out are the parentheses, the comment
and the generic symbol. -/
def tokenKindOf (w : List Char) : Option TokenKind :=
  match wordKind w with
  | some k => some k
  | none =>
    if isStringLiteral w then some .tok_string
    else if isSigilName w then some .tok_identifier
    else none

/-- A call-form `(op lhs rhs)` of three tokens of the kinds of `tokenKindOf`,
the operator not being `cMethod`. -/
def CallForm.threeTokens (f : CallForm) : Bool :=
  f.lead.all Lexer.spaceChar
    && ((tokenKindOf f.op).isSome && f.op ≠ "cMethod".toList)
    && (tokenKindOf f.lhs).isSome
    && (tokenKindOf f.rhs).isSome

/-! ## Relating two runs -/

/-- Two states that agree on the global `token` and on the text written, and
whose lexers are related by `B`. -/
def StateRel (B : Lexer → Lexer → Prop) (s t : Parser.State) : Prop :=
  B s.lexer t.lexer ∧ s.token = t.token ∧ s.out = t.out

/-- The relation `B` on lexers is kept by `getNextToken`: related lexers return
the same token and are related again, or report the same error. -/
def LexStep (B : Lexer → Lexer → Prop) : Prop :=
  ∀ l1 l2, B l1 l2 →
    match l1.getNextToken, l2.getNextToken with
    | .tok a m1, .tok b m2 => a = b ∧ B m1 m2
    | .fatal e1, .fatal e2 => e1 = e2
    | _, _ => False

/-- The second outcome agrees with the first, unless the first ran out of
fuel: both return the same value in related states, or both report the same
error after the same text. -/
def OutcomeRel (R : Parser.State → Parser.State → Prop) {α : Type} :
    Parser.Outcome α → Parser.Outcome α → Prop
  | .outOfFuel, _ => True
  | .done a s, .done b t => a = b ∧ R s t
  | .fatal e1 o1, .fatal e2 o2 => e1 = e2 ∧ o1 = o2
  | _, _ => False

/-- The rule `y` does on a related state what the rule `x` does, unless `x`
runs out of fuel. -/
structure Sim (R : Parser.State → Parser.State → Prop) {α : Type} (x y : Parser.Run α) :
    Prop where
  run : ∀ s t, R s t → OutcomeRel R (x s) (y t)

/-- Two lexers from which every later call is seen to give the same token or
the same error. -/
def SameTokens (l1 l2 : Lexer) : Prop :=
  ∀ n, (l1.calls n).seen = (l2.calls n).seen

/-- What is seen of a run from outside: the text emitted by a completed run,
the error and the text written before it, or that the fuel was used up. -/
inductive Report where
  | completed (out : List Char)
  | aborted (e : Fatal) (out : List Char)
  | unfinished
  deriving DecidableEq, Repr

/-- The report of an outcome. -/
def Parser.Outcome.report {α : Type} : Parser.Outcome α → Report
  | .done _ s => .completed s.out
  | .fatal e o => .aborted e o
  | .outOfFuel => .unfinished

/-! ## Theorems -/

open Lexer

/-! ### The lexer on single tokens -/

theorem peek_nil : peek [] = '\x00' := rfl
theorem peek_cons (c : Char) (p : List Char) : peek (c :: p) = c := rfl

theorem scan_nil (p : Char → Bool) : scan p [] = [] := rfl

theorem scan_stop (p : Char → Bool) (rest : List Char) (h : p (peek rest) = false) :
    scan p rest = rest := by
  cases rest with
  | nil => rfl
  | cons d r => simp [scan, List.dropWhile_cons, peek_cons] at h ⊢; simp [h]

theorem scan_cons_stop (p : Char → Bool) (c : Char) (r : List Char) (h : p c = false) :
    scan p (c :: r) = c :: r :=
  scan_stop p (c :: r) h

theorem scan_append (p : Char → Bool) (w rest : List Char) (hw : ∀ x ∈ w, p x = true) :
    scan p (w ++ rest) = scan p rest := by
  induction w with
  | nil => rfl
  | cons c cs ih =>
    have hc : p c = true := hw c (by simp)
    have := ih (fun x hx => hw x (by simp [hx]))
    simp [scan, List.dropWhile_cons, hc] at this ⊢
    exact this

theorem slice_append (w rest : List Char) : slice (w ++ rest) rest = w := by
  simp [Lexer.slice]

/-- Leading whitespace is passed over: the call behaves as at the first
character that is not whitespace. -/
theorem getNextToken_skip (ws p st st2 : List Char) (hws : ∀ x ∈ ws, spaceChar x = true) :
    getNextToken ⟨ws ++ p, st⟩ = getNextToken ⟨p, st2⟩ := by
  simp only [getNextToken, scan_append spaceChar ws p hws]

theorem boundary_ident {c : Char} (h : boundary c = true) : identChar c = false := by
  simp [boundary] at h; exact h.1.1

theorem spaceChar_cases {c : Char} (h : spaceChar c = true) :
    c = ' ' ∨ c = '\t' ∨ c = '\n' ∨ c = '\x0b' ∨ c = '\x0c' ∨ c = '\r' := by
  simp only [spaceChar, isspace, Bool.or_eq_true, decide_eq_true_eq] at h
  tauto

theorem isalpha_not_space {c : Char} (h : isalpha c = true) : spaceChar c = false := by
  cases hs : spaceChar c
  · rfl
  · exfalso
    rcases spaceChar_cases hs with h1 | h1 | h1 | h1 | h1 | h1 <;> subst h1 <;> exact absurd h (by decide)

theorem isalpha_ne_nul {c : Char} (h : isalpha c = true) : c ≠ '\x00' := by
  rintro rfl; exact absurd h (by decide)

theorem getNextToken_identifier (w rest st : List Char) (hw : isIdentifier w = true)
    (hr : boundary (peek rest) = true) :
    getNextToken ⟨w ++ rest, st⟩ = .tok ⟨.tok_identifier, w⟩ ⟨rest, w ++ rest⟩ := by
  cases w with
  | nil => simp [isIdentifier] at hw
  | cons c cs =>
    simp only [isIdentifier, Bool.and_eq_true, List.all_eq_true] at hw
    obtain ⟨hc, hcs⟩ := hw
    have hsp := scan_cons_stop spaceChar c (cs ++ rest) (isalpha_not_space hc)
    have hall : ∀ x ∈ c :: cs, identChar x = true := by
      intro x hx
      rcases List.mem_cons.mp hx with rfl | hx
      · simp [identChar, isalnum, hc]
      · exact hcs x hx
    have hsc : scan identChar (c :: cs ++ rest) = rest := by
      rw [scan_append _ _ _ hall]; exact scan_stop _ _ (boundary_ident hr)
    simp only [getNextToken, List.cons_append] at hsp hsc ⊢
    simp only [hsp, peek_cons, isalpha_ne_nul hc, hc, if_true, if_false, hsc, identifier]
    rw [← List.cons_append, slice_append]
theorem isdigit_not_space {c : Char} (h : isdigit c = true) : spaceChar c = false := by
  cases hs : spaceChar c
  · rfl
  · exfalso
    rcases spaceChar_cases hs with h1 | h1 | h1 | h1 | h1 | h1 <;> subst h1 <;> exact absurd h (by decide)

theorem isdigit_ne_nul {c : Char} (h : isdigit c = true) : c ≠ '\x00' := by
  rintro rfl; exact absurd h (by decide)

theorem isdigit_not_alpha {c : Char} (h : isdigit c = true) : isalpha c = false := by
  simp only [isdigit, isalpha, Bool.and_eq_true, decide_eq_true_eq, Bool.or_eq_false_iff,
    Bool.and_eq_false_iff, decide_eq_false_iff_not] at h ⊢
  omega

theorem numberChar_ident {c : Char} (h : numberChar c = true) : identChar c = true := by
  simp only [numberChar, identChar, isalnum, Bool.or_eq_true, decide_eq_true_eq] at h ⊢
  tauto

theorem boundary_number {c : Char} (h : boundary c = true) : numberChar c = false := by
  cases hn : numberChar c
  · rfl
  · have := numberChar_ident hn
    simp [boundary_ident h] at this

theorem getNextToken_number (w rest st : List Char) (hw : isNumber w = true)
    (hr : boundary (peek rest) = true) :
    getNextToken ⟨w ++ rest, st⟩ = .tok ⟨.tok_integer, w⟩ ⟨rest, w ++ rest⟩ := by
  cases w with
  | nil => simp [isNumber] at hw
  | cons c cs =>
    simp only [isNumber, Bool.and_eq_true, List.all_eq_true] at hw
    obtain ⟨hc, hcs⟩ := hw
    have hsp := scan_cons_stop spaceChar c (cs ++ rest) (isdigit_not_space hc)
    have hall : ∀ x ∈ c :: cs, numberChar x = true := by
      intro x hx
      rcases List.mem_cons.mp hx with rfl | hx
      · simp [numberChar, hc]
      · exact hcs x hx
    have hsc : scan numberChar (c :: cs ++ rest) = rest := by
      rw [scan_append _ _ _ hall]; exact scan_stop _ _ (boundary_number hr)
    simp only [getNextToken, List.cons_append] at hsp hsc ⊢
    simp only [hsp, peek_cons, isdigit_ne_nul hc, isdigit_not_alpha hc, hc, if_true, if_false, hsc,
      integer]
    rw [← List.cons_append, slice_append]
    simp

theorem boundary_ne_eq {c : Char} (h : boundary c = true) : c ≠ '=' := by
  simp [boundary] at h; exact h.1.2

theorem boundary_ne_gt {c : Char} (h : boundary c = true) : c ≠ '>' := by
  simp [boundary] at h; exact h.2

theorem boundary_not_alpha {c : Char} (h : boundary c = true) : isalpha c = false := by
  have := boundary_ident h
  cases ha : isalpha c
  · rfl
  · simp [identChar, isalnum, ha] at this

theorem getNextToken_assign (rest st : List Char) :
    getNextToken ⟨'=' :: rest, st⟩ =
      if peek rest = '=' then .tok ⟨.tok_equal, ['=', '=']⟩ ⟨rest.tail, '=' :: rest⟩
      else .tok ⟨.tok_assign, ['=']⟩ ⟨rest, '=' :: rest⟩ := rfl

theorem getNextToken_minus (rest st : List Char) :
    getNextToken ⟨'-' :: rest, st⟩ =
      if peek rest = '>' then .tok ⟨.tok_arrow, ['-', '>']⟩ ⟨rest.tail, '-' :: rest⟩
      else .tok ⟨.tok_sub, ['-']⟩ ⟨rest, '-' :: rest⟩ := rfl

theorem getNextToken_star (rest st : List Char) :
    getNextToken ⟨'*' :: rest, st⟩ =
      if isalpha (peek rest) then
        if nameChar (peek rest) then
          .tok ⟨.tok_identifier, Lexer.slice ('*' :: rest) rest.tail⟩ ⟨rest.tail, '*' :: rest⟩
        else divCase ('*' :: rest) rest
      else .tok ⟨.tok_mut, ['*']⟩ ⟨rest, '*' :: rest⟩ := rfl

theorem getNextToken_amp (rest st : List Char) :
    getNextToken ⟨'&' :: rest, st⟩ =
      if isalpha (peek rest) then
        if nameChar (peek rest) then
          .tok ⟨.tok_identifier, Lexer.slice ('&' :: rest) rest.tail⟩ ⟨rest.tail, '&' :: rest⟩
        else commentCase ('&' :: rest) rest
      else .fatal .invalidCharacter := rfl

theorem getNextToken_operator (w rest st : List Char) (k : TokenKind)
    (hw : operatorKind w = some k) (hr : boundary (peek rest) = true) :
    getNextToken ⟨w ++ rest, st⟩ = .tok ⟨k, w⟩ ⟨rest, w ++ rest⟩ := by
  have h1 := boundary_ne_eq hr
  have h2 := boundary_ne_gt hr
  have h3 := boundary_not_alpha hr
  unfold operatorKind at hw
  split_ifs at hw with e1 e2 e3 e4 e5 e6 e7 e8 e9 <;>
    (subst_vars; injection hw with hw; subst hw)
  · exact (getNextToken_assign rest st).trans (if_neg h1)
  · rfl
  · exact (getNextToken_minus rest st).trans (if_neg h2)
  · rfl
  · rfl
  · rfl
  · exact (getNextToken_star rest st).trans (by rw [h3]; rfl)
  · rfl
  · rfl

/-- A word followed by a boundary character is read as one token whose text
is the word; the cursor is left just after it. -/
theorem getNextToken_word (ws w rest st : List Char) (k : TokenKind)
    (hws : ∀ x ∈ ws, spaceChar x = true) (hw : wordKind w = some k)
    (hr : boundary (peek rest) = true) :
    getNextToken ⟨ws ++ (w ++ rest), st⟩ = .tok ⟨k, w⟩ ⟨rest, w ++ rest⟩ := by
  rw [getNextToken_skip ws (w ++ rest) st st hws]
  unfold wordKind at hw
  split_ifs at hw with h1 h2
  · injection hw with hw; subst hw; exact getNextToken_identifier w rest st h1 hr
  · injection hw with hw; subst hw; exact getNextToken_number w rest st h2 hr
  · exact getNextToken_operator w rest st k hw hr

theorem getNextToken_open (ws rest st : List Char) (hws : ∀ x ∈ ws, spaceChar x = true) :
    getNextToken ⟨ws ++ '(' :: rest, st⟩ = .tok ⟨.tok_open_paren, ['(']⟩ ⟨rest, '(' :: rest⟩ := by
  rw [getNextToken_skip ws ('(' :: rest) st st hws]; rfl

theorem getNextToken_close (ws rest st : List Char) (hws : ∀ x ∈ ws, spaceChar x = true) :
    getNextToken ⟨ws ++ ')' :: rest, st⟩ = .tok ⟨.tok_close_paren, [')']⟩ ⟨rest, ')' :: rest⟩ := by
  rw [getNextToken_skip ws (')' :: rest) st st hws]; rfl

theorem getNextToken_eof (ws st : List Char) (hws : ∀ x ∈ ws, spaceChar x = true) :
    getNextToken ⟨ws, st⟩ = .tok ⟨.tok_eof, []⟩ ⟨[], []⟩ := by
  have := getNextToken_skip ws [] st st hws
  rw [List.append_nil] at this
  rw [this]; rfl

/-! ### The rules of the translator, step by step -/

open Parser

theorem run_pure {α : Type} (a : α) (s : State) : (pure a : Run α) s = .done a s := rfl

theorem bind_pure_run {α β : Type} (a : α) (f : α → Run β) (s : State) :
    (pure a >>= f) s = f a s := rfl

theorem bind_write {β : Type} (str : List Char) (f : Unit → Run β) (s : State) :
    (write str >>= f) s = f () { s with out := s.out ++ str } := rfl

theorem bind_getToken {β : Type} (f : Token → Run β) (s : State) :
    (getToken >>= f) s = f s.token s := rfl

theorem bind_next {β : Type} (f : Token → Run β) (s : State) :
    (next >>= f) s =
      match getNextToken s.lexer with
      | .tok t lx => f t { s with lexer := lx }
      | .fatal e => .fatal e s.out := by
  show Run.bind next f s = _
  unfold Run.bind next
  cases getNextToken s.lexer <;> rfl

theorem bind_advance {β : Type} (f : Unit → Run β) (s : State) :
    (advance >>= f) s =
      match getNextToken s.lexer with
      | .tok t lx => f () { s with lexer := lx, token := t }
      | .fatal e => .fatal e s.out := by
  show Run.bind advance f s = _
  unfold Run.bind advance
  cases getNextToken s.lexer <;> rfl

theorem bind_of_done {α β : Type} (x : Run α) (f : α → Run β) (s s1 : State) (a : α)
    (h : x s = .done a s1) : (x >>= f) s = f a s1 := by
  show Run.bind x f s = _
  unfold Run.bind; rw [h]

theorem bind_of_fatal {α β : Type} (x : Run α) (f : α → Run β) (s : State) (e : Fatal)
    (o : List Char) (h : x s = .fatal e o) : (x >>= f) s = .fatal e o := by
  show Run.bind x f s = _
  unfold Run.bind; rw [h]

theorem boundary_cons (c : Char) (r : List Char) (hc : boundary c = true) :
    boundary (peek (c :: r)) = true := hc

theorem parseCallHelper_init (tk a b c : Token) (s : State) (l1 l2 l3 : Lexer)
    (h1 : getNextToken s.lexer = .tok a l1) (h2 : getNextToken l1 = .tok b l2)
    (h3 : getNextToken l2 = .tok c l3)
    (ha : a.kind = .tok_identifier ∧ a.value = "init".toList) :
    parseCallHelper tk s =
      .done () { s with lexer := l3, out := s.out ++ (b.value ++ " ".toList ++ c.value ++ " ; \n".toList) } := by
  have hc : ¬ (a.kind = .tok_identifier ∧ a.value = "cMethod".toList) := by
    rintro ⟨_, h⟩; rw [ha.2] at h; exact absurd h (by decide)
  simp only [parseCallHelper, bind_next, h1, if_neg hc, if_pos ha, bind_pure_run, h2, h3]
  rfl

theorem parseCallHelper_op (tk a b c : Token) (s : State) (l1 l2 l3 : Lexer)
    (h1 : getNextToken s.lexer = .tok a l1) (h2 : getNextToken l1 = .tok b l2)
    (h3 : getNextToken l2 = .tok c l3)
    (hi : ¬ (a.kind = .tok_identifier ∧ a.value = "init".toList))
    (hc : ¬ (a.kind = .tok_identifier ∧ a.value = "cMethod".toList)) :
    parseCallHelper tk s =
      .done () { s with lexer := l3, out := s.out ++ (b.value ++ " ".toList ++ a.value ++ c.value ++ "; \n".toList) } := by
  simp only [parseCallHelper, bind_next, h1, if_neg hc, if_neg hi, bind_pure_run, h2, h3]
  simp [write]

/-! ### Sequences of call-forms -/

theorem source_append (f : CallForm) (rest : List Char) :
    f.source ++ rest =
      f.lead ++ '(' :: (f.op ++ ' ' :: (f.lhs ++ ' ' :: (f.rhs ++ ')' :: rest))) := by
  simp [CallForm.source, CallForm.body]

theorem wellFormed_lead {f : CallForm} (h : f.wellFormed = true) :
    ∀ x ∈ f.lead, spaceChar x = true := by
  simp only [CallForm.wellFormed, Bool.and_eq_true, List.all_eq_true] at h
  exact h.1.1.1

theorem wordKind_operand {w : List Char} (h : (isIdentifier w || isNumber w) = true) :
    ∃ k, wordKind w = some k := by
  unfold wordKind
  by_cases h1 : isIdentifier w = true
  · exact ⟨_, if_pos h1⟩
  · have h2 : isNumber w = true := by simpa [h1] using h
    exact ⟨_, by rw [if_neg h1, if_pos h2]⟩

theorem wellFormed_lhs {f : CallForm} (h : f.wellFormed = true) : ∃ k, wordKind f.lhs = some k := by
  simp only [CallForm.wellFormed, Bool.and_eq_true] at h
  exact wordKind_operand h.1.2

theorem wellFormed_rhs {f : CallForm} (h : f.wellFormed = true) : ∃ k, wordKind f.rhs = some k := by
  simp only [CallForm.wellFormed, Bool.and_eq_true] at h
  exact wordKind_operand h.2

theorem operatorKind_not_identifier {w : List Char} {k : TokenKind} (h : operatorKind w = some k) :
    isIdentifier w = false ∧ isNumber w = false ∧ k ≠ .tok_identifier := by
  unfold operatorKind at h
  split_ifs at h <;> (subst_vars; injection h with h; subst h; decide)

/-- The operator of a well-formed call-form is read as one token that is not
the identifier `cMethod`, and that is the identifier `init` exactly when the
operator text is `init`. -/
theorem wellFormed_op {f : CallForm} (h : f.wellFormed = true) :
    ∃ k, wordKind f.op = some k
      ∧ ¬ (k = .tok_identifier ∧ f.op = "cMethod".toList)
      ∧ ((k = .tok_identifier ∧ f.op = "init".toList) ↔ f.op = "init".toList) := by
  simp only [CallForm.wellFormed, Bool.and_eq_true, Bool.or_eq_true, decide_eq_true_eq] at h
  rcases h.1.1.2 with ⟨hid, hne⟩ | hop
  · refine ⟨.tok_identifier, by simp [wordKind, hid], fun hc => hne hc.2, by simp⟩
  · obtain ⟨k, hk⟩ := Option.isSome_iff_exists.mp hop
    obtain ⟨h1, h2, h3⟩ := operatorKind_not_identifier hk
    refine ⟨k, by simp [wordKind, h1, h2, hk], fun hc => h3 hc.1, ?_⟩
    constructor
    · exact fun hc => hc.2
    · intro hc; rw [hc] at h1; exact absurd h1 (by decide)

/-- The call-form rule on the text of a well-formed form, the cursor just after
the opening parenthesis: the three tokens are read and the form is written. -/
theorem parseCallHelper_form (f : CallForm) (hf : f.wellFormed = true) (tk : Token)
    (rest st : List Char) (tok : Token) (out : List Char) (hr : boundary (peek rest) = true) :
    parseCallHelper tk ⟨⟨f.op ++ ' ' :: (f.lhs ++ ' ' :: (f.rhs ++ rest)), st⟩, tok, out⟩ =
      .done () ⟨⟨rest, f.rhs ++ rest⟩, tok, out ++ f.text⟩ := by
  obtain ⟨ka, ha, hnc, hinit⟩ := wellFormed_op hf
  obtain ⟨kb, hb⟩ := wellFormed_lhs hf
  obtain ⟨kc, hc⟩ := wellFormed_rhs hf
  have h1 := getNextToken_word [] f.op (' ' :: (f.lhs ++ ' ' :: (f.rhs ++ rest))) st ka
    (by simp) ha (boundary_cons ' ' _ (by decide))
  have h2 := getNextToken_word [' '] f.lhs (' ' :: (f.rhs ++ rest))
    (f.op ++ ' ' :: (f.lhs ++ ' ' :: (f.rhs ++ rest))) kb (by decide) hb
    (boundary_cons ' ' _ (by decide))
  have h3 := getNextToken_word [' '] f.rhs rest (f.lhs ++ ' ' :: (f.rhs ++ rest)) kc
    (by decide) hc hr
  by_cases hi : f.op = "init".toList
  · rw [parseCallHelper_init tk ⟨ka, f.op⟩ ⟨kb, f.lhs⟩ ⟨kc, f.rhs⟩ _ _ _ _ h1 h2 h3
      (hinit.mpr hi), CallForm.text, if_pos hi]
  · rw [parseCallHelper_op tk ⟨ka, f.op⟩ ⟨kb, f.lhs⟩ ⟨kc, f.rhs⟩ _ _ _ _ h1 h2 h3
      (fun h => hi h.2) hnc, CallForm.text, if_neg hi]

/-- The loop of call-forms on the text of well-formed forms, the cursor just
after the opening parenthesis of the first: every form is written in order and
the loop leaves at the two closing parentheses after the last form. -/
theorem callLoop_forms (fs : List CallForm) :
    ∀ (f : CallForm) (_hf : ∀ g ∈ f :: fs, g.wellFormed = true) (ws rest st : List Char)
      (_hws : ∀ x ∈ ws, spaceChar x = true) (tok : Token) (out : List Char) (fuel : Nat)
      (_hfuel : (f :: fs).length ≤ fuel),
      callLoop fuel
          ⟨⟨f.op ++ ' ' :: (f.lhs ++ ' ' :: (f.rhs ++ ')' :: (formsSource fs ++ (ws ++ ')' :: rest)))),
            st⟩, tok, out⟩ =
        .done () ⟨⟨rest, ')' :: rest⟩, tok, out ++ formsText (f :: fs)⟩ := by
  induction fs with
  | nil =>
    intro f hf ws rest st hws tok out fuel hfuel
    obtain ⟨n, rfl⟩ : ∃ n, fuel = n + 1 := ⟨fuel - 1, by simp at hfuel; omega⟩
    have h0 := parseCallHelper_form f (hf f (by simp)) tok (')' :: (ws ++ ')' :: rest)) st tok out
      (boundary_cons ')' _ (by decide))
    have h1 := getNextToken_close [] (ws ++ ')' :: rest) (f.rhs ++ ')' :: (ws ++ ')' :: rest))
      (by simp)
    have h2 := getNextToken_close ws rest (')' :: (ws ++ ')' :: rest)) hws
    simp only [List.nil_append] at h1
    simp only [callLoop, formsSource, formsText, List.nil_append, List.append_nil, bind_getToken]
    rw [bind_of_done _ _ _ _ _ h0]
    simp only [bind_next, h1, h2, run_pure, and_self, if_true]
  | cons g gs ih =>
    intro f hf ws rest st hws tok out fuel hfuel
    obtain ⟨n, rfl⟩ : ∃ n, fuel = n + 1 := ⟨fuel - 1, by simp at hfuel; omega⟩
    have hg : g.wellFormed = true := hf g (by simp)
    have hrest : formsSource (g :: gs) ++ (ws ++ ')' :: rest) =
        g.lead ++ '(' :: (g.op ++ ' ' :: (g.lhs ++ ' ' :: (g.rhs ++ ')' ::
          (formsSource gs ++ (ws ++ ')' :: rest))))) := by
      rw [formsSource, List.append_assoc, source_append]
    have h0 := parseCallHelper_form f (hf f (by simp)) tok
      (')' :: (formsSource (g :: gs) ++ (ws ++ ')' :: rest))) st tok out
      (boundary_cons ')' _ (by decide))
    have h1 := getNextToken_close [] (formsSource (g :: gs) ++ (ws ++ ')' :: rest))
      (f.rhs ++ ')' :: (formsSource (g :: gs) ++ (ws ++ ')' :: rest))) (by simp)
    have h2 := getNextToken_open g.lead
      (g.op ++ ' ' :: (g.lhs ++ ' ' :: (g.rhs ++ ')' :: (formsSource gs ++ (ws ++ ')' :: rest)))))
      (')' :: (formsSource (g :: gs) ++ (ws ++ ')' :: rest))) (wellFormed_lead hg)
    rw [← hrest] at h2
    simp only [List.nil_append] at h1
    have hih := ih g (fun x hx => hf x (by simp at hx ⊢; tauto)) ws rest
      ('(' :: (g.op ++ ' ' :: (g.lhs ++ ' ' :: (g.rhs ++ ')' :: (formsSource gs ++ (ws ++ ')' :: rest))))))
      hws tok (out ++ f.text) n (by simp at hfuel ⊢; omega)
    rw [callLoop]
    simp only [bind_getToken]
    rw [bind_of_done _ _ _ _ _ h0]
    simp only [bind_next, h1, h2, reduceCtorEq, and_false, if_false, hih]
    simp [formsText]

/-! ### The rules on abstract token sequences -/

theorem parse_open (fuel : Nat) (s : State) (t : Token) (l1 : Lexer)
    (h1 : getNextToken s.lexer = .tok t l1) (ht : t.kind = .tok_open_paren) :
    parse fuel s = parseLoop fuel fuel { s with lexer := l1, token := t } := by
  simp only [parse, bind_advance, h1, bind_getToken, ht]

theorem parse_close (fuel : Nat) (s : State) (t : Token) (l1 : Lexer)
    (h1 : getNextToken s.lexer = .tok t l1) (ht : t.kind = .tok_close_paren) :
    parse fuel s = .done () { s with lexer := l1, token := t } := by
  simp only [parse, bind_advance, h1, bind_getToken, ht, run_pure]

theorem parse_other (fuel : Nat) (s : State) (t : Token) (l1 : Lexer)
    (h1 : getNextToken s.lexer = .tok t l1) (ho : t.kind ≠ .tok_open_paren)
    (hc : t.kind ≠ .tok_close_paren) :
    parse fuel s = .fatal .expectedOpenParen s.out := by
  simp only [parse, bind_advance, h1, bind_getToken]
  rfl

theorem parseLoop_eof (fuel rounds : Nat) (s : State) (t : Token) (l1 : Lexer)
    (h1 : getNextToken s.lexer = .tok t l1) (ht : t.kind = .tok_eof) :
    parseLoop fuel (rounds + 1) s = .done () { s with lexer := l1, token := t } := by
  simp only [parseLoop, bind_advance, h1, bind_getToken, ht, run_pure]

theorem parseLoop_class (fuel rounds : Nat) (s s1 : State) (t : Token) (l1 : Lexer)
    (h1 : getNextToken s.lexer = .tok t l1) (ht : t.kind = .tok_identifier)
    (hv : t.value = "class".toList)
    (h2 : parseClass fuel { s with lexer := l1, token := t } = .done () s1) :
    parseLoop fuel (rounds + 1) s = parseLoop fuel rounds s1 := by
  simp only [parseLoop, bind_advance, h1, bind_getToken, ht, hv, if_true]
  rw [bind_of_done _ _ _ _ _ h2]

theorem parseLoop_fn (fuel rounds : Nat) (s s1 : State) (t : Token) (l1 : Lexer)
    (h1 : getNextToken s.lexer = .tok t l1) (ht : t.kind = .tok_identifier)
    (hv : t.value = "fn".toList)
    (h2 : parseFunction fuel { s with lexer := l1, token := t } = .done () s1) :
    parseLoop fuel (rounds + 1) s = parseLoop fuel rounds s1 := by
  have hne : t.value ≠ "class".toList := by rw [hv]; decide
  simp only [parseLoop, bind_advance, h1, bind_getToken, ht, if_neg hne]
  simp only [bind_getToken, hv, if_true]
  rw [bind_of_done _ _ _ _ _ h2]

theorem parseLoop_identifier (fuel rounds : Nat) (s : State) (t : Token) (l1 : Lexer)
    (h1 : getNextToken s.lexer = .tok t l1) (ht : t.kind = .tok_identifier)
    (hc : t.value ≠ "class".toList) (hf : t.value ≠ "fn".toList) :
    parseLoop fuel (rounds + 1) s = .fatal .expectedClassOrFunction s.out := by
  simp only [parseLoop, bind_advance, h1, bind_getToken, ht, if_neg hc, if_neg hf]
  rfl

theorem parseLoop_skip (fuel rounds : Nat) (s : State) (t : Token) (l1 : Lexer)
    (h1 : getNextToken s.lexer = .tok t l1) (he : t.kind ≠ .tok_eof)
    (hi : t.kind ≠ .tok_identifier) :
    parseLoop fuel (rounds + 1) s = parseLoop fuel rounds { s with lexer := l1, token := t } := by
  simp only [parseLoop, bind_advance, h1, bind_getToken]

theorem parseClass_empty (fuel : Nat) (s : State) (n c : Token) (l1 l2 : Lexer)
    (h1 : getNextToken s.lexer = .tok n l1) (hn : n.kind = .tok_identifier)
    (h2 : getNextToken l1 = .tok c l2) (hc : c.kind = .tok_close_paren) :
    parseClass fuel s =
      .done () ⟨l2, c, s.out ++ "class ".toList ++ (n.value ++ " \x7b \n".toList) ++ "\x7d; \n".toList⟩ := by
  simp only [parseClass, bind_write, bind_advance, h1, bind_getToken, hn, ne_eq, not_true,
    if_false, h2, hc, if_true]
  rfl

theorem parseClass_private_done (fuel : Nat) (s s4 : State) (n o p c : Token)
    (l1 l2 l3 l5 : Lexer)
    (h1 : getNextToken s.lexer = .tok n l1) (hn : n.kind = .tok_identifier)
    (h2 : getNextToken l1 = .tok o l2) (ho : o.kind = .tok_open_paren)
    (h3 : getNextToken l2 = .tok p l3) (hp : p.kind = .tok_identifier)
    (hv : p.value = "private".toList)
    (h4 : parsePrivate fuel ⟨l3, p, classHeader s.out n "private: \n".toList⟩ = .done () s4)
    (h5 : getNextToken s4.lexer = .tok c l5) (hc : c.kind = .tok_close_paren) :
    parseClass fuel s = .done () ⟨l5, c, s4.out ++ "\x7d; \n".toList⟩ := by
  have hoc : o.kind ≠ .tok_close_paren := by rw [ho]; decide
  have hpp : p.value ≠ "public".toList := by rw [hv]; decide
  unfold classHeader at h4
  simp only [parseClass, bind_write, bind_advance, h1, bind_getToken, hn, ne_eq, not_true,
    if_false, h2, ho, if_neg hoc, if_true, bind_pure_run, h3, hp, if_neg hpp, reduceCtorEq]
  simp only [bind_getToken, hv, if_true, bind_write]
  rw [bind_of_done _ _ _ _ _ h4]
  simp only [bind_advance, h5, bind_getToken, hc, if_true]
  rfl

theorem parseClass_public_private_done (fuel : Nat) (s s4 s7 : State) (n o p o2 q c : Token)
    (l1 l2 l3 l5 l6 l8 : Lexer)
    (h1 : getNextToken s.lexer = .tok n l1) (hn : n.kind = .tok_identifier)
    (h2 : getNextToken l1 = .tok o l2) (ho : o.kind = .tok_open_paren)
    (h3 : getNextToken l2 = .tok p l3) (hp : p.kind = .tok_identifier)
    (hv : p.value = "public".toList)
    (h4 : parsePublic fuel ⟨l3, p, classHeader s.out n "public: \n".toList⟩ = .done () s4)
    (h5 : getNextToken s4.lexer = .tok o2 l5) (ho2 : o2.kind = .tok_open_paren)
    (h6 : getNextToken l5 = .tok q l6) (hq : q.kind = .tok_identifier)
    (hqv : q.value = "private".toList)
    (h7 : parsePrivate fuel ⟨l6, q, s4.out ++ "private: \n".toList⟩ = .done () s7)
    (h8 : getNextToken s7.lexer = .tok c l8) (hc : c.kind = .tok_close_paren) :
    parseClass fuel s = .done () ⟨l8, c, s7.out ++ "\x7d; \n".toList⟩ := by
  have hoc : o.kind ≠ .tok_close_paren := by rw [ho]; decide
  unfold classHeader at h4
  simp only [parseClass, bind_write, bind_advance, h1, bind_getToken, hn, ne_eq, not_true,
    if_false, h2, ho, if_neg hoc, if_true, bind_pure_run, h3, hp, hv, reduceCtorEq]
  rw [bind_of_done _ _ _ _ _ h4]
  simp only [bind_advance, h5, bind_getToken, ho2, reduceCtorEq, if_false, if_true, h6, hq, hqv,
    bind_write]
  rw [bind_of_done _ _ _ _ _ h7]
  simp only [bind_advance, h8, bind_getToken, hc, if_true]
  rfl

theorem parsePublic_forms (f : CallForm) (fs : List CallForm)
    (hf : ∀ g ∈ f :: fs, g.wellFormed = true) (ws rest st : List Char)
    (hws : ∀ x ∈ ws, spaceChar x = true) (tok : Token) (out : List Char) (fuel : Nat)
    (hfuel : (f :: fs).length ≤ fuel) :
    parsePublic fuel ⟨⟨formsSource (f :: fs) ++ (ws ++ ')' :: rest), st⟩, tok, out⟩ =
      .done () ⟨⟨rest, ')' :: rest⟩, ⟨.tok_open_paren, ['(']⟩, out ++ formsText (f :: fs)⟩ := by
  have hsrc : formsSource (f :: fs) ++ (ws ++ ')' :: rest) =
      f.lead ++ '(' :: (f.op ++ ' ' :: (f.lhs ++ ' ' :: (f.rhs ++ ')' ::
        (formsSource fs ++ (ws ++ ')' :: rest))))) := by
    rw [formsSource, List.append_assoc, source_append]
  have h1 := getNextToken_open f.lead
    (f.op ++ ' ' :: (f.lhs ++ ' ' :: (f.rhs ++ ')' :: (formsSource fs ++ (ws ++ ')' :: rest)))))
    st (wellFormed_lead (hf f (by simp)))
  rw [← hsrc] at h1
  simp only [parsePublic, bind_advance, h1]
  exact callLoop_forms fs f hf ws rest _ hws _ out fuel hfuel

theorem parsePrivate_forms (f : CallForm) (fs : List CallForm)
    (hf : ∀ g ∈ f :: fs, g.wellFormed = true) (ws rest st : List Char)
    (hws : ∀ x ∈ ws, spaceChar x = true) (tok : Token) (out : List Char) (fuel : Nat)
    (hfuel : (f :: fs).length ≤ fuel) :
    parsePrivate fuel ⟨⟨formsSource (f :: fs) ++ (ws ++ ')' :: rest), st⟩, tok, out⟩ =
      .done () ⟨⟨rest, ')' :: rest⟩, ⟨.tok_open_paren, ['(']⟩, out ++ formsText (f :: fs)⟩ :=
  parsePublic_forms f fs hf ws rest st hws tok out fuel hfuel

theorem identifier_wordKind {w : List Char} (h : isIdentifier w = true) :
    wordKind w = some .tok_identifier := by
  simp [wordKind, h]

theorem Sim.pure_pure {α : Type} (R : State → State → Prop) (a : α) :
    Sim R (pure a : Run α) (pure a) :=
  ⟨fun _ _ h => ⟨rfl, h⟩⟩

theorem Sim.bind_bind {α β : Type} (R : State → State → Prop) {x y : Run α} {f g : α → Run β}
    (hx : Sim R x y) (hf : ∀ a, Sim R (f a) (g a)) : Sim R (x >>= f) (y >>= g) := by
  refine ⟨fun s t hst => ?_⟩
  have h := hx.run s t hst
  show OutcomeRel R (Run.bind x f s) (Run.bind y g t)
  unfold Run.bind
  cases hxs : x s with
  | outOfFuel => trivial
  | done a s1 =>
    rw [hxs] at h
    cases hyt : y t with
    | outOfFuel => rw [hyt] at h; exact h.elim
    | fatal e o => rw [hyt] at h; exact h.elim
    | done b t1 =>
      rw [hyt] at h
      obtain ⟨rfl, h1⟩ := h
      exact (hf a).run s1 t1 h1
  | fatal e o =>
    rw [hxs] at h
    cases hyt : y t with
    | outOfFuel => rw [hyt] at h; exact h.elim
    | done b t1 => rw [hyt] at h; exact h.elim
    | fatal e2 o2 => rw [hyt] at h; exact h

theorem Sim.ite_ite {α : Type} (R : State → State → Prop) (c : Prop) [Decidable c]
    {x y x1 y1 : Run α} (h1 : Sim R x y) (h2 : Sim R x1 y1) :
    Sim R (if c then x else x1) (if c then y else y1) := by
  split
  · exact h1
  · exact h2

theorem Sim.outOfFuel_left {α : Type} (R : State → State → Prop) (y : Run α) :
    Sim R outOfFuel y :=
  ⟨fun _ _ _ => trivial⟩

theorem Sim.write_write (B : Lexer → Lexer → Prop) (str : List Char) :
    Sim (StateRel B) (write str) (write str) := by
  refine ⟨fun s t h => ?_⟩
  exact ⟨rfl, h.1, h.2.1, by show s.out ++ str = t.out ++ str; rw [h.2.2]⟩

theorem Sim.getToken_getToken (B : Lexer → Lexer → Prop) :
    Sim (StateRel B) getToken getToken :=
  ⟨fun _ _ h => ⟨h.2.1, h⟩⟩

theorem Sim.fatal_fatal {α : Type} (B : Lexer → Lexer → Prop) (e : Fatal) :
    Sim (StateRel B) (reportFatalError e : Run α) (reportFatalError e) :=
  ⟨fun _ _ h => ⟨rfl, h.2.2⟩⟩

theorem Sim.next_next (B : Lexer → Lexer → Prop) (hB : LexStep B) :
    Sim (StateRel B) next next := by
  refine ⟨fun s t h => ?_⟩
  have hs := hB s.lexer t.lexer h.1
  unfold next
  cases h1 : s.lexer.getNextToken <;> cases h2 : t.lexer.getNextToken <;>
    rw [h1, h2] at hs <;> simp only [OutcomeRel] at hs ⊢
  · exact ⟨hs.1, hs.2, h.2.1, h.2.2⟩
  · exact ⟨hs, h.2.2⟩

theorem Sim.advance_advance (B : Lexer → Lexer → Prop) (hB : LexStep B) :
    Sim (StateRel B) advance advance := by
  refine ⟨fun s t h => ?_⟩
  have hs := hB s.lexer t.lexer h.1
  unfold advance
  cases h1 : s.lexer.getNextToken <;> cases h2 : t.lexer.getNextToken <;>
    rw [h1, h2] at hs <;> simp only [OutcomeRel] at hs ⊢
  · exact ⟨trivial, hs.2, hs.1, h.2.2⟩
  · exact ⟨hs, h.2.2⟩

theorem parseCallHelper_sim (B : Lexer → Lexer → Prop) (hB : LexStep B) (tk : Token) :
    Sim (StateRel B) (parseCallHelper tk) (parseCallHelper tk) := by
  unfold parseCallHelper parseConstructer
  dsimp only
  repeat' first
    | intro _
    | apply Sim.bind_bind
    | apply Sim.ite_ite
    | exact Sim.next_next B hB
    | exact Sim.write_write B _
    | exact Sim.fatal_fatal B _
    | exact Sim.pure_pure _ _

theorem callLoop_sim (B : Lexer → Lexer → Prop) (hB : LexStep B) :
    ∀ n m : Nat, n ≤ m → Sim (StateRel B) (callLoop n) (callLoop m) := by
  intro n
  induction n with
  | zero => intro m _; exact Sim.outOfFuel_left _ _
  | succ n ih =>
    intro m hm
    obtain ⟨k, rfl⟩ : ∃ k, m = k + 1 := ⟨m - 1, by omega⟩
    have hk := ih k (by omega)
    unfold callLoop
    repeat' first
      | exact hk
      | exact parseCallHelper_sim B hB _
      | exact Sim.next_next B hB
      | exact Sim.getToken_getToken B
      | exact Sim.pure_pure _ _
      | apply Sim.bind_bind
      | apply Sim.ite_ite
      | intro _

theorem paramLoop_sim (B : Lexer → Lexer → Prop) (hB : LexStep B) :
    ∀ n m : Nat, n ≤ m → Sim (StateRel B) (paramLoop n) (paramLoop m) := by
  intro n
  induction n with
  | zero => intro m _; exact Sim.outOfFuel_left _ _
  | succ n ih =>
    intro m hm
    obtain ⟨k, rfl⟩ : ∃ k, m = k + 1 := ⟨m - 1, by omega⟩
    have hk := ih k (by omega)
    unfold paramLoop
    repeat' first
      | exact hk
      | exact Sim.advance_advance B hB
      | exact Sim.getToken_getToken B
      | exact Sim.write_write B _
      | exact Sim.pure_pure _ _
      | apply Sim.bind_bind
      | apply Sim.ite_ite
      | intro _

theorem parsePublic_sim (B : Lexer → Lexer → Prop) (hB : LexStep B) (n m : Nat) (h : n ≤ m) :
    Sim (StateRel B) (parsePublic n) (parsePublic m) :=
  Sim.bind_bind _ (Sim.advance_advance B hB) (fun _ => callLoop_sim B hB n m h)

theorem parsePrivate_sim (B : Lexer → Lexer → Prop) (hB : LexStep B) (n m : Nat) (h : n ≤ m) :
    Sim (StateRel B) (parsePrivate n) (parsePrivate m) :=
  Sim.bind_bind _ (Sim.advance_advance B hB) (fun _ => callLoop_sim B hB n m h)

theorem parseClass_sim (B : Lexer → Lexer → Prop) (hB : LexStep B) (n m : Nat) (h : n ≤ m) :
    Sim (StateRel B) (parseClass n) (parseClass m) := by
  have h1 := parsePublic_sim B hB n m h
  have h2 := parsePrivate_sim B hB n m h
  unfold parseClass
  dsimp only
  repeat' first
    | exact h1
    | exact h2
    | exact Sim.advance_advance B hB
    | exact Sim.getToken_getToken B
    | exact Sim.write_write B _
    | exact Sim.fatal_fatal B _
    | exact Sim.pure_pure _ _
    | apply Sim.bind_bind
    | apply Sim.ite_ite
    | intro _

theorem mainHelper_sim (B : Lexer → Lexer → Prop) (hB : LexStep B) (n m : Nat) (h : n ≤ m) :
    Sim (StateRel B) (mainHelper n) (mainHelper m) := by
  have h1 := callLoop_sim B hB n m h
  unfold mainHelper
  dsimp only
  repeat' first
    | exact h1
    | exact Sim.advance_advance B hB
    | exact Sim.getToken_getToken B
    | exact Sim.write_write B _
    | exact Sim.fatal_fatal B _
    | exact Sim.pure_pure _ _
    | apply Sim.bind_bind
    | apply Sim.ite_ite
    | intro _

theorem parseFunctionHelper_sim (B : Lexer → Lexer → Prop) (hB : LexStep B) (n m : Nat)
    (h : n ≤ m) : Sim (StateRel B) (parseFunctionHelper n) (parseFunctionHelper m) := by
  have h1 := callLoop_sim B hB n m h
  have h2 := paramLoop_sim B hB n m h
  unfold parseFunctionHelper
  dsimp only
  repeat' first
    | exact h1
    | exact h2
    | exact Sim.advance_advance B hB
    | exact Sim.getToken_getToken B
    | exact Sim.write_write B _
    | exact Sim.fatal_fatal B _
    | exact Sim.pure_pure _ _
    | apply Sim.bind_bind
    | apply Sim.ite_ite
    | intro _

theorem parseFunction_sim (B : Lexer → Lexer → Prop) (hB : LexStep B) (n m : Nat) (h : n ≤ m) :
    Sim (StateRel B) (parseFunction n) (parseFunction m) := by
  have h1 := mainHelper_sim B hB n m h
  have h2 := parseFunctionHelper_sim B hB n m h
  unfold parseFunction
  repeat' first
    | exact h1
    | exact h2
    | exact Sim.advance_advance B hB
    | exact Sim.getToken_getToken B
    | exact Sim.pure_pure _ _
    | apply Sim.bind_bind
    | apply Sim.ite_ite
    | intro _

theorem parseLoop_sim (B : Lexer → Lexer → Prop) (hB : LexStep B) (n m : Nat) (h : n ≤ m) :
    ∀ r q : Nat, r ≤ q → Sim (StateRel B) (parseLoop n r) (parseLoop m q) := by
  have h1 := parseClass_sim B hB n m h
  have h2 := parseFunction_sim B hB n m h
  intro r
  induction r with
  | zero => intro q _; exact Sim.outOfFuel_left _ _
  | succ r ih =>
    intro q hq
    obtain ⟨k, rfl⟩ : ∃ k, q = k + 1 := ⟨q - 1, by omega⟩
    have hk := ih k (by omega)
    unfold parseLoop
    apply Sim.bind_bind _ (Sim.advance_advance B hB)
    intro _
    apply Sim.bind_bind _ (Sim.getToken_getToken B)
    intro tk
    cases tk.kind <;> dsimp only <;>
    repeat' first
      | exact hk
      | exact h1
      | exact h2
      | exact Sim.getToken_getToken B
      | exact Sim.fatal_fatal B _
      | exact Sim.pure_pure _ _
      | apply Sim.bind_bind
      | apply Sim.ite_ite
      | intro _

theorem parse_sim (B : Lexer → Lexer → Prop) (hB : LexStep B) (n m : Nat) (h : n ≤ m) :
    Sim (StateRel B) (parse n) (parse m) := by
  have h1 := parseLoop_sim B hB n m h n m h
  unfold parse
  apply Sim.bind_bind _ (Sim.advance_advance B hB)
  intro _
  apply Sim.bind_bind _ (Sim.getToken_getToken B)
  intro tk
  cases tk.kind <;> dsimp only <;>
  first
    | exact h1
    | exact Sim.fatal_fatal B _
    | exact Sim.pure_pure _ _

/-! ### More fuel does not change a run that has ended -/

theorem lexStep_eq : LexStep Eq := by
  intro l1 l2 h
  subst h
  cases l1.getNextToken <;> simp

theorem stateRel_eq {s t : State} (h : StateRel Eq s t) : s = t := by
  obtain ⟨h1, h2, h3⟩ := h
  cases s; cases t
  simp only at h1 h2 h3
  subst h1 h2 h3
  rfl

theorem outcomeRel_eq {α : Type} {a b : Outcome α} (h : OutcomeRel (StateRel Eq) a b)
    (hne : a ≠ .outOfFuel) : b = a := by
  cases a with
  | outOfFuel => exact absurd rfl hne
  | done x s =>
    cases b with
    | done y t => obtain ⟨rfl, h2⟩ := h; rw [stateRel_eq h2]
    | fatal e o => exact h.elim
    | outOfFuel => exact h.elim
  | fatal e o =>
    cases b with
    | done y t => exact h.elim
    | fatal e2 o2 => obtain ⟨rfl, rfl⟩ := h; rfl
    | outOfFuel => exact h.elim

/-- A run that ends with some fuel ends in the same way with any larger fuel. -/
theorem runTranslator_mono (n m : Nat) (h : n ≤ m) (input : List Char)
    (hne : runTranslator n input ≠ .outOfFuel) :
    runTranslator m input = runTranslator n input :=
  outcomeRel_eq ((parse_sim Eq lexStep_eq n m h).run _ _ ⟨rfl, rfl, rfl⟩) hne

/-- A run that reports a fatal error with some fuel completes with no fuel. -/
theorem runTranslator_never_done (n : Nat) (input : List Char) (e : Fatal) (o : List Char)
    (h : runTranslator n input = .fatal e o) (m : Nat) (s : State) :
    runTranslator m input ≠ .done () s := by
  intro hd
  rcases Nat.le_total n m with hnm | hmn
  · have := runTranslator_mono n m hnm input (by rw [h]; simp)
    rw [h, hd] at this
    cases this
  · have := runTranslator_mono m n hmn input (by rw [hd]; simp)
    rw [h, hd] at this
    cases this

/-- C4. The call-form rule, the stream positioned just after the opening
parenthesis, the next three tokens being `a`, `b`, `c`. If `a` is the
identifier `init`, the text appended to the output is exactly `b c ; ` followed
by a newline. Otherwise, if `a` is not the identifier `cMethod`, the text
appended is exactly `b ac; ` followed by a newline: one space between `b` and
`a`, nothing between `a` and `c`. In either case the lexer is left where the
third call left it: exactly three tokens are consumed. -/
theorem call_form_rule (tk a b c : Token) (s : State) (l1 l2 l3 : Lexer)
    (h1 : getNextToken s.lexer = .tok a l1) (h2 : getNextToken l1 = .tok b l2)
    (h3 : getNextToken l2 = .tok c l3) :
    ((a.kind = .tok_identifier ∧ a.value = "init".toList) →
      parseCallHelper tk s =
        .done () ⟨l3, s.token, s.out ++ (b.value ++ " ".toList ++ c.value ++ " ; ".toList
          ++ "\n".toList)⟩) ∧
    (¬ (a.kind = .tok_identifier ∧ a.value = "init".toList) →
      ¬ (a.kind = .tok_identifier ∧ a.value = "cMethod".toList) →
      parseCallHelper tk s =
        .done () ⟨l3, s.token, s.out ++ (b.value ++ " ".toList ++ a.value ++ c.value
          ++ "; ".toList ++ "\n".toList)⟩) := by
  constructor
  · intro ha
    rw [parseCallHelper_init tk a b c s l1 l2 l3 h1 h2 h3 ha]
    simp
  · intro hi hc
    rw [parseCallHelper_op tk a b c s l1 l2 l3 h1 h2 h3 hi hc]
    simp

/-- Witness of C4: after `(`, the tokens `init int a` append `int a ; ` and a
newline, and the tokens `= a 1` append `a =1; ` and a newline. -/
theorem call_form_rule_witness :
    parseCallHelper ⟨.tok_open_paren, ['(']⟩
        ⟨⟨"init int a)".toList, "(init int a)".toList⟩, ⟨.tok_open_paren, ['(']⟩, []⟩ =
      .done () ⟨⟨")".toList, "a)".toList⟩, ⟨.tok_open_paren, ['(']⟩, "int a ; \n".toList⟩ ∧
    parseCallHelper ⟨.tok_open_paren, ['(']⟩
        ⟨⟨"= a 1)".toList, "(= a 1)".toList⟩, ⟨.tok_open_paren, ['(']⟩, []⟩ =
      .done () ⟨⟨")".toList, "1)".toList⟩, ⟨.tok_open_paren, ['(']⟩, "a =1; \n".toList⟩ :=
  ⟨(call_form_rule ⟨.tok_open_paren, ['(']⟩ ⟨.tok_identifier, "init".toList⟩
      ⟨.tok_identifier, "int".toList⟩ ⟨.tok_identifier, "a".toList⟩
      ⟨⟨"init int a)".toList, "(init int a)".toList⟩, ⟨.tok_open_paren, ['(']⟩, []⟩
      ⟨" int a)".toList, "init int a)".toList⟩ ⟨" a)".toList, "int a)".toList⟩
      ⟨")".toList, "a)".toList⟩ (by decide) (by decide) (by decide)).1 (by decide),
   (call_form_rule ⟨.tok_open_paren, ['(']⟩ ⟨.tok_assign, "=".toList⟩
      ⟨.tok_identifier, "a".toList⟩ ⟨.tok_integer, "1".toList⟩
      ⟨⟨"= a 1)".toList, "(= a 1)".toList⟩, ⟨.tok_open_paren, ['(']⟩, []⟩
      ⟨" a 1)".toList, "= a 1)".toList⟩ ⟨" 1)".toList, "a 1)".toList⟩
      ⟨")".toList, "1)".toList⟩ (by decide) (by decide) (by decide)).2 (by decide) (by decide)⟩

/-! ### The constructor form -/

theorem boundary_space {c : Char} (hc : spaceChar c = true) : boundary c = true := by
  rcases spaceChar_cases hc with h | h | h | h | h | h <;> subst h <;> decide

/-- A text that starts with whitespace and then an opening parenthesis starts
with a boundary character. -/
theorem boundary_ws_open (ws rest : List Char) (hws : ∀ x ∈ ws, spaceChar x = true) :
    boundary (peek (ws ++ '(' :: rest)) = true := by
  cases ws with
  | nil => exact boundary_cons '(' _ (by decide)
  | cons c cs => exact boundary_space (hws c (by simp))

theorem parseLoop_class_fatal (fuel rounds : Nat) (s : State) (t : Token) (l1 : Lexer)
    (e : Fatal) (o : List Char)
    (h1 : getNextToken s.lexer = .tok t l1) (ht : t.kind = .tok_identifier)
    (hv : t.value = "class".toList)
    (h2 : parseClass fuel { s with lexer := l1, token := t } = .fatal e o) :
    parseLoop fuel (rounds + 1) s = .fatal e o := by
  simp only [parseLoop, bind_advance, h1, bind_getToken, ht, hv, if_true]
  rw [bind_of_fatal _ _ _ _ _ h2]

theorem parseFunction_main (fuel : Nat) (s : State) (t : Token) (l1 : Lexer)
    (h1 : getNextToken s.lexer = .tok t l1) (ht : t.kind = .tok_identifier)
    (hv : t.value = "main".toList) :
    parseFunction fuel s = mainHelper fuel { s with lexer := l1, token := t } := by
  simp only [parseFunction, bind_advance, h1, bind_getToken, ht, hv, if_true]

theorem mainHelper_forms (f : CallForm) (fs : List CallForm)
    (hf : ∀ g ∈ f :: fs, g.wellFormed = true) (ws rest st : List Char)
    (hws : ∀ x ∈ ws, spaceChar x = true) (tok : Token) (out : List Char) (fuel : Nat)
    (hfuel : (f :: fs).length ≤ fuel) :
    mainHelper fuel ⟨⟨'(' :: ')' :: (formsSource (f :: fs) ++ (ws ++ ')' :: rest)), st⟩, tok, out⟩ =
      .done () ⟨⟨rest, ')' :: rest⟩, ⟨.tok_open_paren, ['(']⟩,
        out ++ "int main ".toList ++ "() \x7b \n".toList ++ formsText (f :: fs)
          ++ "return 0;".toList ++ "\x7d \n".toList⟩ := by
  have hsrc : formsSource (f :: fs) ++ (ws ++ ')' :: rest) =
      f.lead ++ '(' :: (f.op ++ ' ' :: (f.lhs ++ ' ' :: (f.rhs ++ ')' ::
        (formsSource fs ++ (ws ++ ')' :: rest))))) := by
    rw [formsSource, List.append_assoc, source_append]
  have h1 := getNextToken_open [] (')' :: (formsSource (f :: fs) ++ (ws ++ ')' :: rest))) st
    (by simp)
  have h2 := getNextToken_close [] (formsSource (f :: fs) ++ (ws ++ ')' :: rest))
    ('(' :: ')' :: (formsSource (f :: fs) ++ (ws ++ ')' :: rest))) (by simp)
  have h3 := getNextToken_open f.lead
    (f.op ++ ' ' :: (f.lhs ++ ' ' :: (f.rhs ++ ')' :: (formsSource fs ++ (ws ++ ')' :: rest)))))
    (')' :: (formsSource (f :: fs) ++ (ws ++ ')' :: rest))) (wellFormed_lead (hf f (by simp)))
  rw [← hsrc] at h3
  have h4 := callLoop_forms fs f hf ws rest
    ('(' :: (f.op ++ ' ' :: (f.lhs ++ ' ' :: (f.rhs ++ ')' :: (formsSource fs ++ (ws ++ ')' :: rest))))))
    hws ⟨.tok_open_paren, ['(']⟩ (out ++ "int main ".toList ++ "() \x7b \n".toList) fuel hfuel
  simp only [List.nil_append] at h1 h2
  simp only [mainHelper, bind_write, bind_advance, h1, bind_getToken, ne_eq, not_true, if_false,
    bind_pure_run, h2, h3, reduceCtorEq]
  rw [bind_of_done _ _ _ _ _ h4]
  rfl

/-- The run on `(fn main() f1 ... fn)` with at least one form: the header
`int main () { `, the text of the forms, then `return 0;} `. -/
theorem main_forms_run (f : CallForm) (fs : List CallForm)
    (hf : ∀ g ∈ f :: fs, g.wellFormed = true) (fuel : Nat) (h2 : 2 ≤ fuel)
    (hlen : (f :: fs).length ≤ fuel) :
    runTranslator fuel (mainSource (f :: fs)) =
      .done () ⟨⟨[], []⟩, ⟨.tok_eof, []⟩,
        "int main () \x7b \n".toList ++ formsText (f :: fs) ++ "return 0;\x7d \n".toList⟩ := by
  obtain ⟨n, rfl⟩ : ∃ n, fuel = n + 2 := ⟨fuel - 2, by omega⟩
  let body := formsSource (f :: fs) ++ ([] ++ ')' :: [])
  have hsrc : mainSource (f :: fs) =
      '(' :: ("fn".toList ++ ' ' :: ("main".toList ++ '(' :: ')' :: body)) := by
    simp [mainSource, body]
  have h1 := getNextToken_open [] ("fn".toList ++ ' ' :: ("main".toList ++ '(' :: ')' :: body))
    (mainSource (f :: fs)) (by simp)
  have h2 := getNextToken_word [] "fn".toList (' ' :: ("main".toList ++ '(' :: ')' :: body))
    ('(' :: ("fn".toList ++ ' ' :: ("main".toList ++ '(' :: ')' :: body)))
    .tok_identifier (by simp) (by decide) (boundary_cons ' ' _ (by decide))
  have h3 := getNextToken_word [' '] "main".toList ('(' :: ')' :: body)
    ("fn".toList ++ ' ' :: ("main".toList ++ '(' :: ')' :: body))
    .tok_identifier (by decide) (by decide) (boundary_cons '(' _ (by decide))
  have h4 := mainHelper_forms f fs hf [] [] ("main".toList ++ '(' :: ')' :: body) (by simp)
    ⟨.tok_identifier, "main".toList⟩ [] (n + 2) hlen
  have h5 := getNextToken_eof [] [')'] (by simp)
  rw [runTranslator, initial, Lexer.init, hsrc,
    parse_open _ _ _ _ h1 rfl,
    parseLoop_fn _ _ _ _ _ _ h2 rfl rfl ((parseFunction_main _ _ _ _ h3 rfl rfl).trans h4),
    parseLoop_eof _ _ _ _ _ h5 rfl]
  simp

theorem runTranslator_done_unique (n m : Nat) (input : List Char) (s t : State)
    (hn : runTranslator n input = .done () s) (hm : runTranslator m input = .done () t) :
    s = t := by
  rcases Nat.le_total n m with h | h
  · have := runTranslator_mono n m h input (by rw [hn]; simp)
    rw [hn, hm] at this
    injection this with _ h2
    exact h2.symm
  · have := runTranslator_mono m n h input (by rw [hm]; simp)
    rw [hn, hm] at this
    injection this with _ h2

/-- The run of Scenario B. -/
theorem main_scenario_run (fuel : Nat) :
    runTranslator (fuel + 2) "(fn main() (init double b) (= b 2.5))".toList =
      .done () ⟨⟨[], []⟩, ⟨.tok_eof, []⟩,
        "int main () \x7b \ndouble b ; \nb =2.5; \nreturn 0;\x7d \n".toList⟩ :=
  main_forms_run ⟨" ".toList, "init".toList, "double".toList, "b".toList⟩
    [⟨" ".toList, "=".toList, "b".toList, "2.5".toList⟩] (by decide) (fuel + 2) (by omega)
    (by simp)

/-- C2, as stated, fails on the code: whatever the fuel, a completed run on
`(fn main() (init double b) (= b 2.5))` has not written a text that begins
with `int main() { `. -/
theorem main_scenario_counterexample :
    ¬ ∃ (fuel : Nat) (s : State),
      runTranslator fuel "(fn main() (init double b) (= b 2.5))".toList = .done () s ∧
      "int main() \x7b ".toList <+: s.out := by
  rintro ⟨fuel, s, hrun, hpre⟩
  have hs := runTranslator_done_unique _ _ _ _ _ hrun (main_scenario_run 0)
  subst hs
  revert hpre
  decide

/-- C2, amended. Translating `(fn main() (init double b) (= b 2.5))` completes
without error, whatever fuel of at least 2 is given; the emitted text is
`int main () { \ndouble b ; \nb =2.5; \nreturn 0;} \n`: it begins with
`int main () { ` (a space between `main` and `()`), contains `double b ; ` and
`b =2.5;`, and ends with the line `return 0;} `. -/
theorem main_scenario_translation :
    (∀ fuel : Nat, runTranslator (fuel + 2) "(fn main() (init double b) (= b 2.5))".toList =
      .done () ⟨⟨[], []⟩, ⟨.tok_eof, []⟩,
        "int main () \x7b \ndouble b ; \nb =2.5; \nreturn 0;\x7d \n".toList⟩) ∧
    "int main () \x7b ".toList <+: "int main () \x7b \ndouble b ; \nb =2.5; \nreturn 0;\x7d \n".toList ∧
    "double b ; ".toList <:+: "int main () \x7b \ndouble b ; \nb =2.5; \nreturn 0;\x7d \n".toList ∧
    "b =2.5;".toList <:+: "int main () \x7b \ndouble b ; \nb =2.5; \nreturn 0;\x7d \n".toList ∧
    "return 0;\x7d \n".toList <:+ "int main () \x7b \ndouble b ; \nb =2.5; \nreturn 0;\x7d \n".toList :=
  ⟨main_scenario_run, by decide, by decide, by decide, by decide⟩

/-! ### String literals, the reference sigil, the end of the input -/

theorem getNextToken_string_closed (body rest st : List Char) (h1 : ∀ x ∈ body, x ≠ '"')
    (h2 : ∀ x ∈ body, x ≠ '\x00') :
    getNextToken ⟨'"' :: (body ++ '"' :: rest), st⟩ =
      .tok ⟨.tok_string, '"' :: (body ++ ['"'])⟩ ⟨rest, '"' :: (body ++ '"' :: rest)⟩ := by
  have hb : ∀ x ∈ body, stringChar x = true := by
    intro x hx; simp [stringChar, h1 x hx, h2 x hx]
  have hs : scan spaceChar ('"' :: (body ++ '"' :: rest)) = '"' :: (body ++ '"' :: rest) :=
    scan_cons_stop _ _ _ (by decide)
  have hq : scan stringChar (body ++ '"' :: rest) = '"' :: rest := by
    rw [scan_append _ _ _ hb]; exact scan_cons_stop _ _ _ (by decide)
  have hsl : Lexer.slice ('"' :: (body ++ '"' :: rest)) rest = '"' :: (body ++ ['"']) := by
    have := slice_append ('"' :: (body ++ ['"'])) rest
    simpa using this
  simp only [getNextToken, hs, peek_cons, List.tail_cons, hq, hsl]
  rfl

theorem scan_stringChar_open (body : List Char) (h1 : ∀ x ∈ body, x ≠ '"') :
    peek (scan stringChar body) ≠ '"' := by
  induction body with
  | nil => decide
  | cons c cs ih =>
    have hc : c ≠ '"' := h1 c (by simp)
    by_cases h0 : c = '\x00'
    · subst h0
      rw [scan_cons_stop _ _ _ (by decide)]
      exact hc
    · have hsc : stringChar c = true := by simp [stringChar, hc, h0]
      have := scan_append stringChar [c] cs (by simpa using hsc)
      simp only [List.singleton_append] at this
      rw [this]
      exact ih (fun x hx => h1 x (by simp [hx]))

theorem getNextToken_string_open (body st : List Char) (h1 : ∀ x ∈ body, x ≠ '"') :
    getNextToken ⟨'"' :: body, st⟩ = .fatal .unterminatedString := by
  have hs : scan spaceChar ('"' :: body) = '"' :: body := scan_cons_stop _ _ _ (by decide)
  simp only [getNextToken, hs, peek_cons, List.tail_cons, if_neg (scan_stringChar_open body h1)]
  rfl

/-- C6. After whitespace, an opening quote with no further quote before the
end of the input makes `getNextToken` report the unterminated-string error and
return no token; with a later quote it returns a string-literal token whose
text runs from the opening quote through the next quote inclusive, the cursor
just after it. -/
theorem string_literal_rule (ws body : List Char) (st : List Char)
    (hws : ∀ x ∈ ws, spaceChar x = true) (hbody : ∀ x ∈ body, x ≠ '"') :
    getNextToken ⟨ws ++ '"' :: body, st⟩ = .fatal .unterminatedString ∧
    ∀ rest : List Char, (∀ x ∈ body, x ≠ '\x00') →
      getNextToken ⟨ws ++ '"' :: (body ++ '"' :: rest), st⟩ =
        .tok ⟨.tok_string, '"' :: (body ++ ['"'])⟩ ⟨rest, '"' :: (body ++ '"' :: rest)⟩ := by
  constructor
  · rw [getNextToken_skip ws _ st st hws]
    exact getNextToken_string_open body st hbody
  · intro rest h0
    rw [getNextToken_skip ws _ st st hws]
    exact getNextToken_string_closed body rest st hbody h0

/-- Witness of C6 (Scenario D): `"abc` at the end of the input is an
unterminated string, and `"abc" x` gives the token `"abc"`. -/
theorem string_literal_rule_witness :
    getNextToken ⟨" \"abc".toList, []⟩ = .fatal .unterminatedString ∧
    getNextToken ⟨" \"abc\" x".toList, []⟩ =
      .tok ⟨.tok_string, "\"abc\"".toList⟩ ⟨" x".toList, "\"abc\" x".toList⟩ :=
  ⟨(string_literal_rule " ".toList "abc".toList [] (by decide) (by decide)).1,
   (string_literal_rule " ".toList "abc".toList [] (by decide) (by decide)).2 " x".toList
     (by decide)⟩

/-- C7. After whitespace, `&` followed by a character that is not a letter,
the end of the input included, makes `getNextToken` report the
invalid-character error and return no token. -/
theorem reference_sigil_rule (ws rest st : List Char) (hws : ∀ x ∈ ws, spaceChar x = true)
    (hrest : isalpha (peek rest) = false) :
    getNextToken ⟨ws ++ '&' :: rest, st⟩ = .fatal .invalidCharacter := by
  rw [getNextToken_skip ws _ st st hws, getNextToken_amp, hrest]
  rfl

/-- Witness of C7 (Scenario E): a lone `&` before a space, and a lone `&` at
the end of the input. -/
theorem reference_sigil_rule_witness :
    getNextToken ⟨"  & x".toList, []⟩ = .fatal .invalidCharacter ∧
    getNextToken ⟨"&".toList, []⟩ = .fatal .invalidCharacter :=
  ⟨reference_sigil_rule "  ".toList " x".toList [] (by decide) (by decide),
   reference_sigil_rule [] [] [] (by simp) (by decide)⟩

/-! ### After the end of the input -/

/-- The single-character tokens that are returned without looking further. -/
theorem getNextToken_fixed (c : Char) (k : TokenKind)
    (h : (c, k) ∈ [('(', TokenKind.tok_open_paren), (')', .tok_close_paren), ('.', .tok_dot),
      ('+', .tok_add), ('/', .tok_div), (',', .tok_comma)]) (rest st : List Char) :
    getNextToken ⟨c :: rest, st⟩ = .tok ⟨k, [c]⟩ ⟨rest, c :: rest⟩ := by
  simp only [List.mem_cons, Prod.mk.injEq, List.mem_singleton, List.not_mem_nil, or_false] at h
  rcases h with ⟨rfl, rfl⟩ | ⟨rfl, rfl⟩ | ⟨rfl, rfl⟩ | ⟨rfl, rfl⟩ | ⟨rfl, rfl⟩ | ⟨rfl, rfl⟩ <;> rfl

/-- What `getNextToken` does at a first character `c` that is not whitespace,
by the class of `c`. -/
theorem getNextToken_shape (c : Char) (hc : spaceChar c = false) :
    (c = '\x00' ∧ ∀ rest st, getNextToken ⟨c :: rest, st⟩ =
        .tok ⟨.tok_eof, []⟩ ⟨c :: rest, c :: rest⟩) ∨
    (isalpha c = true ∧ ∀ rest st, getNextToken ⟨c :: rest, st⟩ =
        .tok ⟨.tok_identifier, Lexer.slice (c :: rest) (scan identChar (c :: rest))⟩
          ⟨scan identChar (c :: rest), c :: rest⟩) ∨
    (isdigit c = true ∧ ∀ rest st, getNextToken ⟨c :: rest, st⟩ =
        .tok ⟨.tok_integer, Lexer.slice (c :: rest) (scan numberChar (c :: rest))⟩
          ⟨scan numberChar (c :: rest), c :: rest⟩) ∨
    (c = '"' ∧ ∀ rest st, getNextToken ⟨c :: rest, st⟩ =
        if peek (scan stringChar rest) = '"' then
          .tok ⟨.tok_string, Lexer.slice (c :: rest) (scan stringChar rest).tail⟩
            ⟨(scan stringChar rest).tail, c :: rest⟩
        else .fatal .unterminatedString) ∨
    (∃ k, (c, k) ∈ [('(', TokenKind.tok_open_paren), (')', .tok_close_paren), ('.', .tok_dot),
        ('+', .tok_add), ('/', .tok_div), (',', .tok_comma)] ∧
      ∀ rest st, getNextToken ⟨c :: rest, st⟩ = .tok ⟨k, [c]⟩ ⟨rest, c :: rest⟩) ∨
    (c = '=' ∧ ∀ rest st, getNextToken ⟨c :: rest, st⟩ =
        if peek rest = '=' then .tok ⟨.tok_equal, ['=', '=']⟩ ⟨rest.tail, c :: rest⟩
        else .tok ⟨.tok_assign, ['=']⟩ ⟨rest, c :: rest⟩) ∨
    (c = '-' ∧ ∀ rest st, getNextToken ⟨c :: rest, st⟩ =
        if peek rest = '>' then .tok ⟨.tok_arrow, ['-', '>']⟩ ⟨rest.tail, c :: rest⟩
        else .tok ⟨.tok_sub, ['-']⟩ ⟨rest, c :: rest⟩) ∨
    (c = '*' ∧ ∀ rest st, getNextToken ⟨c :: rest, st⟩ =
        if isalpha (peek rest) then
          .tok ⟨.tok_identifier, Lexer.slice (c :: rest) rest.tail⟩ ⟨rest.tail, c :: rest⟩
        else .tok ⟨.tok_mut, ['*']⟩ ⟨rest, c :: rest⟩) ∨
    (c = '&' ∧ ∀ rest st, getNextToken ⟨c :: rest, st⟩ =
        if isalpha (peek rest) then
          .tok ⟨.tok_identifier, Lexer.slice (c :: rest) rest.tail⟩ ⟨rest.tail, c :: rest⟩
        else .fatal .invalidCharacter) ∨
    (c = ';' ∧ ∀ rest st, getNextToken ⟨c :: rest, st⟩ =
        .tok ⟨.tok_comment, []⟩ ⟨scan commentChar (c :: rest), c :: rest⟩) ∨
    (∀ rest st, getNextToken ⟨c :: rest, st⟩ = .tok ⟨.tok_symbol, [c]⟩ ⟨c :: rest, c :: rest⟩) := by
  have hsc : ∀ rest, scan spaceChar (c :: rest) = c :: rest :=
    fun rest => scan_cons_stop _ _ _ hc
  by_cases h0 : c = '\x00'
  · exact Or.inl ⟨h0, fun rest st => by subst h0; rfl⟩
  right
  by_cases h1 : isalpha c = true
  · refine Or.inl ⟨h1, fun rest st => ?_⟩
    simp only [getNextToken, hsc, peek_cons, if_neg h0, h1, if_true, identifier]
  right
  by_cases h2 : isdigit c = true
  · refine Or.inl ⟨h2, fun rest st => ?_⟩
    simp only [getNextToken, hsc, peek_cons, if_neg h0, h1, Bool.false_eq_true, if_false, h2,
      if_true, integer]
  right
  by_cases h3 : c = '"'
  · exact Or.inl ⟨h3, fun rest st => by subst h3; rfl⟩
  right
  by_cases h4 : ∃ k, (c, k) ∈ [('(', TokenKind.tok_open_paren), (')', .tok_close_paren),
      ('.', .tok_dot), ('+', .tok_add), ('/', .tok_div), (',', .tok_comma)]
  · obtain ⟨k, hk⟩ := h4
    exact Or.inl ⟨k, hk, fun rest st => getNextToken_fixed c k hk rest st⟩
  right
  by_cases h5 : c = '='
  · exact Or.inl ⟨h5, fun rest st => by subst h5; rfl⟩
  right
  by_cases h6 : c = '-'
  · exact Or.inl ⟨h6, fun rest st => by subst h6; rfl⟩
  right
  have hname : ∀ x, isalpha x = true → nameChar x = true := by
    intro x hx; simp [nameChar, isalnum, hx]
  by_cases h7 : c = '*'
  · refine Or.inl ⟨h7, fun rest st => ?_⟩
    subst h7
    rw [getNextToken_star]
    by_cases ha : isalpha (peek rest) = true
    · rw [if_pos ha, if_pos ha, if_pos (hname _ ha)]
    · rw [if_neg ha, if_neg ha]
  right
  by_cases h8 : c = '&'
  · refine Or.inl ⟨h8, fun rest st => ?_⟩
    subst h8
    rw [getNextToken_amp]
    by_cases ha : isalpha (peek rest) = true
    · rw [if_pos ha, if_pos ha, if_pos (hname _ ha)]
    · rw [if_neg ha, if_neg ha]
  right
  by_cases h9 : c = ';'
  · exact Or.inl ⟨h9, fun rest st => by subst h9; rfl⟩
  right
  intro rest st
  have e1 : c ≠ '(' := fun h => h4 ⟨.tok_open_paren, by simp [h]⟩
  have e2 : c ≠ ')' := fun h => h4 ⟨.tok_close_paren, by simp [h]⟩
  have e3 : c ≠ '.' := fun h => h4 ⟨.tok_dot, by simp [h]⟩
  have e4 : c ≠ '+' := fun h => h4 ⟨.tok_add, by simp [h]⟩
  have e5 : c ≠ '/' := fun h => h4 ⟨.tok_div, by simp [h]⟩
  have e6 : c ≠ ',' := fun h => h4 ⟨.tok_comma, by simp [h]⟩
  simp only [getNextToken, hsc, peek_cons, if_neg h0, h1, h2, if_neg h3, if_neg e1, if_neg e2,
    if_neg h5, if_neg h6, if_neg e3, if_neg e4, if_neg h7, if_neg e5, if_neg h8, if_neg h9,
    Bool.false_eq_true, if_false, if_neg e6, symbol, List.take_succ_cons, List.take_zero]

theorem scan_spaceChar_split (pos : List Char) :
    ∃ ws, (∀ x ∈ ws, spaceChar x = true) ∧ pos = ws ++ scan spaceChar pos ∧
      (scan spaceChar pos = [] ∨
        ∃ c rest, scan spaceChar pos = c :: rest ∧ spaceChar c = false) := by
  refine ⟨pos.takeWhile spaceChar, fun x hx => List.mem_takeWhile_imp hx,
    (List.takeWhile_append_dropWhile spaceChar pos).symm, ?_⟩
  cases h : scan spaceChar pos with
  | nil => exact Or.inl rfl
  | cons c rest =>
    refine Or.inr ⟨c, rest, rfl, ?_⟩
    have := List.head_dropWhile_not spaceChar pos (by unfold scan at h; rw [h]; simp)
    unfold scan at h
    simp only [h, List.head_cons] at this
    simpa using this

/-- The call at a cursor is the call at the first character that is not
whitespace. -/
theorem getNextToken_at_scan (pos st : List Char) :
    getNextToken ⟨pos, st⟩ = getNextToken ⟨scan spaceChar pos, st⟩ := by
  obtain ⟨ws, hws, hpos, _⟩ := scan_spaceChar_split pos
  conv_lhs => rw [hpos]
  exact getNextToken_skip ws _ st st hws

theorem getNextToken_nil (st : List Char) :
    getNextToken ⟨[], st⟩ = .tok ⟨.tok_eof, []⟩ ⟨[], []⟩ := rfl

/-- A call that returns an end-of-input token leaves the lexer in a state in
which the next call returns the end-of-input token and the same state. -/
theorem getNextToken_eof_fixed (lx lx1 : Lexer) (t : Token)
    (h : getNextToken lx = .tok t lx1) (ht : t.kind = .tok_eof) :
    getNextToken lx1 = .tok ⟨.tok_eof, []⟩ lx1 := by
  obtain ⟨pos, st⟩ := lx
  rw [getNextToken_at_scan] at h
  obtain ⟨ws, -, -, hnil | ⟨c, rest, hcons, hc⟩⟩ := scan_spaceChar_split pos
  · rw [hnil, getNextToken_nil] at h
    injection h with _ h2
    subst h2
    rfl
  · rw [hcons] at h
    rcases getNextToken_shape c hc with ⟨h0, he⟩ | ⟨_, he⟩ | ⟨_, he⟩ | ⟨_, he⟩ | ⟨k, hk, he⟩ |
      ⟨_, he⟩ | ⟨_, he⟩ | ⟨_, he⟩ | ⟨_, he⟩ | ⟨_, he⟩ | he
    · rw [he] at h
      injection h with _ h2
      subst h2
      exact he rest (c :: rest)
    all_goals
      rw [he] at h
      first
      | (injection h with h1 _
         rw [← h1] at ht
         simp only at ht
         subst ht
         simp at hk)
      | (try split_ifs at h
         all_goals
           injection h with h1 _
           rw [← h1] at ht
           simp at ht)

/-- C9. Once a call of `getNextToken` has returned an end-of-input token, every
later call returns an end-of-input token, reports no error, and leaves the
cursor (and `start`) where it was. -/
theorem end_of_input_stable (lx lx1 : Lexer) (t : Token)
    (h : getNextToken lx = .tok t lx1) (ht : t.kind = .tok_eof) (n : Nat) :
    calls n lx1 = .tok ⟨.tok_eof, []⟩ lx1 := by
  have hfix := getNextToken_eof_fixed lx lx1 t h ht
  induction n with
  | zero => exact hfix
  | succ n ih => rw [calls, hfix]; exact ih

/-- Witness of C9: on `(a) `, the third call returns the end-of-input token
with the cursor at the end, and so does every later call, whatever its number
`n`. -/
theorem end_of_input_stable_witness :
    calls 3 (Lexer.init "(a) ".toList) = .tok ⟨.tok_eof, []⟩ ⟨[], []⟩ ∧
    ∀ n, calls n ⟨[], []⟩ = .tok ⟨.tok_eof, []⟩ ⟨[], []⟩ :=
  ⟨by decide,
   fun n => end_of_input_stable ⟨" ".toList, ")".toList⟩ ⟨[], []⟩ ⟨.tok_eof, []⟩ (by decide)
     rfl n⟩

/-! ### The top level -/

/-- A run that completes with some fuel reports a fatal error with no fuel. -/
theorem runTranslator_never_fatal (n : Nat) (input : List Char) (s : State)
    (h : runTranslator n input = .done () s) (m : Nat) (e : Fatal) (o : List Char) :
    runTranslator m input ≠ .fatal e o :=
  fun hf => runTranslator_never_done m input e o hf n s h

/-- C10, as stated, fails on the code: the input `)`, whose first token is not
`(`, and the input `(1)`, in which a numeric literal stands where a declaration
keyword is expected, are both translated to the end with nothing written, and
with no fuel does either run report an error. -/
theorem top_level_counterexample :
    runTranslator 0 ")".toList = .done () ⟨⟨[], [')']⟩, ⟨.tok_close_paren, [')']⟩, []⟩ ∧
    (¬ ∃ fuel e o, runTranslator fuel ")".toList = .fatal e o) ∧
    runTranslator 3 "(1)".toList = .done () ⟨⟨[], []⟩, ⟨.tok_eof, []⟩, []⟩ ∧
    (¬ ∃ fuel e o, runTranslator fuel "(1)".toList = .fatal e o) := by
  have h1 : runTranslator 0 ")".toList =
      .done () ⟨⟨[], [')']⟩, ⟨.tok_close_paren, [')']⟩, []⟩ :=
    parse_close 0 (initial ")".toList) ⟨.tok_close_paren, [')']⟩ ⟨[], [')']⟩ rfl rfl
  have h2 : runTranslator 3 "(1)".toList = .done () ⟨⟨[], []⟩, ⟨.tok_eof, []⟩, []⟩ := by
    rw [runTranslator,
      parse_open 3 (initial "(1)".toList) ⟨.tok_open_paren, ['(']⟩ ⟨"1)".toList, "(1)".toList⟩
        rfl rfl,
      parseLoop_skip 3 2 _ ⟨.tok_integer, ['1']⟩ ⟨")".toList, "1)".toList⟩ (by decide)
        (by decide) (by decide),
      parseLoop_skip 3 1 _ ⟨.tok_close_paren, [')']⟩ ⟨[], ")".toList⟩ (by decide)
        (by decide) (by decide),
      parseLoop_eof 3 0 _ ⟨.tok_eof, []⟩ ⟨[], []⟩ (by decide) rfl]
    rfl
  refine ⟨h1, ?_, h2, ?_⟩
  · rintro ⟨fuel, e, o, hf⟩
    exact runTranslator_never_fatal 0 _ _ h1 fuel e o hf
  · rintro ⟨fuel, e, o, hf⟩
    exact runTranslator_never_fatal 3 _ _ h2 fuel e o hf

/-- C10, amended. When the first token is neither `(` nor `)`, the translation
aborts with the syntax error "Expected '('" and nothing written; when the first
token is `)`, it completes with nothing written. Inside the outer list, where a
declaration keyword is expected, an identifier other than `class` and `fn`
aborts the translation with the syntax error "Expected 'class' or 'function'",
and a token that is neither an identifier nor the end of the input (a numeric
literal, a string literal, a parenthesis, an operator token) is passed over
without error. -/
theorem top_level_rule :
    (∀ (fuel : Nat) (input : List Char) (t : Token) (lx : Lexer),
      getNextToken (Lexer.init input) = .tok t lx →
      t.kind ≠ .tok_open_paren → t.kind ≠ .tok_close_paren →
      runTranslator fuel input = .fatal .expectedOpenParen []) ∧
    (∀ (fuel : Nat) (input : List Char) (t : Token) (lx : Lexer),
      getNextToken (Lexer.init input) = .tok t lx → t.kind = .tok_close_paren →
      runTranslator fuel input = .done () ⟨lx, t, []⟩) ∧
    (∀ (fuel rounds : Nat) (s : State) (t : Token) (lx : Lexer),
      getNextToken s.lexer = .tok t lx → t.kind = .tok_identifier →
      t.value ≠ "class".toList → t.value ≠ "fn".toList →
      parseLoop fuel (rounds + 1) s = .fatal .expectedClassOrFunction s.out) ∧
    (∀ (fuel rounds : Nat) (s : State) (t : Token) (lx : Lexer),
      getNextToken s.lexer = .tok t lx → t.kind ≠ .tok_identifier → t.kind ≠ .tok_eof →
      parseLoop fuel (rounds + 1) s = parseLoop fuel rounds ⟨lx, t, s.out⟩) :=
  ⟨fun fuel input t lx h ho hc => parse_other fuel (initial input) t lx h ho hc,
   fun fuel input t lx h hc => parse_close fuel (initial input) t lx h hc,
   fun fuel rounds s t lx h hi hc hf => parseLoop_identifier fuel rounds s t lx h hi hc hf,
   fun fuel rounds s t lx h hi he => parseLoop_skip fuel rounds s t lx h he hi⟩

/-- Witness of C10, amended: the inputs `class A`, `)`, and the list bodies
`foo)` and `1)` read after an opening parenthesis. -/
theorem top_level_rule_witness :
    runTranslator 5 "class A".toList = .fatal .expectedOpenParen [] ∧
    runTranslator 5 ")".toList = .done () ⟨⟨[], [')']⟩, ⟨.tok_close_paren, [')']⟩, []⟩ ∧
    parseLoop 5 (0 + 1) ⟨⟨"foo)".toList, "(foo)".toList⟩, ⟨.tok_open_paren, ['(']⟩, []⟩ =
      .fatal .expectedClassOrFunction [] ∧
    parseLoop 5 (1 + 1) ⟨⟨"1)".toList, "(1)".toList⟩, ⟨.tok_open_paren, ['(']⟩, []⟩ =
      parseLoop 5 1 ⟨⟨")".toList, "1)".toList⟩, ⟨.tok_integer, ['1']⟩, []⟩ :=
  ⟨top_level_rule.1 5 "class A".toList ⟨.tok_identifier, "class".toList⟩
      ⟨" A".toList, "class A".toList⟩ (by decide) (by decide) (by decide),
   top_level_rule.2.1 5 ")".toList ⟨.tok_close_paren, [')']⟩ ⟨[], [')']⟩ (by decide) rfl,
   top_level_rule.2.2.1 5 0 ⟨⟨"foo)".toList, "(foo)".toList⟩, ⟨.tok_open_paren, ['(']⟩, []⟩
      ⟨.tok_identifier, "foo".toList⟩ ⟨")".toList, "foo)".toList⟩ (by decide) rfl (by decide)
      (by decide),
   top_level_rule.2.2.2 5 1 ⟨⟨"1)".toList, "(1)".toList⟩, ⟨.tok_open_paren, ['(']⟩, []⟩
      ⟨.tok_integer, ['1']⟩ ⟨")".toList, "1)".toList⟩ (by decide) (by decide) (by decide)⟩

/-! ### The cursor only moves forward -/

theorem scan_suffix (q : Char → Bool) (p : List Char) : scan q p <:+ p :=
  List.dropWhile_suffix q

/-- The cursor after a call is at or after the cursor before it. -/
theorem getNextToken_pos_suffix (lx lx1 : Lexer) (t : Token)
    (h : getNextToken lx = .tok t lx1) : lx1.pos <:+ lx.pos := by
  obtain ⟨pos, st⟩ := lx
  rw [getNextToken_at_scan] at h
  have hs : scan spaceChar pos <:+ pos := scan_suffix _ _
  refine List.IsSuffix.trans ?_ hs
  obtain ⟨ws, -, -, hnil | ⟨c, rest, hcons, hc⟩⟩ := scan_spaceChar_split pos
  · rw [hnil, getNextToken_nil] at h
    injection h with _ h2
    subst h2
    rw [hnil]
  · rw [hcons] at h ⊢
    have htail : ∀ l : List Char, l.tail <:+ l := fun l => List.tail_suffix l
    have hr : rest <:+ c :: rest := List.suffix_cons c rest
    rcases getNextToken_shape c hc with ⟨_, he⟩ | ⟨_, he⟩ | ⟨_, he⟩ | ⟨_, he⟩ | ⟨k, _, he⟩ |
      ⟨_, he⟩ | ⟨_, he⟩ | ⟨_, he⟩ | ⟨_, he⟩ | ⟨_, he⟩ | he
    all_goals
      rw [he] at h
      try split_ifs at h
      all_goals
        injection h with _ h2
        subst h2
        first
        | exact List.suffix_refl _
        | exact scan_suffix _ _
        | exact hr
        | exact (htail _).trans hr
        | exact ((htail _).trans (scan_suffix _ _)).trans hr

theorem calls_pos_suffix (k : Nat) :
    ∀ (lx lx1 : Lexer) (t : Token), calls k lx = .tok t lx1 → lx1.pos <:+ lx.pos := by
  induction k with
  | zero => exact fun lx lx1 t h => getNextToken_pos_suffix lx lx1 t h
  | succ k ih =>
    intro lx lx1 t h
    rw [calls] at h
    cases hg : getNextToken lx with
    | fatal e => rw [hg] at h; exact LexResult.noConfusion h
    | tok t0 lx0 =>
      rw [hg] at h
      exact (ih lx0 lx1 t h).trans (getNextToken_pos_suffix lx lx0 t0 hg)

/-- Whitespace in front of the cursor changes no call. -/
theorem calls_skip (n : Nat) (ws p st st2 : List Char) (hws : ∀ x ∈ ws, spaceChar x = true) :
    calls n ⟨ws ++ p, st⟩ = calls n ⟨p, st2⟩ := by
  cases n with
  | zero => exact getNextToken_skip ws p st st2 hws
  | succ n => rw [calls, calls, getNextToken_skip ws p st st2 hws]

/-! ### Whitespace put in at the end of a token -/

/-- A scan over `a ++ v` that does not go beyond `a` either stops inside `a`,
at the same place whatever follows `a`, or passes the whole of `a` and stops at
the first character of `v`. -/
theorem scan_within (q : Char → Bool) (a v : List Char)
    (hlen : v.length ≤ (scan q (a ++ v)).length) :
    ∃ a1 r, a = a1 ++ r ∧ scan q (a ++ v) = r ++ v ∧
      ((r ≠ [] ∧ ∀ x, scan q (a ++ x) = r ++ x) ∨
        (r = [] ∧ (∀ y ∈ a, q y = true) ∧ scan q v = v)) := by
  induction a with
  | nil =>
    have hv : scan q v = v :=
      (scan_suffix q v).eq_of_length (le_antisymm (scan_suffix q v).length_le hlen)
    exact ⟨[], [], rfl, by simpa using hv, Or.inr ⟨rfl, by simp, hv⟩⟩
  | cons c cs ih =>
    by_cases hc : q c = true
    · have hsc : ∀ x, scan q (c :: cs ++ x) = scan q (cs ++ x) := by
        intro x; simp [scan, List.dropWhile_cons, hc]
      rw [hsc] at hlen
      obtain ⟨a1, r, ha, hs, hcase⟩ := ih hlen
      refine ⟨c :: a1, r, by rw [ha]; rfl, by rw [hsc]; exact hs, ?_⟩
      rcases hcase with ⟨hr, hx⟩ | ⟨hr, hall, hv⟩
      · exact Or.inl ⟨hr, fun x => by rw [hsc]; exact hx x⟩
      · refine Or.inr ⟨hr, ?_, hv⟩
        intro y hy
        rcases List.mem_cons.mp hy with rfl | hy
        · exact hc
        · exact hall y hy
    · have hsc : ∀ x, scan q (c :: cs ++ x) = c :: cs ++ x := by
        intro x; simp [scan, List.dropWhile_cons, hc]
      exact ⟨[], c :: cs, rfl, hsc v, Or.inl ⟨by simp, hsc⟩⟩

/-- A scan that stops at the first character of `v` stops, when whitespace `w`
is put in front of `v`, inside `w` or at the first character of `v`. -/
theorem scan_whitespace (q : Char → Bool) (v : List Char) (hv : scan q v = v) (w : List Char)
    (hw : ∀ x ∈ w, spaceChar x = true) :
    ∃ w1, (∀ x ∈ w1, spaceChar x = true) ∧ scan q (w ++ v) = w1 ++ v := by
  induction w with
  | nil => exact ⟨[], by simp, by simpa using hv⟩
  | cons d ds ih =>
    by_cases hd : q d = true
    · obtain ⟨w1, h1, h2⟩ := ih (fun x hx => hw x (by simp [hx]))
      refine ⟨w1, h1, ?_⟩
      rw [← h2]
      simp [scan, List.dropWhile_cons, hd]
    · refine ⟨d :: ds, hw, ?_⟩
      simp [scan, List.dropWhile_cons, hd]

/-- The same, for a condition that no whitespace character meets: the scan
stops at the first character of `w ++ v`. -/
theorem scan_whitespace_stop (q : Char → Bool) (hq : ∀ x, spaceChar x = true → q x = false)
    (v : List Char) (hv : scan q v = v) (w : List Char) (hw : ∀ x ∈ w, spaceChar x = true) :
    scan q (w ++ v) = w ++ v := by
  cases w with
  | nil => simpa using hv
  | cons d ds =>
    have hd : q d = false := hq d (hw d (by simp))
    simp [scan, List.dropWhile_cons, hd]

theorem space_not_identChar (x : Char) (h : spaceChar x = true) : identChar x = false :=
  boundary_ident (boundary_space h)

theorem space_not_numberChar (x : Char) (h : spaceChar x = true) : numberChar x = false :=
  boundary_number (boundary_space h)

/-- An identifier or number scan, with whitespace put in where it stopped: the
token text and the rest of the input after it are the same. -/
theorem scan_insert (q : Char → Bool) (hq : ∀ x, spaceChar x = true → q x = false)
    (a v w : List Char) (hw : ∀ x ∈ w, spaceChar x = true)
    (hlen : v.length ≤ (scan q (a ++ v)).length) :
    ∃ r, scan q (a ++ v) = r ++ v ∧ scan q (a ++ (w ++ v)) = r ++ (w ++ v) ∧
      Lexer.slice (a ++ (w ++ v)) (r ++ (w ++ v)) = Lexer.slice (a ++ v) (r ++ v) := by
  obtain ⟨a1, r, ha, hs, hcase⟩ := scan_within q a v hlen
  refine ⟨r, hs, ?_, ?_⟩
  · rcases hcase with ⟨_, hx⟩ | ⟨hr, hall, hv⟩
    · exact hx _
    · subst hr
      rw [scan_append q a _ hall, List.nil_append]
      exact scan_whitespace_stop q hq v hv w hw
  · subst ha
    rw [List.append_assoc, List.append_assoc, slice_append, slice_append]

/-- A string scan that ends inside `p1`: the closing quote is in `p1`. -/
theorem scan_string_within (p1 v : List Char)
    (hq : peek (scan stringChar (p1 ++ v)) = '"')
    (hlen : v.length ≤ (scan stringChar (p1 ++ v)).tail.length) :
    ∃ a r, p1 = a ++ '"' :: r ∧ ∀ x, scan stringChar (p1 ++ x) = '"' :: (r ++ x) := by
  have hlen1 : v.length ≤ (scan stringChar (p1 ++ v)).length :=
    hlen.trans (by simp)
  obtain ⟨a1, r0, ha, hs, hcase⟩ := scan_within stringChar p1 v hlen1
  rcases hcase with ⟨hr, hx⟩ | ⟨hr, _, hv⟩
  · cases r0 with
    | nil => exact absurd rfl hr
    | cons d r =>
      rw [hs] at hq
      have hd : d = '"' := hq
      subst hd
      exact ⟨a1, r, ha, hx⟩
  · subst hr
    rw [hs, List.nil_append] at hq hlen
    cases v with
    | nil => exact absurd hq (by decide)
    | cons d ds => simp at hlen

theorem peek_append_cons (d : Char) (p x : List Char) : peek (d :: p ++ x) = d := rfl

theorem peek_whitespace (w v : List Char) (hw : ∀ x ∈ w, spaceChar x = true) :
    peek (w ++ v) = peek v ∨ spaceChar (peek (w ++ v)) = true := by
  cases w with
  | nil => exact Or.inl rfl
  | cons d ds => exact Or.inr (hw d (by simp))

theorem tail_length_lt (v : List Char) (h : v.length ≤ v.tail.length) : v = [] := by
  cases v with
  | nil => rfl
  | cons d ds => simp at h

theorem space_ne_eq {x : Char} (h : spaceChar x = true) : x ≠ '=' :=
  boundary_ne_eq (boundary_space h)

theorem space_ne_gt {x : Char} (h : spaceChar x = true) : x ≠ '>' :=
  boundary_ne_gt (boundary_space h)

theorem space_not_alpha {x : Char} (h : spaceChar x = true) : isalpha x = false :=
  boundary_not_alpha (boundary_space h)

/-- One call at a first character that is not whitespace, the token ending at
or before the place where whitespace `w` is put in: the call on the new text
returns the same token and stops at the same place, or, when it stopped at that
very place, inside `w` or just after it. -/
theorem getNextToken_insert_cons (c : Char) (hc : spaceChar c = false)
    (p1 v w st st2 : List Char) (hw : ∀ x ∈ w, spaceChar x = true) (t : Token) (lx1 : Lexer)
    (h : getNextToken ⟨c :: (p1 ++ v), st⟩ = .tok t lx1) (hv : v.length ≤ lx1.pos.length) :
    ∃ q w1 st1, (∀ x ∈ w1, spaceChar x = true) ∧ lx1.pos = q ++ v ∧
      getNextToken ⟨c :: (p1 ++ (w ++ v)), st2⟩ = .tok t ⟨q ++ (w1 ++ v), st1⟩ := by
  rcases getNextToken_shape c hc with ⟨_, he⟩ | ⟨_, he⟩ | ⟨_, he⟩ | ⟨_, he⟩ | ⟨k, _, he⟩ |
    ⟨_, he⟩ | ⟨_, he⟩ | ⟨_, he⟩ | ⟨_, he⟩ | ⟨_, he⟩ | he
  · -- end of input
    rw [he] at h
    injection h with h1 h2
    subst h1 h2
    exact ⟨c :: p1, w, _, hw, rfl, he _ _⟩
  · -- identifier
    rw [he] at h
    injection h with h1 h2
    subst h1 h2
    obtain ⟨r, hs, hs2, hsl⟩ := scan_insert identChar space_not_identChar (c :: p1) v w hw hv
    simp only [List.cons_append] at hs hs2 hsl
    refine ⟨r, w, c :: (p1 ++ (w ++ v)), hw, hs, ?_⟩
    rw [he, hs2, hs, hsl]
  · -- number
    rw [he] at h
    injection h with h1 h2
    subst h1 h2
    obtain ⟨r, hs, hs2, hsl⟩ := scan_insert numberChar space_not_numberChar (c :: p1) v w hw hv
    simp only [List.cons_append] at hs hs2 hsl
    refine ⟨r, w, c :: (p1 ++ (w ++ v)), hw, hs, ?_⟩
    rw [he, hs2, hs, hsl]
  · -- string literal
    rw [he] at h
    by_cases hq : peek (scan stringChar (p1 ++ v)) = '"'
    · rw [if_pos hq] at h
      injection h with h1 h2
      subst h1 h2
      obtain ⟨a, r, ha, hx⟩ := scan_string_within p1 v hq hv
      have hsl : ∀ x, Lexer.slice (c :: (p1 ++ x)) (r ++ x) = c :: (a ++ ['"']) := by
        intro x
        have := slice_append (c :: (a ++ ['"'])) (r ++ x)
        rw [ha]
        simpa using this
      refine ⟨r, w, c :: (p1 ++ (w ++ v)), hw, by rw [hx]; rfl, ?_⟩
      rw [he, hx, hx, if_pos (peek_cons _ _)]
      simp only [List.tail_cons, hsl]
    · rw [if_neg hq] at h
      exact LexResult.noConfusion h
  · -- a single-character token
    rw [he] at h
    injection h with h1 h2
    subst h1 h2
    exact ⟨p1, w, _, hw, rfl, he _ _⟩
  · -- `=`
    rw [he] at h
    cases p1 with
    | nil =>
      by_cases hp : peek v = '='
      · rw [List.nil_append, if_pos hp] at h
        injection h with h1 h2
        subst h1 h2
        have := tail_length_lt v hv
        subst this
        exact absurd hp (by decide)
      · rw [List.nil_append, if_neg hp] at h
        injection h with h1 h2
        subst h1 h2
        have hp2 : peek (w ++ v) ≠ '=' := by
          rcases peek_whitespace w v hw with h3 | h3
          · rw [h3]; exact hp
          · exact space_ne_eq h3
        exact ⟨[], w, _, hw, rfl, by rw [he, List.nil_append, if_neg hp2]⟩
    | cons d p2 =>
      by_cases hd : d = '='
      · rw [if_pos (by exact hd)] at h
        injection h with h1 h2
        subst h1 h2
        exact ⟨p2, w, _, hw, rfl, by rw [he, if_pos (by exact hd)]; rfl⟩
      · rw [if_neg (by exact hd)] at h
        injection h with h1 h2
        subst h1 h2
        exact ⟨d :: p2, w, _, hw, rfl, by rw [he, if_neg (by exact hd)]⟩
  · -- `-`
    rw [he] at h
    cases p1 with
    | nil =>
      by_cases hp : peek v = '>'
      · rw [List.nil_append, if_pos hp] at h
        injection h with h1 h2
        subst h1 h2
        have := tail_length_lt v hv
        subst this
        exact absurd hp (by decide)
      · rw [List.nil_append, if_neg hp] at h
        injection h with h1 h2
        subst h1 h2
        have hp2 : peek (w ++ v) ≠ '>' := by
          rcases peek_whitespace w v hw with h3 | h3
          · rw [h3]; exact hp
          · exact space_ne_gt h3
        exact ⟨[], w, _, hw, rfl, by rw [he, List.nil_append, if_neg hp2]⟩
    | cons d p2 =>
      by_cases hd : d = '>'
      · rw [if_pos (by exact hd)] at h
        injection h with h1 h2
        subst h1 h2
        exact ⟨p2, w, _, hw, rfl, by rw [he, if_pos (by exact hd)]; rfl⟩
      · rw [if_neg (by exact hd)] at h
        injection h with h1 h2
        subst h1 h2
        exact ⟨d :: p2, w, _, hw, rfl, by rw [he, if_neg (by exact hd)]⟩
  · -- `*`
    rw [he] at h
    cases p1 with
    | nil =>
      by_cases hp : isalpha (peek v) = true
      · rw [List.nil_append, if_pos hp] at h
        injection h with h1 h2
        subst h1 h2
        have := tail_length_lt v hv
        subst this
        exact absurd hp (by decide)
      · rw [List.nil_append, if_neg hp] at h
        injection h with h1 h2
        subst h1 h2
        have hp2 : ¬ isalpha (peek (w ++ v)) = true := by
          rcases peek_whitespace w v hw with h3 | h3
          · rw [h3]; exact hp
          · rw [space_not_alpha h3]; simp
        exact ⟨[], w, _, hw, rfl, by rw [he, List.nil_append, if_neg hp2]⟩
    | cons d p2 =>
      have hsl : ∀ x, Lexer.slice (c :: (d :: p2 ++ x)) (d :: p2 ++ x).tail = [c, d] := by
        intro x
        have := slice_append [c, d] (p2 ++ x)
        simpa using this
      by_cases hd : isalpha d = true
      · rw [if_pos (by exact hd)] at h
        injection h with h1 h2
        subst h1 h2
        refine ⟨p2, w, c :: (d :: p2 ++ (w ++ v)), hw, rfl, ?_⟩
        rw [he, if_pos (by exact hd), hsl, hsl]
        rfl
      · rw [if_neg (by exact hd)] at h
        injection h with h1 h2
        subst h1 h2
        exact ⟨d :: p2, w, _, hw, rfl, by rw [he, if_neg (by exact hd)]⟩
  · -- `&`
    rw [he] at h
    cases p1 with
    | nil =>
      by_cases hp : isalpha (peek v) = true
      · rw [List.nil_append, if_pos hp] at h
        injection h with h1 h2
        subst h1 h2
        have := tail_length_lt v hv
        subst this
        exact absurd hp (by decide)
      · rw [List.nil_append, if_neg hp] at h
        exact LexResult.noConfusion h
    | cons d p2 =>
      have hsl : ∀ x, Lexer.slice (c :: (d :: p2 ++ x)) (d :: p2 ++ x).tail = [c, d] := by
        intro x
        have := slice_append [c, d] (p2 ++ x)
        simpa using this
      by_cases hd : isalpha d = true
      · rw [if_pos (by exact hd)] at h
        injection h with h1 h2
        subst h1 h2
        refine ⟨p2, w, c :: (d :: p2 ++ (w ++ v)), hw, rfl, ?_⟩
        rw [he, if_pos (by exact hd), hsl, hsl]
        rfl
      · rw [if_neg (by exact hd)] at h
        exact LexResult.noConfusion h
  · -- comment
    rw [he] at h
    injection h with h1 h2
    subst h1 h2
    obtain ⟨a1, r, ha, hs, hcase⟩ := scan_within commentChar (c :: p1) v hv
    rcases hcase with ⟨_, hx⟩ | ⟨hr, hall, hvv⟩
    · refine ⟨r, w, c :: (p1 ++ (w ++ v)), hw, hs, ?_⟩
      rw [he]
      have := hx (w ++ v)
      simp only [List.cons_append] at this
      rw [this]
    · subst hr
      obtain ⟨w1, hw1, hs1⟩ := scan_whitespace commentChar v hvv w hw
      refine ⟨[], w1, c :: (p1 ++ (w ++ v)), hw1, hs, ?_⟩
      rw [he]
      have := scan_append commentChar (c :: p1) (w ++ v) hall
      simp only [List.cons_append] at this
      rw [this, hs1]
      rfl
  · -- any other character
    rw [he] at h
    injection h with h1 h2
    subst h1 h2
    exact ⟨c :: p1, w, _, hw, rfl, he _ _⟩

/-- One call whose token ends at or before the place where whitespace `w` is
put in. -/
theorem getNextToken_insert (p v w st st2 : List Char) (hw : ∀ x ∈ w, spaceChar x = true)
    (t : Token) (lx1 : Lexer) (h : getNextToken ⟨p ++ v, st⟩ = .tok t lx1)
    (hv : v.length ≤ lx1.pos.length) :
    ∃ q w1 st1, (∀ x ∈ w1, spaceChar x = true) ∧ lx1.pos = q ++ v ∧
      getNextToken ⟨p ++ (w ++ v), st2⟩ = .tok t ⟨q ++ (w1 ++ v), st1⟩ := by
  obtain ⟨ws, hws, hp, hnil | ⟨c, p1, hcons, hc⟩⟩ := scan_spaceChar_split p
  · -- only whitespace before the place
    rw [hnil, List.append_nil] at hp
    subst hp
    have hall : ∀ x ∈ p ++ w, spaceChar x = true := by
      intro x hx
      rcases List.mem_append.mp hx with hx | hx
      · exact hws x hx
      · exact hw x hx
    have h1 : getNextToken ⟨v, st⟩ = .tok t lx1 := by
      rw [← getNextToken_skip p v st st hws]; exact h
    have hpos : lx1.pos = v :=
      (getNextToken_pos_suffix _ _ _ h1).eq_of_length
        (le_antisymm (getNextToken_pos_suffix _ _ _ h1).length_le hv)
    refine ⟨[], [], lx1.start, by simp, by simpa using hpos, ?_⟩
    rw [← List.append_assoc, getNextToken_skip (p ++ w) v st2 st hall, h1]
    cases lx1
    simp only at hpos
    subst hpos
    rfl
  · rw [hcons] at hp
    subst hp
    have h1 : getNextToken ⟨c :: (p1 ++ v), st⟩ = .tok t lx1 := by
      rw [← getNextToken_skip ws (c :: (p1 ++ v)) st st hws]
      simpa using h
    obtain ⟨q, w1, st1, hw1, hq, hg⟩ :=
      getNextToken_insert_cons c hc p1 v w st st2 hw t lx1 h1 hv
    refine ⟨q, w1, st1, hw1, hq, ?_⟩
    rw [← hg, ← getNextToken_skip ws (c :: (p1 ++ (w ++ v))) st2 st2 hws]
    simp

theorem seen_tok_eq {t1 t2 : Token} {l1 l2 : Lexer} (h : t1 = t2) :
    (LexResult.tok t1 l1).seen = (LexResult.tok t2 l2).seen := by
  subst h; rfl

/-- Every call on the text with whitespace put in at the end of a token is
seen to give what the call of the same number gives on the text without. -/
theorem calls_insert (k : Nat) :
    ∀ (p v w st st2 : List Char) (_hw : ∀ x ∈ w, spaceChar x = true) (t : Token) (lx : Lexer)
      (_h : calls k ⟨p ++ v, st⟩ = .tok t lx) (_hv : lx.pos = v) (n : Nat),
      (calls n ⟨p ++ (w ++ v), st2⟩).seen = (calls n ⟨p ++ v, st⟩).seen := by
  induction k with
  | zero =>
    intro p v w st st2 hw t lx h hv n
    have h0 : getNextToken ⟨p ++ v, st⟩ = .tok t lx := h
    obtain ⟨q, w1, st1, hw1, hq, hg⟩ :=
      getNextToken_insert p v w st st2 hw t lx h0 (by rw [hv])
    have hq0 : q = [] := by
      have : (q ++ v).length = v.length := by rw [← hq, hv]
      simpa using this
    subst hq0
    cases n with
    | zero => show (getNextToken _).seen = (getNextToken _).seen; rw [hg, h0]; rfl
    | succ n =>
      rw [calls, calls, hg, h0]
      obtain ⟨lpos, lstart⟩ := lx
      simp only at hv
      subst hv
      simp only [List.nil_append]
      rw [calls_skip n w1 lpos st1 lstart hw1]
  | succ k ih =>
    intro p v w st st2 hw t lx h hv n
    rw [calls] at h
    cases hg : getNextToken ⟨p ++ v, st⟩ with
    | fatal e => rw [hg] at h; exact LexResult.noConfusion h
    | tok t0 lx0 =>
      rw [hg] at h
      have hsuf : v <:+ lx0.pos := by
        have := calls_pos_suffix k lx0 lx t h
        rwa [hv] at this
      obtain ⟨q, w1, st1, hw1, hq, hg2⟩ :=
        getNextToken_insert p v w st st2 hw t0 lx0 hg hsuf.length_le
      obtain ⟨lpos, lstart⟩ := lx0
      simp only at hq
      subst hq
      cases n with
      | zero => show (getNextToken _).seen = (getNextToken _).seen; rw [hg, hg2]; rfl
      | succ n =>
        rw [calls, calls, hg, hg2]
        exact ih q v w1 lstart st1 hw1 t lx h hv n

theorem sameTokens_symm {l1 l2 : Lexer} (h : SameTokens l1 l2) : SameTokens l2 l1 :=
  fun n => (h n).symm

/-- Lexers with the same tokens return the same token and have the same tokens
again, or report the same error. -/
theorem lexStep_sameTokens : LexStep SameTokens := by
  intro l1 l2 h
  have h0 := h 0
  simp only [calls] at h0
  cases h1 : getNextToken l1 with
  | tok a m1 =>
    cases h2 : getNextToken l2 with
    | tok b m2 =>
      rw [h1, h2] at h0
      simp only [LexResult.seen, Except.ok.injEq] at h0
      refine ⟨h0, fun n => ?_⟩
      have hn := h (n + 1)
      simp only [calls, h1, h2] at hn
      exact hn
    | fatal e2 =>
      rw [h1, h2] at h0
      simp [LexResult.seen] at h0
  | fatal e1 =>
    cases h2 : getNextToken l2 with
    | tok b m2 =>
      rw [h1, h2] at h0
      simp [LexResult.seen] at h0
    | fatal e2 =>
      rw [h1, h2] at h0
      simp only [LexResult.seen, Except.error.injEq] at h0
      exact h0

theorem report_eq_of_rel {B : Lexer → Lexer → Prop} {α : Type} {a b : Outcome α}
    (h1 : OutcomeRel (StateRel B) a b) (h2 : OutcomeRel (StateRel (fun x y => B y x)) b a) :
    a.report = b.report := by
  cases a with
  | outOfFuel =>
    cases b with
    | outOfFuel => rfl
    | done y t => exact h2.elim
    | fatal e o => exact h2.elim
  | done x s =>
    cases b with
    | outOfFuel => exact h1.elim
    | done y t => simp only [Outcome.report]; rw [h1.2.2.2]
    | fatal e o => exact h1.elim
  | fatal e o =>
    cases b with
    | outOfFuel => exact h1.elim
    | done y t => exact h1.elim
    | fatal e2 o2 => obtain ⟨rfl, rfl⟩ := h1; rfl

/-- Inputs whose lexers have the same tokens are translated to the same
report, whatever the fuel. -/
theorem runTranslator_sameTokens (i1 i2 : List Char)
    (h : SameTokens (Lexer.init i1) (Lexer.init i2)) (fuel : Nat) :
    (runTranslator fuel i1).report = (runTranslator fuel i2).report := by
  have hflip : LexStep (fun x y => SameTokens y x) := by
    intro l1 l2 h12
    have := lexStep_sameTokens l1 l2 (sameTokens_symm h12)
    cases h1 : getNextToken l1 <;> cases h2 : getNextToken l2 <;> rw [h1, h2] at this
    · exact ⟨this.1, sameTokens_symm this.2⟩
    · exact this
    · exact this
    · exact this
  exact report_eq_of_rel
    ((parse_sim SameTokens lexStep_sameTokens fuel fuel le_rfl).run _ _ ⟨h, rfl, rfl⟩)
    ((parse_sim _ hflip fuel fuel le_rfl).run _ _ ⟨h, rfl, rfl⟩)

/-- C8. Let the lexer run on `u ++ v` end a token exactly at the end of `u`,
and let `w` be whitespace. Then every call of `getNextToken` on `u ++ w ++ v`
is seen to return what the call of the same number returns on `u ++ v` (the
same kind and text, or the same error), and the translator gives the same
report for both inputs: the same emitted text, or the same error after the
same text. -/
theorem whitespace_insensitive (u v w : List Char) (hw : ∀ x ∈ w, spaceChar x = true)
    (k : Nat) (t : Token) (lx : Lexer) (hk : calls k (Lexer.init (u ++ v)) = .tok t lx)
    (hlx : lx.pos = v) :
    (∀ n, (calls n (Lexer.init (u ++ (w ++ v)))).seen = (calls n (Lexer.init (u ++ v))).seen) ∧
    (∀ fuel, (runTranslator fuel (u ++ (w ++ v))).report =
      (runTranslator fuel (u ++ v)).report) := by
  have hcalls : SameTokens (Lexer.init (u ++ (w ++ v))) (Lexer.init (u ++ v)) :=
    fun n => calls_insert k u v w (u ++ v) (u ++ (w ++ v)) hw t lx hk hlx n
  exact ⟨hcalls, fun fuel => runTranslator_sameTokens _ _ hcalls fuel⟩

/-- Witness of C8: a line break and two spaces put in after the class name of
`(class A)`. -/
theorem whitespace_insensitive_witness :
    calls 2 (Lexer.init "(class A)".toList) =
      .tok ⟨.tok_identifier, "A".toList⟩ ⟨")".toList, "A)".toList⟩ ∧
    (∀ n, (calls n (Lexer.init "(class A\n  )".toList)).seen =
      (calls n (Lexer.init "(class A)".toList)).seen) ∧
    (∀ fuel, (runTranslator fuel "(class A\n  )".toList).report =
      (runTranslator fuel "(class A)".toList).report) :=
  ⟨by decide,
   whitespace_insensitive "(class A".toList ")".toList "\n  ".toList (by decide) 2
     ⟨.tok_identifier, "A".toList⟩ ⟨")".toList, "A)".toList⟩ (by decide) rfl⟩

/-! ### The text of a token and the cursor -/

theorem slice_self (p : List Char) : Lexer.slice p p = [] := by
  simp [Lexer.slice]

theorem slice_cons_one (c : Char) (rest : List Char) : Lexer.slice (c :: rest) rest = [c] := by
  have := slice_append [c] rest
  simpa using this

theorem slice_cons_two (c d : Char) (rest : List Char) :
    Lexer.slice (c :: d :: rest) rest = [c, d] := by
  have := slice_append [c, d] rest
  simpa using this

theorem peek_eq_cons {rest : List Char} {d : Char} (h : peek rest = d) (hd : d ≠ '\x00') :
    ∃ r, rest = d :: r := by
  cases rest with
  | nil => exact absurd h.symm hd
  | cons e r => exact ⟨r, by rw [show e = d from h]⟩

/-- What a call that returns a token leaves behind, at a first character that
is not whitespace: `start` on that character, the cursor at or after it, the
text of the token the slice between the two unless the token is a comment or a
generic symbol, and empty for a comment. -/
theorem getNextToken_text_cons (c : Char) (hc : spaceChar c = false) (rest st : List Char)
    (t : Token) (lx1 : Lexer) (h : getNextToken ⟨c :: rest, st⟩ = .tok t lx1) :
    lx1.start = c :: rest ∧
    (t.kind ≠ .tok_comment → t.kind ≠ .tok_symbol → t.value = Lexer.slice lx1.start lx1.pos) ∧
    (t.kind = .tok_comment → t.value = []) := by
  rcases getNextToken_shape c hc with ⟨_, he⟩ | ⟨_, he⟩ | ⟨_, he⟩ | ⟨_, he⟩ | ⟨k, hk, he⟩ |
    ⟨hceq, he⟩ | ⟨hceq, he⟩ | ⟨hceq, he⟩ | ⟨hceq, he⟩ | ⟨_, he⟩ | he
  · rw [he] at h
    injection h with h1 h2
    subst h1 h2
    exact ⟨rfl, fun _ _ => (slice_self _).symm, fun _ => rfl⟩
  · rw [he] at h
    injection h with h1 h2
    subst h1 h2
    exact ⟨rfl, fun _ _ => rfl, fun hk => by simp at hk⟩
  · rw [he] at h
    injection h with h1 h2
    subst h1 h2
    exact ⟨rfl, fun _ _ => rfl, fun hk => by simp at hk⟩
  · rw [he] at h
    split_ifs at h
    injection h with h1 h2
    subst h1 h2
    exact ⟨rfl, fun _ _ => rfl, fun hk => by simp at hk⟩
  · rw [he] at h
    injection h with h1 h2
    subst h1 h2
    refine ⟨rfl, fun _ _ => (slice_cons_one c rest).symm, fun hkc => ?_⟩
    simp only at hkc
    subst hkc
    simp at hk
  · rw [he] at h
    subst hceq
    by_cases hp : peek rest = '='
    · rw [if_pos hp] at h
      injection h with h1 h2
      subst h1 h2
      obtain ⟨r, rfl⟩ := peek_eq_cons hp (by decide)
      exact ⟨rfl, fun _ _ => (slice_cons_two '=' '=' r).symm, fun hk => by simp at hk⟩
    · rw [if_neg hp] at h
      injection h with h1 h2
      subst h1 h2
      exact ⟨rfl, fun _ _ => (slice_cons_one '=' rest).symm, fun hk => by simp at hk⟩
  · rw [he] at h
    subst hceq
    by_cases hp : peek rest = '>'
    · rw [if_pos hp] at h
      injection h with h1 h2
      subst h1 h2
      obtain ⟨r, rfl⟩ := peek_eq_cons hp (by decide)
      exact ⟨rfl, fun _ _ => (slice_cons_two '-' '>' r).symm, fun hk => by simp at hk⟩
    · rw [if_neg hp] at h
      injection h with h1 h2
      subst h1 h2
      exact ⟨rfl, fun _ _ => (slice_cons_one '-' rest).symm, fun hk => by simp at hk⟩
  · rw [he] at h
    subst hceq
    by_cases hp : isalpha (peek rest) = true
    · rw [if_pos hp] at h
      injection h with h1 h2
      subst h1 h2
      exact ⟨rfl, fun _ _ => rfl, fun hk => by simp at hk⟩
    · rw [if_neg hp] at h
      injection h with h1 h2
      subst h1 h2
      exact ⟨rfl, fun _ _ => (slice_cons_one '*' rest).symm, fun hk => by simp at hk⟩
  · rw [he] at h
    split_ifs at h
    injection h with h1 h2
    subst h1 h2
    exact ⟨rfl, fun _ _ => rfl, fun hk => by simp at hk⟩
  · rw [he] at h
    injection h with h1 h2
    subst h1 h2
    exact ⟨rfl, fun hk => absurd rfl hk, fun _ => rfl⟩
  · rw [he] at h
    injection h with h1 h2
    subst h1 h2
    exact ⟨rfl, fun _ hk => absurd rfl hk, fun hk => by simp at hk⟩

/-- C17, as stated, fails on the code: on `;x` the call returns a comment token
with the empty text, while the input between `start` and the cursor is `;x`;
and on `#` it returns a symbol token with the text `#`, while `start` and the
cursor are at the same place. -/
theorem token_text_counterexample :
    getNextToken (Lexer.init ";x".toList) = .tok ⟨.tok_comment, []⟩ ⟨[], ";x".toList⟩ ∧
    Lexer.slice ";x".toList [] = ";x".toList ∧
    getNextToken (Lexer.init "#".toList) = .tok ⟨.tok_symbol, ['#']⟩ ⟨"#".toList, "#".toList⟩ ∧
    Lexer.slice "#".toList "#".toList = [] := by
  decide

/-- C17, amended. For every call of `getNextToken` that returns a token, the
recorded token start and the cursor are places of the input, the start at or
after the old cursor and the cursor at or after the start; the text of a token
that is neither a comment nor a generic symbol is the input between the two;
the text of a comment token is empty. -/
theorem token_text_rule (lx lx1 : Lexer) (t : Token) (h : getNextToken lx = .tok t lx1) :
    lx1.start <:+ lx.pos ∧ lx1.pos <:+ lx1.start ∧
    (t.kind ≠ .tok_comment → t.kind ≠ .tok_symbol →
      t.value = Lexer.slice lx1.start lx1.pos) ∧
    (t.kind = .tok_comment → t.value = []) := by
  obtain ⟨pos, st⟩ := lx
  have hsuf : scan spaceChar pos <:+ pos := scan_suffix _ _
  have h0 := h
  rw [getNextToken_at_scan] at h
  have hps := getNextToken_pos_suffix _ _ _ h
  obtain ⟨ws, -, -, hnil | ⟨c, rest, hcons, hc⟩⟩ := scan_spaceChar_split pos
  · rw [hnil, getNextToken_nil] at h
    injection h with h1 h2
    subst h1 h2
    exact ⟨List.nil_suffix, List.suffix_refl _, fun _ _ => rfl, fun _ => rfl⟩
  · rw [hcons] at h hps hsuf
    obtain ⟨hst, hval, hcom⟩ := getNextToken_text_cons c hc rest st t lx1 h
    exact ⟨by rw [hst]; exact hsuf, by rw [hst]; exact hps, hval, hcom⟩

/-- Witness of C17, amended: the identifier `ab` read from ` ab c`, and the
comment read from `;x`. -/
theorem token_text_rule_witness :
    ("ab c".toList <:+ " ab c".toList ∧ " c".toList <:+ "ab c".toList ∧
      "ab".toList = Lexer.slice "ab c".toList " c".toList) ∧
    (([] : List Char) = []) :=
  ⟨⟨(token_text_rule ⟨" ab c".toList, []⟩ ⟨" c".toList, "ab c".toList⟩
      ⟨.tok_identifier, "ab".toList⟩ (by decide)).1,
    (token_text_rule ⟨" ab c".toList, []⟩ ⟨" c".toList, "ab c".toList⟩
      ⟨.tok_identifier, "ab".toList⟩ (by decide)).2.1,
    (token_text_rule ⟨" ab c".toList, []⟩ ⟨" c".toList, "ab c".toList⟩
      ⟨.tok_identifier, "ab".toList⟩ (by decide)).2.2.1 (by decide) (by decide)⟩,
   (token_text_rule ⟨";x".toList, []⟩ ⟨[], ";x".toList⟩ ⟨.tok_comment, []⟩
      (by decide)).2.2.2 rfl⟩

/-! ### The sigils and the generic symbol -/

/-- What the sigil cases do: a sigil followed by a letter gives an identifier
token of the sigil and that one letter, the cursor just after the letter; `*`
followed by anything else gives the token `*`. -/
theorem getNextToken_sigil (ws rest st : List Char) (s c : Char)
    (hws : ∀ x ∈ ws, spaceChar x = true) (hs : s = '*' ∨ s = '&') :
    (isalpha c = true →
      getNextToken ⟨ws ++ s :: c :: rest, st⟩ =
        .tok ⟨.tok_identifier, [s, c]⟩ ⟨rest, s :: c :: rest⟩) ∧
    (isalpha (peek rest) = false →
      getNextToken ⟨ws ++ '*' :: rest, st⟩ = .tok ⟨.tok_mut, ['*']⟩ ⟨rest, '*' :: rest⟩) := by
  constructor
  · intro hc
    have hn : nameChar c = true := by simp [nameChar, isalnum, hc]
    rw [getNextToken_skip ws _ st st hws]
    rcases hs with rfl | rfl
    · rw [getNextToken_star, if_pos (by exact hc), if_pos (by exact hn)]
      simp only [List.tail_cons, slice_cons_two]
    · rw [getNextToken_amp, if_pos (by exact hc), if_pos (by exact hn)]
      simp only [List.tail_cons, slice_cons_two]
  · intro hr
    rw [getNextToken_skip ws _ st st hws, getNextToken_star, hr]
    rfl

/-- C16 fails on the code at `*abc` and `&abc`: the call returns the identifier
token `*a` (`&a`) and leaves the cursor before `bc`, which the next call
returns as a second identifier token. -/
theorem sigil_name_cut :
    getNextToken (Lexer.init "*abc".toList) =
      .tok ⟨.tok_identifier, "*a".toList⟩ ⟨"bc".toList, "*abc".toList⟩ ∧
    calls 1 (Lexer.init "*abc".toList) =
      .tok ⟨.tok_identifier, "bc".toList⟩ ⟨[], "bc".toList⟩ ∧
    getNextToken (Lexer.init "&abc".toList) =
      .tok ⟨.tok_identifier, "&a".toList⟩ ⟨"bc".toList, "&abc".toList⟩ ∧
    calls 1 (Lexer.init "&abc".toList) =
      .tok ⟨.tok_identifier, "bc".toList⟩ ⟨[], "bc".toList⟩ := by
  decide

/-- A state that a call returns unchanged is returned by every later call. -/
theorem calls_fixed (lx : Lexer) (t : Token) (h : getNextToken lx = .tok t lx) (n : Nat) :
    calls n lx = .tok t lx := by
  induction n with
  | zero => exact h
  | succ n ih => rw [calls, h]; exact ih

/-- Every token other than the end of the input and the generic symbol takes
at least one character: the cursor is left strictly after `start`. -/
theorem getNextToken_advances (lx lx1 : Lexer) (t : Token) (h : getNextToken lx = .tok t lx1)
    (he : t.kind ≠ .tok_eof) (hs : t.kind ≠ .tok_symbol) :
    lx1.pos.length < lx1.start.length := by
  obtain ⟨pos, st⟩ := lx
  rw [getNextToken_at_scan] at h
  obtain ⟨ws, -, -, hnil | ⟨c, rest, hcons, hc⟩⟩ := scan_spaceChar_split pos
  · rw [hnil, getNextToken_nil] at h
    injection h with h1 h2
    subst h1
    exact absurd rfl he
  · rw [hcons] at h
    have hscan : ∀ q : Char → Bool, q c = true →
        (scan q (c :: rest)).length < (c :: rest).length := by
      intro q hq
      have h1 : scan q (c :: rest) = scan q rest := by simp [scan, List.dropWhile_cons, hq]
      rw [h1]
      exact Nat.lt_succ_of_le (scan_suffix q rest).length_le
    have htail : ∀ l : List Char, l.tail.length ≤ l.length := fun l => by simp
    rcases getNextToken_shape c hc with ⟨_, hx⟩ | ⟨ha, hx⟩ | ⟨hd, hx⟩ | ⟨_, hx⟩ | ⟨k, _, hx⟩ |
      ⟨_, hx⟩ | ⟨_, hx⟩ | ⟨_, hx⟩ | ⟨_, hx⟩ | ⟨hsc, hx⟩ | hx
    · rw [hx] at h
      injection h with h1 h2
      subst h1
      exact absurd rfl he
    · rw [hx] at h
      injection h with h1 h2
      subst h2
      exact hscan identChar (by simp [identChar, isalnum, ha])
    · rw [hx] at h
      injection h with h1 h2
      subst h2
      exact hscan numberChar (by simp [numberChar, hd])
    · rw [hx] at h
      split_ifs at h
      injection h with h1 h2
      subst h2
      exact Nat.lt_succ_of_le ((htail _).trans (scan_suffix stringChar rest).length_le)
    · rw [hx] at h
      injection h with h1 h2
      subst h2
      exact Nat.lt_succ_self _
    · rw [hx] at h
      split_ifs at h <;>
        (injection h with h1 h2
         subst h2
         first
         | exact Nat.lt_succ_of_le (htail _)
         | exact Nat.lt_succ_self _)
    · rw [hx] at h
      split_ifs at h <;>
        (injection h with h1 h2
         subst h2
         first
         | exact Nat.lt_succ_of_le (htail _)
         | exact Nat.lt_succ_self _)
    · rw [hx] at h
      split_ifs at h <;>
        (injection h with h1 h2
         subst h2
         first
         | exact Nat.lt_succ_of_le (htail _)
         | exact Nat.lt_succ_self _)
    · rw [hx] at h
      split_ifs at h
      injection h with h1 h2
      subst h2
      exact Nat.lt_succ_of_le (htail _)
    · rw [hx] at h
      injection h with h1 h2
      subst h2
      exact hscan commentChar (by subst hsc; decide)
    · rw [hx] at h
      injection h with h1 h2
      subst h1
      exact absurd rfl hs

/-- C19 fails on the code at `#`: the call returns the symbol token `#` and
leaves the cursor on the `#`, where `start` is; every later call does the same,
so that no call reaches the end of the input. -/
theorem symbol_does_not_advance :
    getNextToken (Lexer.init "#".toList) =
      .tok ⟨.tok_symbol, "#".toList⟩ ⟨"#".toList, "#".toList⟩ ∧
    ∀ n, calls n (Lexer.init "#".toList) =
      .tok ⟨.tok_symbol, "#".toList⟩ ⟨"#".toList, "#".toList⟩ :=
  ⟨by decide, fun n => calls_fixed ⟨"#".toList, "#".toList⟩ _ (by decide) n⟩

/-! ### More rules on abstract token sequences -/

theorem parseFunction_other (fuel : Nat) (s : State) (t : Token) (l1 : Lexer)
    (h1 : getNextToken s.lexer = .tok t l1) (ht : t.kind = .tok_identifier)
    (hv : t.value ≠ "main".toList) :
    parseFunction fuel s = parseFunctionHelper fuel { s with lexer := l1, token := t } := by
  simp only [parseFunction, bind_advance, h1, bind_getToken, ht, if_neg hv, if_true]

/-- The function rule returns without an error and without writing when the
token after `fn` is not an identifier. -/
theorem parseFunction_not_identifier (fuel : Nat) (s : State) (t : Token) (l1 : Lexer)
    (h1 : getNextToken s.lexer = .tok t l1) (ht : t.kind ≠ .tok_identifier) :
    parseFunction fuel s = .done () { s with lexer := l1, token := t } := by
  simp only [parseFunction, bind_advance, h1, bind_getToken, if_neg ht]
  rfl

/-- The generic-function rule on `()` and an immediately closed body: the
opening parenthesis is written, then `() { ` again for the empty list. -/
theorem parseFunctionHelper_empty (fuel : Nat) (s : State) (o c1 c2 : Token)
    (l1 l2 l3 : Lexer)
    (h1 : getNextToken s.lexer = .tok o l1) (ho : o.kind = .tok_open_paren)
    (h2 : getNextToken l1 = .tok c1 l2) (hc1 : c1.kind = .tok_close_paren)
    (h3 : getNextToken l2 = .tok c2 l3) (hc2 : c2.kind = .tok_close_paren) :
    parseFunctionHelper fuel s =
      .done () ⟨l3, c2, s.out ++ ("void ".toList ++ s.token.value) ++ "(".toList
        ++ "() \x7b \n".toList ++ "\x7d".toList⟩ := by
  simp only [parseFunctionHelper, bind_write, bind_getToken, bind_advance, h1, ho, ne_eq,
    not_true, if_false, bind_pure_run, h2, hc1, if_true, h3, hc2]
  rfl

/-- The main rule on `()` and an immediately closed body. -/
theorem mainHelper_empty (fuel : Nat) (s : State) (o c1 c2 : Token) (l1 l2 l3 : Lexer)
    (h1 : getNextToken s.lexer = .tok o l1) (ho : o.kind = .tok_open_paren)
    (h2 : getNextToken l1 = .tok c1 l2) (hc1 : c1.kind = .tok_close_paren)
    (h3 : getNextToken l2 = .tok c2 l3) (hc2 : c2.kind = .tok_close_paren) :
    mainHelper fuel s =
      .done () ⟨l3, c2, s.out ++ "int main ".toList ++ "() \x7b \n".toList
        ++ "return 0;".toList ++ "\x7d \n".toList⟩ := by
  simp only [mainHelper, bind_write, bind_advance, h1, bind_getToken, ho, ne_eq, not_true,
    if_false, bind_pure_run, h2, hc1, h3, hc2, if_true]
  rfl

/-- The class rule returns without an error and without writing the closing
line when the token after the private block is not a closing parenthesis. -/
theorem parseClass_private_unclosed (fuel : Nat) (s s4 : State) (n o p c : Token)
    (l1 l2 l3 l5 : Lexer)
    (h1 : getNextToken s.lexer = .tok n l1) (hn : n.kind = .tok_identifier)
    (h2 : getNextToken l1 = .tok o l2) (ho : o.kind = .tok_open_paren)
    (h3 : getNextToken l2 = .tok p l3) (hp : p.kind = .tok_identifier)
    (hv : p.value = "private".toList)
    (h4 : parsePrivate fuel ⟨l3, p, classHeader s.out n "private: \n".toList⟩ = .done () s4)
    (h5 : getNextToken s4.lexer = .tok c l5) (hc : c.kind ≠ .tok_close_paren) :
    parseClass fuel s = .done () ⟨l5, c, s4.out⟩ := by
  have hoc : o.kind ≠ .tok_close_paren := by rw [ho]; decide
  have hpp : p.value ≠ "public".toList := by rw [hv]; decide
  unfold classHeader at h4
  simp only [parseClass, bind_write, bind_advance, h1, bind_getToken, hn, ne_eq, not_true,
    if_false, h2, ho, if_neg hoc, if_true, bind_pure_run, h3, hp, if_neg hpp, reduceCtorEq]
  simp only [bind_getToken, hv, if_true, bind_write]
  rw [bind_of_done _ _ _ _ _ h4]
  simp only [bind_advance, h5, bind_getToken, if_neg hc]
  rfl

/-- The class rule returns without an error and without writing the closing
line when the token after the public block is neither parenthesis. -/
theorem parseClass_public_unclosed (fuel : Nat) (s s4 : State) (n o p c : Token)
    (l1 l2 l3 l5 : Lexer)
    (h1 : getNextToken s.lexer = .tok n l1) (hn : n.kind = .tok_identifier)
    (h2 : getNextToken l1 = .tok o l2) (ho : o.kind = .tok_open_paren)
    (h3 : getNextToken l2 = .tok p l3) (hp : p.kind = .tok_identifier)
    (hv : p.value = "public".toList)
    (h4 : parsePublic fuel ⟨l3, p, classHeader s.out n "public: \n".toList⟩ = .done () s4)
    (h5 : getNextToken s4.lexer = .tok c l5) (hc : c.kind ≠ .tok_close_paren)
    (hco : c.kind ≠ .tok_open_paren) :
    parseClass fuel s = .done () ⟨l5, c, s4.out⟩ := by
  have hoc : o.kind ≠ .tok_close_paren := by rw [ho]; decide
  unfold classHeader at h4
  simp only [parseClass, bind_write, bind_advance, h1, bind_getToken, hn, ne_eq, not_true,
    if_false, h2, ho, if_neg hoc, if_true, bind_pure_run, h3, hp, hv, reduceCtorEq]
  rw [bind_of_done _ _ _ _ _ h4]
  simp only [bind_advance, h5, bind_getToken, if_neg hc, if_neg hco]
  rfl

/-- A first block whose keyword is neither `public` nor `private`. -/
theorem parseClass_unknown_first (fuel : Nat) (s : State) (n o p : Token) (l1 l2 l3 : Lexer)
    (h1 : getNextToken s.lexer = .tok n l1) (hn : n.kind = .tok_identifier)
    (h2 : getNextToken l1 = .tok o l2) (ho : o.kind = .tok_open_paren)
    (h3 : getNextToken l2 = .tok p l3) (hp : p.kind = .tok_identifier)
    (hpub : p.value ≠ "public".toList) (hpriv : p.value ≠ "private".toList) :
    parseClass fuel s =
      .fatal .expectedPublicOrPrivate (s.out ++ "class ".toList ++ (n.value ++ " \x7b \n".toList)) := by
  have hoc : o.kind ≠ .tok_close_paren := by rw [ho]; decide
  simp only [parseClass, bind_write, bind_advance, h1, bind_getToken, hn, ne_eq, not_true,
    if_false, h2, ho, if_neg hoc, if_true, bind_pure_run, h3, hp, if_neg hpub, if_neg hpriv,
    reduceCtorEq]
  rfl

/-- A second block, after the public block, whose keyword is not `private`. -/
theorem parseClass_unknown_second (fuel : Nat) (s s4 : State) (n o p o2 q : Token)
    (l1 l2 l3 l5 l6 : Lexer)
    (h1 : getNextToken s.lexer = .tok n l1) (hn : n.kind = .tok_identifier)
    (h2 : getNextToken l1 = .tok o l2) (ho : o.kind = .tok_open_paren)
    (h3 : getNextToken l2 = .tok p l3) (hp : p.kind = .tok_identifier)
    (hv : p.value = "public".toList)
    (h4 : parsePublic fuel ⟨l3, p, classHeader s.out n "public: \n".toList⟩ = .done () s4)
    (h5 : getNextToken s4.lexer = .tok o2 l5) (ho2 : o2.kind = .tok_open_paren)
    (h6 : getNextToken l5 = .tok q l6) (hq : q.kind = .tok_identifier)
    (hqv : q.value ≠ "private".toList) :
    parseClass fuel s = .fatal .expectedPublicOrPrivate80 s4.out := by
  have hoc : o.kind ≠ .tok_close_paren := by rw [ho]; decide
  unfold classHeader at h4
  simp only [parseClass, bind_write, bind_advance, h1, bind_getToken, hn, ne_eq, not_true,
    if_false, h2, ho, if_neg hoc, if_true, bind_pure_run, h3, hp, hv, reduceCtorEq]
  rw [bind_of_done _ _ _ _ _ h4]
  simp only [bind_advance, h5, bind_getToken, ho2, reduceCtorEq, if_false, if_true, h6, hq,
    if_neg hqv]
  rfl

/-! ### The main entry with no form -/

theorem main_empty_run (fuel : Nat) (h2 : 2 ≤ fuel) :
    runTranslator fuel (mainSource []) =
      .done () ⟨⟨[], []⟩, ⟨.tok_eof, []⟩,
        "int main () \x7b \n".toList ++ formsText [] ++ "return 0;\x7d \n".toList⟩ := by
  obtain ⟨n, rfl⟩ : ∃ n, fuel = n + 2 := ⟨fuel - 2, by omega⟩
  have h1 : getNextToken ⟨"(fn main())".toList, "(fn main())".toList⟩ =
      .tok ⟨.tok_open_paren, ['(']⟩ ⟨"fn main())".toList, "(fn main())".toList⟩ := by decide
  have h2 : getNextToken ⟨"fn main())".toList, "(fn main())".toList⟩ =
      .tok ⟨.tok_identifier, "fn".toList⟩ ⟨" main())".toList, "fn main())".toList⟩ := by decide
  have h3 : getNextToken ⟨" main())".toList, "fn main())".toList⟩ =
      .tok ⟨.tok_identifier, "main".toList⟩ ⟨"())".toList, "main())".toList⟩ := by decide
  have h4 : getNextToken ⟨"())".toList, "main())".toList⟩ =
      .tok ⟨.tok_open_paren, ['(']⟩ ⟨"))".toList, "())".toList⟩ := by decide
  have h5 : getNextToken ⟨"))".toList, "())".toList⟩ =
      .tok ⟨.tok_close_paren, [')']⟩ ⟨")".toList, "))".toList⟩ := by decide
  have h6 : getNextToken ⟨")".toList, "))".toList⟩ =
      .tok ⟨.tok_close_paren, [')']⟩ ⟨[], ")".toList⟩ := by decide
  have h7 : getNextToken ⟨[], ")".toList⟩ = .tok ⟨.tok_eof, []⟩ ⟨[], []⟩ := by decide
  have hsrc : mainSource [] = "(fn main())".toList := by decide
  rw [runTranslator, initial, Lexer.init, hsrc,
    parse_open _ _ _ _ h1 rfl,
    parseLoop_fn _ _ _ _ _ _ h2 rfl rfl
      ((parseFunction_main _ _ _ _ h3 rfl rfl).trans
        (mainHelper_empty _ _ _ _ _ _ _ _ h4 rfl h5 rfl h6 rfl)),
    parseLoop_eof _ _ _ _ _ h7 rfl]
  rfl

/-! ### Runs that do not end -/

theorem bind_of_outOfFuel {α β : Type} (x : Run α) (f : α → Run β) (s : State)
    (h : x s = .outOfFuel) : (x >>= f) s = .outOfFuel := by
  show Run.bind x f s = _
  unfold Run.bind; rw [h]

theorem getNextToken_hash (st : List Char) :
    getNextToken ⟨"#".toList, st⟩ = .tok ⟨.tok_symbol, "#".toList⟩ ⟨"#".toList, "#".toList⟩ :=
  rfl

/-- The loop of `parse` at a character of no named class: the symbol token is
passed over, the cursor stays, and the loop has no round in which it ends. -/
theorem parseLoop_symbol_stuck (fuel rounds : Nat) :
    ∀ (st : List Char) (tk : Token) (out : List Char),
      parseLoop fuel rounds ⟨⟨"#".toList, st⟩, tk, out⟩ = .outOfFuel := by
  induction rounds with
  | zero => intro st tk out; rfl
  | succ r ih =>
    intro st tk out
    rw [parseLoop_skip fuel r _ _ _ (getNextToken_hash st) (by decide) (by decide)]
    exact ih _ _ _

/-- The parameter loop at the end of the input: the end-of-input token is not
a closing parenthesis, so a space is written and the loop goes on. -/
theorem paramLoop_eof_stuck (n : Nat) :
    ∀ (st out : List Char), paramLoop n ⟨⟨[], st⟩, ⟨.tok_eof, []⟩, out⟩ = .outOfFuel := by
  induction n with
  | zero => intro st out; rfl
  | succ n ih =>
    intro st out
    rw [paramLoop]
    simp only [bind_getToken, ne_eq, reduceCtorEq, not_false_eq_true, if_true, bind_write,
      bind_advance, getNextToken_nil]
    exact ih _ _

/-- The loop of call-forms at the end of the input: three end-of-input tokens
are read as a form, two more as what follows it, and the loop goes on. -/
theorem callLoop_eof_stuck (n : Nat) :
    ∀ (st : List Char) (tk : Token) (out : List Char),
      callLoop n ⟨⟨[], st⟩, tk, out⟩ = .outOfFuel := by
  induction n with
  | zero => intro st tk out; rfl
  | succ n ih =>
    intro st tk out
    have h0 : ∀ st1 out1, parseCallHelper tk ⟨⟨[], st1⟩, tk, out1⟩ =
        .done () ⟨⟨[], []⟩, tk, out1 ++ (([] : List Char) ++ " ".toList ++ [] ++ [] ++ "; \n".toList)⟩ :=
      fun st1 out1 =>
        parseCallHelper_op tk ⟨.tok_eof, []⟩ ⟨.tok_eof, []⟩ ⟨.tok_eof, []⟩ _ ⟨[], []⟩ ⟨[], []⟩
          ⟨[], []⟩ (getNextToken_nil st1) (getNextToken_nil []) (getNextToken_nil [])
          (by simp) (by simp)
    rw [callLoop]
    simp only [bind_getToken]
    rw [bind_of_done _ _ _ _ _ (h0 st out)]
    simp only [bind_next, getNextToken_nil, reduceCtorEq, and_self, if_false]
    exact ih _ _ _

theorem paramLoop_unclosed_stuck (n : Nat) (st : List Char) (tk : Token) (out : List Char)
    (hk : tk.kind ≠ .tok_close_paren) :
    paramLoop n ⟨⟨[], st⟩, tk, out⟩ = .outOfFuel := by
  cases n with
  | zero => rfl
  | succ n =>
    rw [paramLoop]
    simp only [bind_getToken, ne_eq, hk, not_false_eq_true, if_true, bind_write, bind_advance,
      getNextToken_nil]
    exact paramLoop_eof_stuck n _ _

theorem parseFunctionHelper_params_outOfFuel (fuel : Nat) (s : State) (o t2 : Token)
    (l1 l2 : Lexer)
    (h1 : getNextToken s.lexer = .tok o l1) (ho : o.kind = .tok_open_paren)
    (h2 : getNextToken l1 = .tok t2 l2) (ht2 : t2.kind ≠ .tok_close_paren)
    (h3 : paramLoop fuel ⟨l2, t2, s.out ++ ("void ".toList ++ s.token.value) ++ "(".toList⟩ =
      .outOfFuel) :
    parseFunctionHelper fuel s = .outOfFuel := by
  simp only [parseFunctionHelper, bind_write, bind_getToken, bind_advance, h1, ho, ne_eq,
    not_true, if_false, bind_pure_run, h2, if_neg ht2]
  exact bind_of_outOfFuel _ _ _ h3

theorem parseLoop_fn_outOfFuel (fuel rounds : Nat) (s : State) (t : Token) (l1 : Lexer)
    (h1 : getNextToken s.lexer = .tok t l1) (ht : t.kind = .tok_identifier)
    (hv : t.value = "fn".toList)
    (h2 : parseFunction fuel { s with lexer := l1, token := t } = .outOfFuel) :
    parseLoop fuel (rounds + 1) s = .outOfFuel := by
  have hne : t.value ≠ "class".toList := by rw [hv]; decide
  simp only [parseLoop, bind_advance, h1, bind_getToken, ht, if_neg hne]
  simp only [bind_getToken, hv, if_true]
  rw [bind_of_outOfFuel _ _ _ h2]

theorem parseLoop_class_outOfFuel (fuel rounds : Nat) (s : State) (t : Token) (l1 : Lexer)
    (h1 : getNextToken s.lexer = .tok t l1) (ht : t.kind = .tok_identifier)
    (hv : t.value = "class".toList)
    (h2 : parseClass fuel { s with lexer := l1, token := t } = .outOfFuel) :
    parseLoop fuel (rounds + 1) s = .outOfFuel := by
  simp only [parseLoop, bind_advance, h1, bind_getToken, ht, hv, if_true]
  rw [bind_of_outOfFuel _ _ _ h2]

theorem parseClass_public_outOfFuel (fuel : Nat) (s : State) (n o p : Token)
    (l1 l2 l3 : Lexer)
    (h1 : getNextToken s.lexer = .tok n l1) (hn : n.kind = .tok_identifier)
    (h2 : getNextToken l1 = .tok o l2) (ho : o.kind = .tok_open_paren)
    (h3 : getNextToken l2 = .tok p l3) (hp : p.kind = .tok_identifier)
    (hv : p.value = "public".toList)
    (h4 : parsePublic fuel ⟨l3, p, classHeader s.out n "public: \n".toList⟩ = .outOfFuel) :
    parseClass fuel s = .outOfFuel := by
  have hoc : o.kind ≠ .tok_close_paren := by rw [ho]; decide
  unfold classHeader at h4
  simp only [parseClass, bind_write, bind_advance, h1, bind_getToken, hn, ne_eq, not_true,
    if_false, h2, ho, if_neg hoc, if_true, bind_pure_run, h3, hp, hv, reduceCtorEq]
  rw [bind_of_outOfFuel _ _ _ h4]

/-- C18 fails on the code: on `(#` (a character of no named class), on
`(fn f (a` (the input ends before the parameter list is closed) and on
`(class A (public (= a 1` (the input ends before the call-form sequence and the
block are closed) the run does not end, whatever the fuel: the loops of `parse`,
of the parameter list and of the call-forms go on on the same token. -/
theorem run_does_not_end :
    (∀ fuel, runTranslator fuel "(#".toList = .outOfFuel) ∧
    (∀ fuel, runTranslator fuel "(fn f (a".toList = .outOfFuel) ∧
    (∀ fuel, runTranslator fuel "(class A (public (= a 1".toList = .outOfFuel) := by
  refine ⟨fun fuel => ?_, fun fuel => ?_, fun fuel => ?_⟩
  · have h1 : getNextToken ⟨"(#".toList, "(#".toList⟩ =
        .tok ⟨.tok_open_paren, ['(']⟩ ⟨"#".toList, "(#".toList⟩ := by decide
    rw [runTranslator, initial, Lexer.init, parse_open _ _ _ _ h1 rfl]
    exact parseLoop_symbol_stuck fuel fuel _ _ _
  · have h1 : getNextToken ⟨"(fn f (a".toList, "(fn f (a".toList⟩ =
        .tok ⟨.tok_open_paren, ['(']⟩ ⟨"fn f (a".toList, "(fn f (a".toList⟩ := by decide
    have h2 : getNextToken ⟨"fn f (a".toList, "(fn f (a".toList⟩ =
        .tok ⟨.tok_identifier, "fn".toList⟩ ⟨" f (a".toList, "fn f (a".toList⟩ := by decide
    have h3 : getNextToken ⟨" f (a".toList, "fn f (a".toList⟩ =
        .tok ⟨.tok_identifier, "f".toList⟩ ⟨" (a".toList, "f (a".toList⟩ := by decide
    have h4 : getNextToken ⟨" (a".toList, "f (a".toList⟩ =
        .tok ⟨.tok_open_paren, ['(']⟩ ⟨"a".toList, "(a".toList⟩ := by decide
    have h5 : getNextToken ⟨"a".toList, "(a".toList⟩ =
        .tok ⟨.tok_identifier, "a".toList⟩ ⟨[], "a".toList⟩ := by decide
    rw [runTranslator, initial, Lexer.init, parse_open _ _ _ _ h1 rfl]
    cases fuel with
    | zero => rfl
    | succ r =>
      exact parseLoop_fn_outOfFuel _ _ _ _ _ h2 rfl rfl
        ((parseFunction_other _ _ _ _ h3 rfl (by decide)).trans
          (parseFunctionHelper_params_outOfFuel _ _ _ _ _ _ h4 rfl h5 (by decide)
            (paramLoop_unclosed_stuck _ _ _ _ (by decide))))
  · have h1 : getNextToken ⟨"(class A (public (= a 1".toList, "(class A (public (= a 1".toList⟩ =
        .tok ⟨.tok_open_paren, ['(']⟩
          ⟨"class A (public (= a 1".toList, "(class A (public (= a 1".toList⟩ := by decide
    have h2 : getNextToken ⟨"class A (public (= a 1".toList, "(class A (public (= a 1".toList⟩ =
        .tok ⟨.tok_identifier, "class".toList⟩
          ⟨" A (public (= a 1".toList, "class A (public (= a 1".toList⟩ := by decide
    have h3 : getNextToken ⟨" A (public (= a 1".toList, "class A (public (= a 1".toList⟩ =
        .tok ⟨.tok_identifier, "A".toList⟩
          ⟨" (public (= a 1".toList, "A (public (= a 1".toList⟩ := by decide
    have h4 : getNextToken ⟨" (public (= a 1".toList, "A (public (= a 1".toList⟩ =
        .tok ⟨.tok_open_paren, ['(']⟩ ⟨"public (= a 1".toList, "(public (= a 1".toList⟩ := by
      decide
    have h5 : getNextToken ⟨"public (= a 1".toList, "(public (= a 1".toList⟩ =
        .tok ⟨.tok_identifier, "public".toList⟩ ⟨" (= a 1".toList, "public (= a 1".toList⟩ := by
      decide
    have h6 : getNextToken ⟨" (= a 1".toList, "public (= a 1".toList⟩ =
        .tok ⟨.tok_open_paren, ['(']⟩ ⟨"= a 1".toList, "(= a 1".toList⟩ := by decide
    rw [runTranslator, initial, Lexer.init, parse_open _ _ _ _ h1 rfl]
    cases fuel with
    | zero => rfl
    | succ r =>
      refine parseLoop_class_outOfFuel _ _ _ _ _ h2 rfl rfl
        (parseClass_public_outOfFuel _ _ _ _ _ _ _ _ h3 rfl h4 rfl h5 rfl rfl ?_)
      have h7 : parseCallHelper ⟨.tok_open_paren, ['(']⟩
          ⟨⟨"= a 1".toList, "(= a 1".toList⟩, ⟨.tok_open_paren, ['(']⟩,
            classHeader [] ⟨.tok_identifier, "A".toList⟩ "public: \n".toList⟩ =
          .done () ⟨⟨[], "1".toList⟩, ⟨.tok_open_paren, ['(']⟩,
            classHeader [] ⟨.tok_identifier, "A".toList⟩ "public: \n".toList ++
              "a =1; \n".toList⟩ :=
        parseCallHelper_form ⟨[], "=".toList, "a".toList, "1".toList⟩ (by decide)
          ⟨.tok_open_paren, ['(']⟩ [] "(= a 1".toList ⟨.tok_open_paren, ['(']⟩
          (classHeader [] ⟨.tok_identifier, "A".toList⟩ "public: \n".toList) (by decide)
      simp only [parsePublic, bind_advance, h6]
      rw [callLoop]
      simp only [bind_getToken]
      rw [bind_of_done _ _ _ _ _ h7]
      simp only [bind_next, getNextToken_nil, reduceCtorEq, and_self, if_false]
      exact callLoop_eof_stuck r _ _ _

/-! ### Functions other than `main`, and classes left open -/

theorem paramLoop_step (n : Nat) (s : State) (t : Token) (l1 : Lexer)
    (hk : s.token.kind ≠ .tok_close_paren) (h1 : getNextToken s.lexer = .tok t l1) :
    paramLoop (n + 1) s = paramLoop n ⟨l1, t, s.out ++ (s.token.value ++ " ".toList)⟩ := by
  rw [paramLoop]
  simp only [bind_getToken, ne_eq, hk, not_false_eq_true, if_true, bind_write, bind_advance, h1]

theorem paramLoop_close (n : Nat) (s : State) (hk : s.token.kind = .tok_close_paren) :
    paramLoop (n + 1) s = .done () s := by
  rw [paramLoop]
  simp only [bind_getToken, ne_eq, hk, not_true, if_false]
  rfl

/-- The generic-function rule on a non-empty parameter list and an immediately
closed body. -/
theorem parseFunctionHelper_params (fuel : Nat) (s s3 : State) (o t2 c : Token)
    (l1 l2 l4 : Lexer)
    (h1 : getNextToken s.lexer = .tok o l1) (ho : o.kind = .tok_open_paren)
    (h2 : getNextToken l1 = .tok t2 l2) (ht2 : t2.kind ≠ .tok_close_paren)
    (h3 : paramLoop fuel ⟨l2, t2, s.out ++ ("void ".toList ++ s.token.value) ++ "(".toList⟩ =
      .done () s3)
    (h4 : getNextToken s3.lexer = .tok c l4) (hc : c.kind = .tok_close_paren) :
    parseFunctionHelper fuel s =
      .done () ⟨l4, c, s3.out ++ ") \x7b".toList ++ "\x7d".toList⟩ := by
  simp only [parseFunctionHelper, bind_write, bind_getToken, bind_advance, h1, ho, ne_eq,
    not_true, if_false, bind_pure_run, h2, if_neg ht2]
  rw [bind_of_done _ _ _ _ _ h3]
  simp only [bind_write, bind_advance, h4, bind_getToken, hc, if_true]
  rfl

/-- C11 fails on the code for k = 0: on `(fn f ())` the run completes and emits
`void f(() { ` and a newline before `}`, so two parentheses are opened after
the name and the text does not start with `void f() {`. For a non-empty
parameter list the claimed text is emitted: `(fn f (int a))` gives
`void f(int a ) {}`. -/
theorem function_empty_parameters :
    (∀ fuel, runTranslator (fuel + 2) "(fn f ())".toList =
      .done () ⟨⟨[], []⟩, ⟨.tok_eof, []⟩, "void f(() \x7b \n\x7d".toList⟩) ∧
    ¬ ("void f() \x7b".toList <+: "void f(() \x7b \n\x7d".toList) ∧
    (∀ fuel, runTranslator (fuel + 3) "(fn f (int a))".toList =
      .done () ⟨⟨[], []⟩, ⟨.tok_eof, []⟩, "void f(int a ) \x7b\x7d".toList⟩) := by
  refine ⟨fun fuel => ?_, by decide, fun fuel => ?_⟩
  · have h1 : getNextToken ⟨"(fn f ())".toList, "(fn f ())".toList⟩ =
        .tok ⟨.tok_open_paren, ['(']⟩ ⟨"fn f ())".toList, "(fn f ())".toList⟩ := by decide
    have h2 : getNextToken ⟨"fn f ())".toList, "(fn f ())".toList⟩ =
        .tok ⟨.tok_identifier, "fn".toList⟩ ⟨" f ())".toList, "fn f ())".toList⟩ := by decide
    have h3 : getNextToken ⟨" f ())".toList, "fn f ())".toList⟩ =
        .tok ⟨.tok_identifier, "f".toList⟩ ⟨" ())".toList, "f ())".toList⟩ := by decide
    have h4 : getNextToken ⟨" ())".toList, "f ())".toList⟩ =
        .tok ⟨.tok_open_paren, ['(']⟩ ⟨"))".toList, "())".toList⟩ := by decide
    have h5 : getNextToken ⟨"))".toList, "())".toList⟩ =
        .tok ⟨.tok_close_paren, [')']⟩ ⟨")".toList, "))".toList⟩ := by decide
    have h6 : getNextToken ⟨")".toList, "))".toList⟩ =
        .tok ⟨.tok_close_paren, [')']⟩ ⟨[], ")".toList⟩ := by decide
    have h7 : getNextToken ⟨[], ")".toList⟩ = .tok ⟨.tok_eof, []⟩ ⟨[], []⟩ := by decide
    rw [runTranslator, initial, Lexer.init, parse_open _ _ _ _ h1 rfl,
      parseLoop_fn _ _ _ _ _ _ h2 rfl rfl
        ((parseFunction_other _ _ _ _ h3 rfl (by decide)).trans
          (parseFunctionHelper_empty _ _ _ _ _ _ _ _ h4 rfl h5 rfl h6 rfl)),
      parseLoop_eof _ _ _ _ _ h7 rfl]
    rfl
  · have h1 : getNextToken ⟨"(fn f (int a))".toList, "(fn f (int a))".toList⟩ =
        .tok ⟨.tok_open_paren, ['(']⟩ ⟨"fn f (int a))".toList, "(fn f (int a))".toList⟩ := by
      decide
    have h2 : getNextToken ⟨"fn f (int a))".toList, "(fn f (int a))".toList⟩ =
        .tok ⟨.tok_identifier, "fn".toList⟩ ⟨" f (int a))".toList, "fn f (int a))".toList⟩ := by
      decide
    have h3 : getNextToken ⟨" f (int a))".toList, "fn f (int a))".toList⟩ =
        .tok ⟨.tok_identifier, "f".toList⟩ ⟨" (int a))".toList, "f (int a))".toList⟩ := by
      decide
    have h4 : getNextToken ⟨" (int a))".toList, "f (int a))".toList⟩ =
        .tok ⟨.tok_open_paren, ['(']⟩ ⟨"int a))".toList, "(int a))".toList⟩ := by decide
    have h5 : getNextToken ⟨"int a))".toList, "(int a))".toList⟩ =
        .tok ⟨.tok_identifier, "int".toList⟩ ⟨" a))".toList, "int a))".toList⟩ := by decide
    have h6 : getNextToken ⟨" a))".toList, "int a))".toList⟩ =
        .tok ⟨.tok_identifier, "a".toList⟩ ⟨"))".toList, "a))".toList⟩ := by decide
    have h7 : getNextToken ⟨"))".toList, "a))".toList⟩ =
        .tok ⟨.tok_close_paren, [')']⟩ ⟨")".toList, "))".toList⟩ := by decide
    have h8 : getNextToken ⟨")".toList, "))".toList⟩ =
        .tok ⟨.tok_close_paren, [')']⟩ ⟨[], ")".toList⟩ := by decide
    have h9 : getNextToken ⟨[], ")".toList⟩ = .tok ⟨.tok_eof, []⟩ ⟨[], []⟩ := by decide
    have hp : paramLoop (fuel + 3)
        ⟨⟨" a))".toList, "int a))".toList⟩, ⟨.tok_identifier, "int".toList⟩, "void f(".toList⟩ =
        .done () ⟨⟨")".toList, "))".toList⟩, ⟨.tok_close_paren, [')']⟩,
          "void f(int a ".toList⟩ := by
      rw [paramLoop_step _ _ _ _ (by decide) h6, paramLoop_step _ _ _ _ (by decide) h7,
        paramLoop_close _ _ rfl]
      rfl
    rw [runTranslator, initial, Lexer.init, parse_open _ _ _ _ h1 rfl,
      parseLoop_fn _ _ _ _ _ _ h2 rfl rfl
        ((parseFunction_other _ _ _ _ h3 rfl (by decide)).trans
          (parseFunctionHelper_params _ _ _ _ _ _ _ _ _ h4 rfl h5 (by decide) hp h8 rfl)),
      parseLoop_eof _ _ _ _ _ h9 rfl]
    rfl

/-- C15 fails on the code: on `(fn 1)`, where a numeric literal follows `fn`,
and on `(fn ())`, where a parenthesis follows it, the run completes with an
empty output and reports no error, with any fuel. -/
theorem function_name_missing :
    (∀ fuel, runTranslator (fuel + 3) "(fn 1)".toList =
      .done () ⟨⟨[], []⟩, ⟨.tok_eof, []⟩, []⟩) ∧
    (∀ fuel, runTranslator (fuel + 4) "(fn ())".toList =
      .done () ⟨⟨[], []⟩, ⟨.tok_eof, []⟩, []⟩) ∧
    (∀ (m : Nat) (e : Fatal) (o : List Char),
      runTranslator m "(fn 1)".toList ≠ .fatal e o ∧
      runTranslator m "(fn ())".toList ≠ .fatal e o) := by
  have ha : ∀ fuel, runTranslator (fuel + 3) "(fn 1)".toList =
      .done () ⟨⟨[], []⟩, ⟨.tok_eof, []⟩, []⟩ := by
    intro fuel
    have h1 : getNextToken ⟨"(fn 1)".toList, "(fn 1)".toList⟩ =
        .tok ⟨.tok_open_paren, ['(']⟩ ⟨"fn 1)".toList, "(fn 1)".toList⟩ := by decide
    have h2 : getNextToken ⟨"fn 1)".toList, "(fn 1)".toList⟩ =
        .tok ⟨.tok_identifier, "fn".toList⟩ ⟨" 1)".toList, "fn 1)".toList⟩ := by decide
    have h3 : getNextToken ⟨" 1)".toList, "fn 1)".toList⟩ =
        .tok ⟨.tok_integer, "1".toList⟩ ⟨")".toList, "1)".toList⟩ := by decide
    have h4 : getNextToken ⟨")".toList, "1)".toList⟩ =
        .tok ⟨.tok_close_paren, [')']⟩ ⟨[], ")".toList⟩ := by decide
    have h5 : getNextToken ⟨[], ")".toList⟩ = .tok ⟨.tok_eof, []⟩ ⟨[], []⟩ := by decide
    rw [runTranslator, initial, Lexer.init, parse_open _ _ _ _ h1 rfl,
      parseLoop_fn _ _ _ _ _ _ h2 rfl rfl
        (parseFunction_not_identifier _ _ _ _ h3 (by decide)),
      parseLoop_skip _ _ _ _ _ h4 (by decide) (by decide),
      parseLoop_eof _ _ _ _ _ h5 rfl]
  have hb : ∀ fuel, runTranslator (fuel + 4) "(fn ())".toList =
      .done () ⟨⟨[], []⟩, ⟨.tok_eof, []⟩, []⟩ := by
    intro fuel
    have h1 : getNextToken ⟨"(fn ())".toList, "(fn ())".toList⟩ =
        .tok ⟨.tok_open_paren, ['(']⟩ ⟨"fn ())".toList, "(fn ())".toList⟩ := by decide
    have h2 : getNextToken ⟨"fn ())".toList, "(fn ())".toList⟩ =
        .tok ⟨.tok_identifier, "fn".toList⟩ ⟨" ())".toList, "fn ())".toList⟩ := by decide
    have h3 : getNextToken ⟨" ())".toList, "fn ())".toList⟩ =
        .tok ⟨.tok_open_paren, ['(']⟩ ⟨"))".toList, "())".toList⟩ := by decide
    have h4 : getNextToken ⟨"))".toList, "())".toList⟩ =
        .tok ⟨.tok_close_paren, [')']⟩ ⟨")".toList, "))".toList⟩ := by decide
    have h5 : getNextToken ⟨")".toList, "))".toList⟩ =
        .tok ⟨.tok_close_paren, [')']⟩ ⟨[], ")".toList⟩ := by decide
    have h6 : getNextToken ⟨[], ")".toList⟩ = .tok ⟨.tok_eof, []⟩ ⟨[], []⟩ := by decide
    rw [runTranslator, initial, Lexer.init, parse_open _ _ _ _ h1 rfl,
      parseLoop_fn _ _ _ _ _ _ h2 rfl rfl
        (parseFunction_not_identifier _ _ _ _ h3 (by decide)),
      parseLoop_skip _ _ _ _ _ h4 (by decide) (by decide),
      parseLoop_skip _ _ _ _ _ h5 (by decide) (by decide),
      parseLoop_eof _ _ _ _ _ h6 rfl]
  exact ⟨ha, hb, fun m e o =>
    ⟨runTranslator_never_fatal 3 _ _ (ha 0) m e o, runTranslator_never_fatal 4 _ _ (hb 0) m e o⟩⟩

/-- C20 fails on the code: the input `(class N (public (= a 1)) x)` holds no
string literal, its run completes without error, and the emitted text
`class N { `, `public: `, `a =1; ` has one `{` and no `}`: the class header is
never closed. -/
theorem class_left_open :
    (∀ fuel, runTranslator (fuel + 3) "(class N (public (= a 1)) x)".toList =
      .done () ⟨⟨[], []⟩, ⟨.tok_eof, []⟩, "class N \x7b \npublic: \na =1; \n".toList⟩) ∧
    '"' ∉ "(class N (public (= a 1)) x)".toList ∧
    List.count '\x7b' "class N \x7b \npublic: \na =1; \n".toList = 1 ∧
    List.count '\x7d' "class N \x7b \npublic: \na =1; \n".toList = 0 := by
  refine ⟨fun fuel => ?_, by decide, by decide, by decide⟩
  have h1 : getNextToken
      ⟨"(class N (public (= a 1)) x)".toList, "(class N (public (= a 1)) x)".toList⟩ =
      .tok ⟨.tok_open_paren, ['(']⟩
        ⟨"class N (public (= a 1)) x)".toList, "(class N (public (= a 1)) x)".toList⟩ := by
    decide
  have h2 : getNextToken
      ⟨"class N (public (= a 1)) x)".toList, "(class N (public (= a 1)) x)".toList⟩ =
      .tok ⟨.tok_identifier, "class".toList⟩
        ⟨" N (public (= a 1)) x)".toList, "class N (public (= a 1)) x)".toList⟩ := by decide
  have h3 : getNextToken
      ⟨" N (public (= a 1)) x)".toList, "class N (public (= a 1)) x)".toList⟩ =
      .tok ⟨.tok_identifier, "N".toList⟩
        ⟨" (public (= a 1)) x)".toList, "N (public (= a 1)) x)".toList⟩ := by decide
  have h4 : getNextToken ⟨" (public (= a 1)) x)".toList, "N (public (= a 1)) x)".toList⟩ =
      .tok ⟨.tok_open_paren, ['(']⟩
        ⟨"public (= a 1)) x)".toList, "(public (= a 1)) x)".toList⟩ := by decide
  have h5 : getNextToken ⟨"public (= a 1)) x)".toList, "(public (= a 1)) x)".toList⟩ =
      .tok ⟨.tok_identifier, "public".toList⟩
        ⟨" (= a 1)) x)".toList, "public (= a 1)) x)".toList⟩ := by decide
  have h6 : parsePublic (fuel + 3)
      ⟨⟨" (= a 1)) x)".toList, "public (= a 1)) x)".toList⟩, ⟨.tok_identifier, "public".toList⟩,
        classHeader [] ⟨.tok_identifier, "N".toList⟩ "public: \n".toList⟩ =
      .done () ⟨⟨" x)".toList, ") x)".toList⟩, ⟨.tok_open_paren, ['(']⟩,
        "class N \x7b \npublic: \na =1; \n".toList⟩ :=
    parsePublic_forms ⟨" ".toList, "=".toList, "a".toList, "1".toList⟩ [] (by decide) []
      " x)".toList "public (= a 1)) x)".toList (by simp) ⟨.tok_identifier, "public".toList⟩
      (classHeader [] ⟨.tok_identifier, "N".toList⟩ "public: \n".toList) (fuel + 3)
      (by simp)
  have h7 : getNextToken ⟨" x)".toList, ") x)".toList⟩ =
      .tok ⟨.tok_identifier, "x".toList⟩ ⟨")".toList, "x)".toList⟩ := by decide
  have h8 : getNextToken ⟨")".toList, "x)".toList⟩ =
      .tok ⟨.tok_close_paren, [')']⟩ ⟨[], ")".toList⟩ := by decide
  have h9 : getNextToken ⟨[], ")".toList⟩ = .tok ⟨.tok_eof, []⟩ ⟨[], []⟩ := by decide
  rw [runTranslator, initial, Lexer.init, parse_open _ _ _ _ h1 rfl,
    parseLoop_class _ _ _ _ _ _ h2 rfl rfl
      (parseClass_public_unclosed _ _ _ _ _ _ _ _ _ _ _ h3 rfl h4 rfl h5 rfl rfl h6 h7
        (by decide) (by decide)),
    parseLoop_skip _ _ _ _ _ h8 (by decide) (by decide),
    parseLoop_eof _ _ _ _ _ h9 rfl]

/-- C14 fails on the code for a second block after a private block: on
`(class N (private (= a 1)) (class M))`, where the block after the private
block opens with the identifier `class`, the run completes without error (the
class `N` is left open and `class M` is translated as a declaration of its
own). A first block with an unknown keyword, `(class N (foo))`, and a second
block with an unknown keyword after a public block,
`(class N (public (= a 1)) (foo))`, do abort. -/
theorem unknown_block_after_private :
    (∀ fuel, runTranslator (fuel + 4) "(class N (private (= a 1)) (class M))".toList =
      .done () ⟨⟨[], []⟩, ⟨.tok_eof, []⟩,
        "class N \x7b \nprivate: \na =1; \nclass M \x7b \n\x7d; \n".toList⟩) ∧
    (∀ (m : Nat) (e : Fatal) (o : List Char),
      runTranslator m "(class N (private (= a 1)) (class M))".toList ≠ .fatal e o) ∧
    (∀ fuel, runTranslator (fuel + 1) "(class N (foo))".toList =
      .fatal .expectedPublicOrPrivate "class N \x7b \n".toList) ∧
    (∀ fuel, runTranslator (fuel + 1) "(class N (public (= a 1)) (foo))".toList =
      .fatal .expectedPublicOrPrivate80 "class N \x7b \npublic: \na =1; \n".toList) := by
  have ha : ∀ fuel, runTranslator (fuel + 4) "(class N (private (= a 1)) (class M))".toList =
      .done () ⟨⟨[], []⟩, ⟨.tok_eof, []⟩,
        "class N \x7b \nprivate: \na =1; \nclass M \x7b \n\x7d; \n".toList⟩ := by
    intro fuel
    have h1 : getNextToken ⟨"(class N (private (= a 1)) (class M))".toList,
        "(class N (private (= a 1)) (class M))".toList⟩ =
        .tok ⟨.tok_open_paren, ['(']⟩ ⟨"class N (private (= a 1)) (class M))".toList,
          "(class N (private (= a 1)) (class M))".toList⟩ := by decide
    have h2 : getNextToken ⟨"class N (private (= a 1)) (class M))".toList,
        "(class N (private (= a 1)) (class M))".toList⟩ =
        .tok ⟨.tok_identifier, "class".toList⟩ ⟨" N (private (= a 1)) (class M))".toList,
          "class N (private (= a 1)) (class M))".toList⟩ := by decide
    have h3 : getNextToken ⟨" N (private (= a 1)) (class M))".toList,
        "class N (private (= a 1)) (class M))".toList⟩ =
        .tok ⟨.tok_identifier, "N".toList⟩ ⟨" (private (= a 1)) (class M))".toList,
          "N (private (= a 1)) (class M))".toList⟩ := by decide
    have h4 : getNextToken ⟨" (private (= a 1)) (class M))".toList,
        "N (private (= a 1)) (class M))".toList⟩ =
        .tok ⟨.tok_open_paren, ['(']⟩ ⟨"private (= a 1)) (class M))".toList,
          "(private (= a 1)) (class M))".toList⟩ := by decide
    have h5 : getNextToken ⟨"private (= a 1)) (class M))".toList,
        "(private (= a 1)) (class M))".toList⟩ =
        .tok ⟨.tok_identifier, "private".toList⟩ ⟨" (= a 1)) (class M))".toList,
          "private (= a 1)) (class M))".toList⟩ := by decide
    have h6 : parsePrivate (fuel + 4)
        ⟨⟨" (= a 1)) (class M))".toList, "private (= a 1)) (class M))".toList⟩,
          ⟨.tok_identifier, "private".toList⟩,
          classHeader [] ⟨.tok_identifier, "N".toList⟩ "private: \n".toList⟩ =
        .done () ⟨⟨" (class M))".toList, ") (class M))".toList⟩, ⟨.tok_open_paren, ['(']⟩,
          "class N \x7b \nprivate: \na =1; \n".toList⟩ :=
      parsePrivate_forms ⟨" ".toList, "=".toList, "a".toList, "1".toList⟩ [] (by decide) []
        " (class M))".toList "private (= a 1)) (class M))".toList (by simp)
        ⟨.tok_identifier, "private".toList⟩
        (classHeader [] ⟨.tok_identifier, "N".toList⟩ "private: \n".toList) (fuel + 4)
        (by simp)
    have h7 : getNextToken ⟨" (class M))".toList, ") (class M))".toList⟩ =
        .tok ⟨.tok_open_paren, ['(']⟩ ⟨"class M))".toList, "(class M))".toList⟩ := by decide
    have h8 : getNextToken ⟨"class M))".toList, "(class M))".toList⟩ =
        .tok ⟨.tok_identifier, "class".toList⟩ ⟨" M))".toList, "class M))".toList⟩ := by decide
    have h9 : getNextToken ⟨" M))".toList, "class M))".toList⟩ =
        .tok ⟨.tok_identifier, "M".toList⟩ ⟨"))".toList, "M))".toList⟩ := by decide
    have h10 : getNextToken ⟨"))".toList, "M))".toList⟩ =
        .tok ⟨.tok_close_paren, [')']⟩ ⟨")".toList, "))".toList⟩ := by decide
    have h11 : getNextToken ⟨")".toList, "))".toList⟩ =
        .tok ⟨.tok_close_paren, [')']⟩ ⟨[], ")".toList⟩ := by decide
    have h12 : getNextToken ⟨[], ")".toList⟩ = .tok ⟨.tok_eof, []⟩ ⟨[], []⟩ := by decide
    rw [runTranslator, initial, Lexer.init, parse_open _ _ _ _ h1 rfl,
      parseLoop_class _ _ _ _ _ _ h2 rfl rfl
        (parseClass_private_unclosed _ _ _ _ _ _ _ _ _ _ _ h3 rfl h4 rfl h5 rfl rfl h6 h7
          (by decide)),
      parseLoop_class _ _ _ _ _ _ h8 rfl rfl (parseClass_empty _ _ _ _ _ _ h9 rfl h10 rfl),
      parseLoop_skip _ _ _ _ _ h11 (by decide) (by decide),
      parseLoop_eof _ _ _ _ _ h12 rfl]
    rfl
  refine ⟨ha, fun m e o => runTranslator_never_fatal 4 _ _ (ha 0) m e o, fun fuel => ?_,
    fun fuel => ?_⟩
  · have h1 : getNextToken ⟨"(class N (foo))".toList, "(class N (foo))".toList⟩ =
        .tok ⟨.tok_open_paren, ['(']⟩ ⟨"class N (foo))".toList, "(class N (foo))".toList⟩ := by
      decide
    have h2 : getNextToken ⟨"class N (foo))".toList, "(class N (foo))".toList⟩ =
        .tok ⟨.tok_identifier, "class".toList⟩
          ⟨" N (foo))".toList, "class N (foo))".toList⟩ := by decide
    have h3 : getNextToken ⟨" N (foo))".toList, "class N (foo))".toList⟩ =
        .tok ⟨.tok_identifier, "N".toList⟩ ⟨" (foo))".toList, "N (foo))".toList⟩ := by decide
    have h4 : getNextToken ⟨" (foo))".toList, "N (foo))".toList⟩ =
        .tok ⟨.tok_open_paren, ['(']⟩ ⟨"foo))".toList, "(foo))".toList⟩ := by decide
    have h5 : getNextToken ⟨"foo))".toList, "(foo))".toList⟩ =
        .tok ⟨.tok_identifier, "foo".toList⟩ ⟨"))".toList, "foo))".toList⟩ := by decide
    rw [runTranslator, initial, Lexer.init, parse_open _ _ _ _ h1 rfl,
      parseLoop_class_fatal _ _ _ _ _ _ _ h2 rfl rfl
        (parseClass_unknown_first _ _ _ _ _ _ _ _ h3 rfl h4 rfl h5 rfl (by decide) (by decide))]
    rfl
  · have h1 : getNextToken ⟨"(class N (public (= a 1)) (foo))".toList,
        "(class N (public (= a 1)) (foo))".toList⟩ =
        .tok ⟨.tok_open_paren, ['(']⟩ ⟨"class N (public (= a 1)) (foo))".toList,
          "(class N (public (= a 1)) (foo))".toList⟩ := by decide
    have h2 : getNextToken ⟨"class N (public (= a 1)) (foo))".toList,
        "(class N (public (= a 1)) (foo))".toList⟩ =
        .tok ⟨.tok_identifier, "class".toList⟩ ⟨" N (public (= a 1)) (foo))".toList,
          "class N (public (= a 1)) (foo))".toList⟩ := by decide
    have h3 : getNextToken ⟨" N (public (= a 1)) (foo))".toList,
        "class N (public (= a 1)) (foo))".toList⟩ =
        .tok ⟨.tok_identifier, "N".toList⟩ ⟨" (public (= a 1)) (foo))".toList,
          "N (public (= a 1)) (foo))".toList⟩ := by decide
    have h4 : getNextToken ⟨" (public (= a 1)) (foo))".toList,
        "N (public (= a 1)) (foo))".toList⟩ =
        .tok ⟨.tok_open_paren, ['(']⟩ ⟨"public (= a 1)) (foo))".toList,
          "(public (= a 1)) (foo))".toList⟩ := by decide
    have h5 : getNextToken ⟨"public (= a 1)) (foo))".toList,
        "(public (= a 1)) (foo))".toList⟩ =
        .tok ⟨.tok_identifier, "public".toList⟩ ⟨" (= a 1)) (foo))".toList,
          "public (= a 1)) (foo))".toList⟩ := by decide
    have h6 : parsePublic (fuel + 1)
        ⟨⟨" (= a 1)) (foo))".toList, "public (= a 1)) (foo))".toList⟩,
          ⟨.tok_identifier, "public".toList⟩,
          classHeader [] ⟨.tok_identifier, "N".toList⟩ "public: \n".toList⟩ =
        .done () ⟨⟨" (foo))".toList, ") (foo))".toList⟩, ⟨.tok_open_paren, ['(']⟩,
          "class N \x7b \npublic: \na =1; \n".toList⟩ :=
      parsePublic_forms ⟨" ".toList, "=".toList, "a".toList, "1".toList⟩ [] (by decide) []
        " (foo))".toList "public (= a 1)) (foo))".toList (by simp)
        ⟨.tok_identifier, "public".toList⟩
        (classHeader [] ⟨.tok_identifier, "N".toList⟩ "public: \n".toList) (fuel + 1)
        (by simp)
    have h7 : getNextToken ⟨" (foo))".toList, ") (foo))".toList⟩ =
        .tok ⟨.tok_open_paren, ['(']⟩ ⟨"foo))".toList, "(foo))".toList⟩ := by decide
    have h8 : getNextToken ⟨"foo))".toList, "(foo))".toList⟩ =
        .tok ⟨.tok_identifier, "foo".toList⟩ ⟨"))".toList, "foo))".toList⟩ := by decide
    rw [runTranslator, initial, Lexer.init, parse_open _ _ _ _ h1 rfl,
      parseLoop_class_fatal _ _ _ _ _ _ _ h2 rfl rfl
        (parseClass_unknown_second _ _ _ _ _ _ _ _ _ _ _ _ _ h3 rfl h4 rfl h5 rfl rfl h6 h7 rfl
          h8 rfl (by decide))]

/-! ### Call-forms of any three tokens -/

theorem isStringLiteral_split {w : List Char} (h : isStringLiteral w = true) :
    ∃ body, w = '"' :: (body ++ ['"']) ∧ (∀ x ∈ body, x ≠ '"') ∧ (∀ x ∈ body, x ≠ '\x00') := by
  cases w with
  | nil => simp [isStringLiteral] at h
  | cons c cs =>
    simp only [isStringLiteral, Bool.and_eq_true, decide_eq_true_eq, List.all_eq_true] at h
    obtain ⟨⟨rfl, hl⟩, hall⟩ := h
    refine ⟨cs.dropLast, ?_, ?_, ?_⟩
    · rw [List.dropLast_append_getLast? _ (by simp [hl])]
    · intro x hx; have := hall x hx; simp [stringChar] at this; exact this.1
    · intro x hx; have := hall x hx; simp [stringChar] at this; exact this.2

theorem isSigilName_split {w : List Char} (h : isSigilName w = true) :
    ∃ s c, w = [s, c] ∧ (s = '*' ∨ s = '&') ∧ isalpha c = true := by
  match w, h with
  | [s, c], h =>
    simp only [isSigilName, Bool.and_eq_true, Bool.or_eq_true, decide_eq_true_eq] at h
    exact ⟨s, c, rfl, h.1, h.2⟩

/-- A word of one of the kinds of `tokenKindOf`, followed by a boundary
character, is read as one token whose text is the word; the cursor is left
just after it. -/
theorem getNextToken_token (ws w rest st : List Char) (k : TokenKind)
    (hws : ∀ x ∈ ws, spaceChar x = true) (hw : tokenKindOf w = some k)
    (hr : boundary (peek rest) = true) :
    getNextToken ⟨ws ++ (w ++ rest), st⟩ = .tok ⟨k, w⟩ ⟨rest, w ++ rest⟩ := by
  unfold tokenKindOf at hw
  cases hk : wordKind w with
  | some k1 =>
    rw [hk] at hw
    injection hw with hw; subst hw
    exact getNextToken_word ws w rest st k1 hws hk hr
  | none =>
    rw [hk] at hw
    simp only at hw
    split_ifs at hw with h1 h2
    · injection hw with hw; subst hw
      obtain ⟨body, rfl, hq, h0⟩ := isStringLiteral_split h1
      rw [getNextToken_skip ws _ st st hws]
      have := getNextToken_string_closed body rest st hq h0
      simpa using this
    · injection hw with hw; subst hw
      obtain ⟨s, c, rfl, hs, hc⟩ := isSigilName_split h2
      exact (getNextToken_sigil ws rest st s c hws hs).1 hc

theorem threeTokens_lead {f : CallForm} (h : f.threeTokens = true) :
    ∀ x ∈ f.lead, spaceChar x = true := by
  simp only [CallForm.threeTokens, Bool.and_eq_true, List.all_eq_true] at h
  exact h.1.1.1

theorem threeTokens_lhs {f : CallForm} (h : f.threeTokens = true) :
    ∃ k, tokenKindOf f.lhs = some k := by
  simp only [CallForm.threeTokens, Bool.and_eq_true] at h
  exact Option.isSome_iff_exists.mp h.1.2

theorem threeTokens_rhs {f : CallForm} (h : f.threeTokens = true) :
    ∃ k, tokenKindOf f.rhs = some k := by
  simp only [CallForm.threeTokens, Bool.and_eq_true] at h
  exact Option.isSome_iff_exists.mp h.2

/-- The operator of a call-form of three tokens is read as one token that is
not the identifier `cMethod`, and that is the identifier `init` exactly when
the operator text is `init`. -/
theorem threeTokens_op {f : CallForm} (h : f.threeTokens = true) :
    ∃ k, tokenKindOf f.op = some k
      ∧ ¬ (k = .tok_identifier ∧ f.op = "cMethod".toList)
      ∧ ((k = .tok_identifier ∧ f.op = "init".toList) ↔ f.op = "init".toList) := by
  simp only [CallForm.threeTokens, Bool.and_eq_true, decide_eq_true_eq] at h
  obtain ⟨k, hk⟩ := Option.isSome_iff_exists.mp h.1.1.2.1
  refine ⟨k, hk, fun hc => h.1.1.2.2 hc.2, fun hc => hc.2, fun hc => ⟨?_, hc⟩⟩
  rw [hc] at hk
  have : tokenKindOf "init".toList = some .tok_identifier := by decide
  rw [this] at hk
  injection hk with hk
  exact hk.symm

/-- The call-form rule on the text of a form of three tokens, the cursor just
after the opening parenthesis: the three tokens are read and the form is
written. -/
theorem parseCallHelper_tokens (f : CallForm) (hf : f.threeTokens = true) (tk : Token)
    (rest st : List Char) (tok : Token) (out : List Char) (hr : boundary (peek rest) = true) :
    parseCallHelper tk ⟨⟨f.op ++ ' ' :: (f.lhs ++ ' ' :: (f.rhs ++ rest)), st⟩, tok, out⟩ =
      .done () ⟨⟨rest, f.rhs ++ rest⟩, tok, out ++ f.text⟩ := by
  obtain ⟨ka, ha, hnc, hinit⟩ := threeTokens_op hf
  obtain ⟨kb, hb⟩ := threeTokens_lhs hf
  obtain ⟨kc, hc⟩ := threeTokens_rhs hf
  have h1 := getNextToken_token [] f.op (' ' :: (f.lhs ++ ' ' :: (f.rhs ++ rest))) st ka
    (by simp) ha (boundary_cons ' ' _ (by decide))
  have h2 := getNextToken_token [' '] f.lhs (' ' :: (f.rhs ++ rest))
    (f.op ++ ' ' :: (f.lhs ++ ' ' :: (f.rhs ++ rest))) kb (by decide) hb
    (boundary_cons ' ' _ (by decide))
  have h3 := getNextToken_token [' '] f.rhs rest (f.lhs ++ ' ' :: (f.rhs ++ rest)) kc
    (by decide) hc hr
  by_cases hi : f.op = "init".toList
  · rw [parseCallHelper_init tk ⟨ka, f.op⟩ ⟨kb, f.lhs⟩ ⟨kc, f.rhs⟩ _ _ _ _ h1 h2 h3
      (hinit.mpr hi), CallForm.text, if_pos hi]
  · rw [parseCallHelper_op tk ⟨ka, f.op⟩ ⟨kb, f.lhs⟩ ⟨kc, f.rhs⟩ _ _ _ _ h1 h2 h3
      (fun h => hi h.2) hnc, CallForm.text, if_neg hi]

/-- The loop of call-forms on the text of forms of three tokens, the cursor
just after the opening parenthesis of the first: every form is written in order
and the loop leaves at the two closing parentheses after the last form. -/
theorem callLoop_tokens (fs : List CallForm) :
    ∀ (f : CallForm) (_hf : ∀ g ∈ f :: fs, g.threeTokens = true) (ws rest st : List Char)
      (_hws : ∀ x ∈ ws, spaceChar x = true) (tok : Token) (out : List Char) (fuel : Nat)
      (_hfuel : (f :: fs).length ≤ fuel),
      callLoop fuel
          ⟨⟨f.op ++ ' ' :: (f.lhs ++ ' ' :: (f.rhs ++ ')' :: (formsSource fs ++ (ws ++ ')' :: rest)))),
            st⟩, tok, out⟩ =
        .done () ⟨⟨rest, ')' :: rest⟩, tok, out ++ formsText (f :: fs)⟩ := by
  induction fs with
  | nil =>
    intro f hf ws rest st hws tok out fuel hfuel
    obtain ⟨n, rfl⟩ : ∃ n, fuel = n + 1 := ⟨fuel - 1, by simp at hfuel; omega⟩
    have h0 := parseCallHelper_tokens f (hf f (by simp)) tok (')' :: (ws ++ ')' :: rest)) st tok
      out (boundary_cons ')' _ (by decide))
    have h1 := getNextToken_close [] (ws ++ ')' :: rest) (f.rhs ++ ')' :: (ws ++ ')' :: rest))
      (by simp)
    have h2 := getNextToken_close ws rest (')' :: (ws ++ ')' :: rest)) hws
    simp only [List.nil_append] at h1
    simp only [callLoop, formsSource, formsText, List.nil_append, List.append_nil, bind_getToken]
    rw [bind_of_done _ _ _ _ _ h0]
    simp only [bind_next, h1, h2, run_pure, and_self, if_true]
  | cons g gs ih =>
    intro f hf ws rest st hws tok out fuel hfuel
    obtain ⟨n, rfl⟩ : ∃ n, fuel = n + 1 := ⟨fuel - 1, by simp at hfuel; omega⟩
    have hg : g.threeTokens = true := hf g (by simp)
    have hrest : formsSource (g :: gs) ++ (ws ++ ')' :: rest) =
        g.lead ++ '(' :: (g.op ++ ' ' :: (g.lhs ++ ' ' :: (g.rhs ++ ')' ::
          (formsSource gs ++ (ws ++ ')' :: rest))))) := by
      rw [formsSource, List.append_assoc, source_append]
    have h0 := parseCallHelper_tokens f (hf f (by simp)) tok
      (')' :: (formsSource (g :: gs) ++ (ws ++ ')' :: rest))) st tok out
      (boundary_cons ')' _ (by decide))
    have h1 := getNextToken_close [] (formsSource (g :: gs) ++ (ws ++ ')' :: rest))
      (f.rhs ++ ')' :: (formsSource (g :: gs) ++ (ws ++ ')' :: rest))) (by simp)
    have h2 := getNextToken_open g.lead
      (g.op ++ ' ' :: (g.lhs ++ ' ' :: (g.rhs ++ ')' :: (formsSource gs ++ (ws ++ ')' :: rest)))))
      (')' :: (formsSource (g :: gs) ++ (ws ++ ')' :: rest))) (threeTokens_lead hg)
    rw [← hrest] at h2
    simp only [List.nil_append] at h1
    have hih := ih g (fun x hx => hf x (by simp at hx ⊢; tauto)) ws rest
      ('(' :: (g.op ++ ' ' :: (g.lhs ++ ' ' :: (g.rhs ++ ')' :: (formsSource gs ++ (ws ++ ')' :: rest))))))
      hws tok (out ++ f.text) n (by simp at hfuel ⊢; omega)
    rw [callLoop]
    simp only [bind_getToken]
    rw [bind_of_done _ _ _ _ _ h0]
    simp only [bind_next, h1, h2, reduceCtorEq, and_false, if_false, hih]
    simp [formsText]

theorem parsePublic_tokens (f : CallForm) (fs : List CallForm)
    (hf : ∀ g ∈ f :: fs, g.threeTokens = true) (ws rest st : List Char)
    (hws : ∀ x ∈ ws, spaceChar x = true) (tok : Token) (out : List Char) (fuel : Nat)
    (hfuel : (f :: fs).length ≤ fuel) :
    parsePublic fuel ⟨⟨formsSource (f :: fs) ++ (ws ++ ')' :: rest), st⟩, tok, out⟩ =
      .done () ⟨⟨rest, ')' :: rest⟩, ⟨.tok_open_paren, ['(']⟩, out ++ formsText (f :: fs)⟩ := by
  have hsrc : formsSource (f :: fs) ++ (ws ++ ')' :: rest) =
      f.lead ++ '(' :: (f.op ++ ' ' :: (f.lhs ++ ' ' :: (f.rhs ++ ')' ::
        (formsSource fs ++ (ws ++ ')' :: rest))))) := by
    rw [formsSource, List.append_assoc, source_append]
  have h1 := getNextToken_open f.lead
    (f.op ++ ' ' :: (f.lhs ++ ' ' :: (f.rhs ++ ')' :: (formsSource fs ++ (ws ++ ')' :: rest)))))
    st (threeTokens_lead (hf f (by simp)))
  rw [← hsrc] at h1
  simp only [parsePublic, bind_advance, h1]
  exact callLoop_tokens fs f hf ws rest _ hws _ out fuel hfuel

theorem parsePrivate_tokens (f : CallForm) (fs : List CallForm)
    (hf : ∀ g ∈ f :: fs, g.threeTokens = true) (ws rest st : List Char)
    (hws : ∀ x ∈ ws, spaceChar x = true) (tok : Token) (out : List Char) (fuel : Nat)
    (hfuel : (f :: fs).length ≤ fuel) :
    parsePrivate fuel ⟨⟨formsSource (f :: fs) ++ (ws ++ ')' :: rest), st⟩, tok, out⟩ =
      .done () ⟨⟨rest, ')' :: rest⟩, ⟨.tok_open_paren, ['(']⟩, out ++ formsText (f :: fs)⟩ :=
  parsePublic_tokens f fs hf ws rest st hws tok out fuel hfuel

theorem mainHelper_tokens (f : CallForm) (fs : List CallForm)
    (hf : ∀ g ∈ f :: fs, g.threeTokens = true) (ws rest st : List Char)
    (hws : ∀ x ∈ ws, spaceChar x = true) (tok : Token) (out : List Char) (fuel : Nat)
    (hfuel : (f :: fs).length ≤ fuel) :
    mainHelper fuel ⟨⟨'(' :: ')' :: (formsSource (f :: fs) ++ (ws ++ ')' :: rest)), st⟩, tok, out⟩ =
      .done () ⟨⟨rest, ')' :: rest⟩, ⟨.tok_open_paren, ['(']⟩,
        out ++ "int main ".toList ++ "() \x7b \n".toList ++ formsText (f :: fs)
          ++ "return 0;".toList ++ "\x7d \n".toList⟩ := by
  have hsrc : formsSource (f :: fs) ++ (ws ++ ')' :: rest) =
      f.lead ++ '(' :: (f.op ++ ' ' :: (f.lhs ++ ' ' :: (f.rhs ++ ')' ::
        (formsSource fs ++ (ws ++ ')' :: rest))))) := by
    rw [formsSource, List.append_assoc, source_append]
  have h1 := getNextToken_open [] (')' :: (formsSource (f :: fs) ++ (ws ++ ')' :: rest))) st
    (by simp)
  have h2 := getNextToken_close [] (formsSource (f :: fs) ++ (ws ++ ')' :: rest))
    ('(' :: ')' :: (formsSource (f :: fs) ++ (ws ++ ')' :: rest))) (by simp)
  have h3 := getNextToken_open f.lead
    (f.op ++ ' ' :: (f.lhs ++ ' ' :: (f.rhs ++ ')' :: (formsSource fs ++ (ws ++ ')' :: rest)))))
    (')' :: (formsSource (f :: fs) ++ (ws ++ ')' :: rest))) (threeTokens_lead (hf f (by simp)))
  rw [← hsrc] at h3
  have h4 := callLoop_tokens fs f hf ws rest
    ('(' :: (f.op ++ ' ' :: (f.lhs ++ ' ' :: (f.rhs ++ ')' :: (formsSource fs ++ (ws ++ ')' :: rest))))))
    hws ⟨.tok_open_paren, ['(']⟩ (out ++ "int main ".toList ++ "() \x7b \n".toList) fuel hfuel
  simp only [List.nil_append] at h1 h2
  simp only [mainHelper, bind_write, bind_advance, h1, bind_getToken, ne_eq, not_true, if_false,
    bind_pure_run, h2, h3, reduceCtorEq]
  rw [bind_of_done _ _ _ _ _ h4]
  rfl

theorem boundary_tokens_cons (f : CallForm) (fs : List CallForm) (hf : f.threeTokens = true)
    (rest : List Char) : boundary (peek (formsSource (f :: fs) ++ rest)) = true := by
  rw [formsSource, List.append_assoc, source_append]
  exact boundary_ws_open f.lead _ (threeTokens_lead hf)

theorem tokenKindOf_of_wordKind {w : List Char} {k : TokenKind} (h : wordKind w = some k) :
    tokenKindOf w = some k := by
  simp [tokenKindOf, h]

/-- The forms of identifiers, numeric literals and operator tokens are among
the forms of three tokens. -/
theorem wellFormed_threeTokens {f : CallForm} (h : f.wellFormed = true) :
    f.threeTokens = true := by
  obtain ⟨ka, ha, hnc, -⟩ := wellFormed_op h
  obtain ⟨kb, hb⟩ := wellFormed_lhs h
  obtain ⟨kc, hc⟩ := wellFormed_rhs h
  have hne : f.op ≠ "cMethod".toList := by
    intro he
    rw [he] at ha
    have : wordKind "cMethod".toList = some .tok_identifier := by decide
    rw [this] at ha
    injection ha with ha
    exact hnc ⟨ha.symm, he⟩
  have hl := wellFormed_lead h
  simp only [CallForm.threeTokens, Bool.and_eq_true, List.all_eq_true, decide_eq_true_eq]
  exact ⟨⟨⟨hl, by rw [tokenKindOf_of_wordKind ha]; rfl, hne⟩,
    by rw [tokenKindOf_of_wordKind hb]; rfl⟩, by rw [tokenKindOf_of_wordKind hc]; rfl⟩

theorem exists_cons_of_ne_nil {α : Type} {l : List α} (h : l ≠ []) : ∃ a as, l = a :: as := by
  cases l with
  | nil => exact absurd rfl h
  | cons a as => exact ⟨a, as, rfl⟩

/-- The run on `(fn main() f1 ... fn)` with at least one form of three tokens:
the header `int main () { `, the text of the forms, then `return 0;} `. -/
theorem main_tokens_run (f : CallForm) (fs : List CallForm)
    (hf : ∀ g ∈ f :: fs, g.threeTokens = true) (fuel : Nat) (h2 : 2 ≤ fuel)
    (hlen : (f :: fs).length ≤ fuel) :
    runTranslator fuel (mainSource (f :: fs)) =
      .done () ⟨⟨[], []⟩, ⟨.tok_eof, []⟩,
        "int main () \x7b \n".toList ++ formsText (f :: fs) ++ "return 0;\x7d \n".toList⟩ := by
  obtain ⟨n, rfl⟩ : ∃ n, fuel = n + 2 := ⟨fuel - 2, by omega⟩
  let body := formsSource (f :: fs) ++ ([] ++ ')' :: [])
  have hsrc : mainSource (f :: fs) =
      '(' :: ("fn".toList ++ ' ' :: ("main".toList ++ '(' :: ')' :: body)) := by
    simp [mainSource, body]
  have h1 := getNextToken_open [] ("fn".toList ++ ' ' :: ("main".toList ++ '(' :: ')' :: body))
    (mainSource (f :: fs)) (by simp)
  have h2 := getNextToken_word [] "fn".toList (' ' :: ("main".toList ++ '(' :: ')' :: body))
    ('(' :: ("fn".toList ++ ' ' :: ("main".toList ++ '(' :: ')' :: body)))
    .tok_identifier (by simp) (by decide) (boundary_cons ' ' _ (by decide))
  have h3 := getNextToken_word [' '] "main".toList ('(' :: ')' :: body)
    ("fn".toList ++ ' ' :: ("main".toList ++ '(' :: ')' :: body))
    .tok_identifier (by decide) (by decide) (boundary_cons '(' _ (by decide))
  have h4 := mainHelper_tokens f fs hf [] [] ("main".toList ++ '(' :: ')' :: body) (by simp)
    ⟨.tok_identifier, "main".toList⟩ [] (n + 2) hlen
  have h5 := getNextToken_eof [] [')'] (by simp)
  rw [runTranslator, initial, Lexer.init, hsrc,
    parse_open _ _ _ _ h1 rfl,
    parseLoop_fn _ _ _ _ _ _ h2 rfl rfl ((parseFunction_main _ _ _ _ h3 rfl rfl).trans h4),
    parseLoop_eof _ _ _ _ _ h5 rfl]
  simp

/-- The main entry on forms whose tokens move the cursor. For every `main`
declaration `(fn main() f1 ... fn)` with `n ≥ 0` call-forms of three tokens
(identifiers, numeric literals, operator tokens, string literals, sigil names;
operator not `cMethod`), the run completes without error and the emitted text
is the header `int main () { `, then the text of the forms in input order, then
`return 0;} ` followed by a newline, once and last, for `n = 0` as for
`n ≥ 1`. -/
theorem main_translation (forms : List CallForm) (hf : ∀ g ∈ forms, g.threeTokens = true)
    (fuel : Nat) (h2 : 2 ≤ fuel) (hlen : forms.length ≤ fuel) :
    runTranslator fuel (mainSource forms) =
      .done () ⟨⟨[], []⟩, ⟨.tok_eof, []⟩,
        "int main () \x7b \n".toList ++ formsText forms ++ "return 0;\x7d \n".toList⟩ := by
  cases forms with
  | nil => exact main_empty_run fuel h2
  | cons f fs => exact main_tokens_run f fs hf fuel h2 hlen

theorem private_class_run (name : List Char) (priv : List CallForm)
    (hN : isIdentifier name = true) (hne : priv ≠ [])
    (hf : ∀ g ∈ priv, g.threeTokens = true) (fuel : Nat) (h2 : 2 ≤ fuel)
    (hlen : priv.length ≤ fuel) :
    runTranslator fuel (privateClassSource name priv) =
      .done () ⟨⟨[], []⟩, ⟨.tok_eof, []⟩,
        "class ".toList ++ name ++ " \x7b \n".toList ++ "private: \n".toList ++ formsText priv
          ++ "\x7d; \n".toList⟩ := by
  obtain ⟨n, rfl⟩ : ∃ n, fuel = n + 2 := ⟨fuel - 2, by omega⟩
  obtain ⟨f, fs, rfl⟩ := exists_cons_of_ne_nil hne
  let body := formsSource (f :: fs) ++ ([] ++ ')' :: [')'])
  have hsrc : privateClassSource name (f :: fs) =
      '(' :: ("class".toList ++ ' ' :: (name ++ ' ' :: '(' :: ("private".toList ++ body))) := by
    simp [privateClassSource, body]
  have h1 := getNextToken_open []
    ("class".toList ++ ' ' :: (name ++ ' ' :: '(' :: ("private".toList ++ body)))
    (privateClassSource name (f :: fs)) (by simp)
  have h2 := getNextToken_word [] "class".toList
    (' ' :: (name ++ ' ' :: '(' :: ("private".toList ++ body)))
    ('(' :: ("class".toList ++ ' ' :: (name ++ ' ' :: '(' :: ("private".toList ++ body))))
    .tok_identifier (by simp) (by decide) (boundary_cons ' ' _ (by decide))
  have h3 := getNextToken_word [' '] name (' ' :: '(' :: ("private".toList ++ body))
    ("class".toList ++ ' ' :: (name ++ ' ' :: '(' :: ("private".toList ++ body)))
    .tok_identifier (by decide) (identifier_wordKind hN) (boundary_cons ' ' _ (by decide))
  have h4 := getNextToken_open [' '] ("private".toList ++ body)
    (name ++ ' ' :: '(' :: ("private".toList ++ body)) (by decide)
  have h5 := getNextToken_word [] "private".toList body ('(' :: ("private".toList ++ body))
    .tok_identifier (by simp) (by decide) (boundary_tokens_cons f fs (hf f (by simp)) _)
  have h6 := parsePrivate_tokens f fs hf [] [')'] ("private".toList ++ body) (by simp)
    ⟨.tok_identifier, "private".toList⟩
    (classHeader [] ⟨.tok_identifier, name⟩ "private: \n".toList) (n + 2) hlen
  have h7 := getNextToken_close [] [] [')', ')'] (by simp)
  have h8 := getNextToken_eof [] [')'] (by simp)
  rw [runTranslator, initial, Lexer.init, hsrc,
    parse_open _ _ _ _ h1 rfl,
    parseLoop_class _ _ _ _ _ _ h2 rfl rfl
      (parseClass_private_done _ _ _ _ _ _ _ _ _ _ _ h3 rfl h4 rfl h5 rfl rfl h6 h7 rfl),
    parseLoop_eof _ _ _ _ _ h8 rfl]
  simp [classHeader]

theorem two_block_class_run (name : List Char) (pub priv : List CallForm)
    (hN : isIdentifier name = true) (hpne : pub ≠ []) (hqne : priv ≠ [])
    (hp : ∀ g ∈ pub, g.threeTokens = true) (hq : ∀ g ∈ priv, g.threeTokens = true)
    (fuel : Nat) (h2 : 2 ≤ fuel) (hplen : pub.length ≤ fuel) (hqlen : priv.length ≤ fuel) :
    runTranslator fuel (twoBlockClassSource name pub priv) =
      .done () ⟨⟨[], []⟩, ⟨.tok_eof, []⟩,
        "class ".toList ++ name ++ " \x7b \n".toList ++ "public: \n".toList ++ formsText pub
          ++ "private: \n".toList ++ formsText priv ++ "\x7d; \n".toList⟩ := by
  obtain ⟨n, rfl⟩ : ∃ n, fuel = n + 2 := ⟨fuel - 2, by omega⟩
  obtain ⟨p, ps, rfl⟩ := exists_cons_of_ne_nil hpne
  obtain ⟨q, qs, rfl⟩ := exists_cons_of_ne_nil hqne
  let body2 := formsSource (q :: qs) ++ ([] ++ ')' :: [')'])
  let blocks := formsSource (p :: ps) ++ ([] ++ ')' :: (' ' :: '(' :: ("private".toList ++ body2)))
  have hsrc : twoBlockClassSource name (p :: ps) (q :: qs) =
      '(' :: ("class".toList ++ ' ' :: (name ++ ' ' :: '(' :: ("public".toList ++ blocks))) := by
    simp [twoBlockClassSource, body2, blocks]
  have h1 := getNextToken_open []
    ("class".toList ++ ' ' :: (name ++ ' ' :: '(' :: ("public".toList ++ blocks)))
    (twoBlockClassSource name (p :: ps) (q :: qs)) (by simp)
  have h2 := getNextToken_word [] "class".toList
    (' ' :: (name ++ ' ' :: '(' :: ("public".toList ++ blocks)))
    ('(' :: ("class".toList ++ ' ' :: (name ++ ' ' :: '(' :: ("public".toList ++ blocks))))
    .tok_identifier (by simp) (by decide) (boundary_cons ' ' _ (by decide))
  have h3 := getNextToken_word [' '] name (' ' :: '(' :: ("public".toList ++ blocks))
    ("class".toList ++ ' ' :: (name ++ ' ' :: '(' :: ("public".toList ++ blocks)))
    .tok_identifier (by decide) (identifier_wordKind hN) (boundary_cons ' ' _ (by decide))
  have h4 := getNextToken_open [' '] ("public".toList ++ blocks)
    (name ++ ' ' :: '(' :: ("public".toList ++ blocks)) (by decide)
  have h5 := getNextToken_word [] "public".toList blocks ('(' :: ("public".toList ++ blocks))
    .tok_identifier (by simp) (by decide) (boundary_tokens_cons p ps (hp p (by simp)) _)
  have h6 := parsePublic_tokens p ps hp [] (' ' :: '(' :: ("private".toList ++ body2))
    ("public".toList ++ blocks) (by simp) ⟨.tok_identifier, "public".toList⟩
    (classHeader [] ⟨.tok_identifier, name⟩ "public: \n".toList) (n + 2) hplen
  have h7 := getNextToken_open [' '] ("private".toList ++ body2)
    (')' :: ' ' :: '(' :: ("private".toList ++ body2)) (by decide)
  have h8 := getNextToken_word [] "private".toList body2 ('(' :: ("private".toList ++ body2))
    .tok_identifier (by simp) (by decide) (boundary_tokens_cons q qs (hq q (by simp)) _)
  have h9 := parsePrivate_tokens q qs hq [] [')'] ("private".toList ++ body2) (by simp)
    ⟨.tok_identifier, "private".toList⟩
    (classHeader [] ⟨.tok_identifier, name⟩ "public: \n".toList ++ formsText (p :: ps)
      ++ "private: \n".toList) (n + 2) hqlen
  have h10 := getNextToken_close [] [] [')', ')'] (by simp)
  have h11 := getNextToken_eof [] [')'] (by simp)
  rw [runTranslator, initial, Lexer.init, hsrc,
    parse_open _ _ _ _ h1 rfl,
    parseLoop_class _ _ _ _ _ _ h2 rfl rfl
      (parseClass_public_private_done _ _ _ _ _ _ _ _ _ _ _ _ _ _ _ _ h3 rfl h4 rfl h5 rfl
        rfl h6 h7 rfl h8 rfl rfl h9 h10 rfl),
    parseLoop_eof _ _ _ _ _ h11 rfl]
  simp [classHeader]

/-- The order of the blocks on forms whose tokens move the cursor. For every
identifier `N` and non-empty sequences `F` and `G` of call-forms of three
tokens (identifiers, numeric literals, operator tokens, string literals, sigil
names; operator not `cMethod`): translating `(class N (public F) (private G))`
completes without error and emits exactly `class N { \n`, `public: \n`, the
text of `F`, `private: \n`, the text of `G`, `}; \n` in that order; and
translating `(class N (private G))` completes without error and emits exactly
`class N { \n`, `private: \n`, the text of `G`, `}; \n`. -/
theorem block_order_translation (name : List Char) (pub priv : List CallForm)
    (hN : isIdentifier name = true) (hpne : pub ≠ []) (hqne : priv ≠ [])
    (hp : ∀ g ∈ pub, g.threeTokens = true) (hq : ∀ g ∈ priv, g.threeTokens = true)
    (fuel : Nat) (h2 : 2 ≤ fuel) (hplen : pub.length ≤ fuel) (hqlen : priv.length ≤ fuel) :
    runTranslator fuel (twoBlockClassSource name pub priv) =
      .done () ⟨⟨[], []⟩, ⟨.tok_eof, []⟩,
        "class ".toList ++ name ++ " \x7b \n".toList ++ "public: \n".toList ++ formsText pub
          ++ "private: \n".toList ++ formsText priv ++ "\x7d; \n".toList⟩ ∧
    runTranslator fuel (privateClassSource name priv) =
      .done () ⟨⟨[], []⟩, ⟨.tok_eof, []⟩,
        "class ".toList ++ name ++ " \x7b \n".toList ++ "private: \n".toList ++ formsText priv
          ++ "\x7d; \n".toList⟩ :=
  ⟨two_block_class_run name pub priv hN hpne hqne hp hq fuel h2 hplen hqlen,
   private_class_run name priv hN hqne hq fuel h2 hqlen⟩

/-! ### Call-forms with a token that does not move the cursor -/

/-- At a place where `getNextToken` returns a token that is neither an
identifier nor a closing parenthesis and leaves the cursor where it was, the
loop of call-forms reads that token five times a round and never leaves. -/
theorem callLoop_stuck (p : List Char) (t : Token)
    (hfix : ∀ st, getNextToken ⟨p, st⟩ = .tok t ⟨p, p⟩)
    (hid : t.kind ≠ .tok_identifier) (hcl : t.kind ≠ .tok_close_paren) (n : Nat) :
    ∀ (st : List Char) (tk : Token) (out : List Char),
      callLoop n ⟨⟨p, st⟩, tk, out⟩ = .outOfFuel := by
  induction n with
  | zero => intro st tk out; rfl
  | succ n ih =>
    intro st tk out
    have h0 : parseCallHelper tk ⟨⟨p, st⟩, tk, out⟩ =
        .done () ⟨⟨p, p⟩, tk, out ++ (t.value ++ " ".toList ++ t.value ++ t.value ++ "; \n".toList)⟩ :=
      parseCallHelper_op tk t t t _ ⟨p, p⟩ ⟨p, p⟩ ⟨p, p⟩ (hfix st) (hfix p) (hfix p)
        (fun h => hid h.1) (fun h => hid h.1)
    rw [callLoop]
    simp only [bind_getToken]
    rw [bind_of_done _ _ _ _ _ h0]
    simp only [bind_next, hfix, hcl, false_and, if_false]
    exact ih _ _ _

theorem mainHelper_outOfFuel (fuel : Nat) (s : State) (o c t : Token) (l1 l2 l3 : Lexer)
    (h1 : getNextToken s.lexer = .tok o l1) (ho : o.kind = .tok_open_paren)
    (h2 : getNextToken l1 = .tok c l2) (hc : c.kind = .tok_close_paren)
    (h3 : getNextToken l2 = .tok t l3) (ht : t.kind ≠ .tok_close_paren)
    (h4 : callLoop fuel ⟨l3, t, s.out ++ "int main ".toList ++ "() \x7b \n".toList⟩ =
      .outOfFuel) :
    mainHelper fuel s = .outOfFuel := by
  simp only [mainHelper, bind_write, bind_advance, h1, bind_getToken, ho, ne_eq, not_true,
    if_false, bind_pure_run, h2, hc, h3, if_neg ht]
  exact bind_of_outOfFuel _ _ _ h4

theorem parseClass_private_outOfFuel (fuel : Nat) (s : State) (n o p : Token)
    (l1 l2 l3 : Lexer)
    (h1 : getNextToken s.lexer = .tok n l1) (hn : n.kind = .tok_identifier)
    (h2 : getNextToken l1 = .tok o l2) (ho : o.kind = .tok_open_paren)
    (h3 : getNextToken l2 = .tok p l3) (hp : p.kind = .tok_identifier)
    (hv : p.value = "private".toList)
    (h4 : parsePrivate fuel ⟨l3, p, classHeader s.out n "private: \n".toList⟩ = .outOfFuel) :
    parseClass fuel s = .outOfFuel := by
  have hoc : o.kind ≠ .tok_close_paren := by rw [ho]; decide
  have hpp : p.value ≠ "public".toList := by rw [hv]; decide
  unfold classHeader at h4
  simp only [parseClass, bind_write, bind_advance, h1, bind_getToken, hn, ne_eq, not_true,
    if_false, h2, ho, if_neg hoc, if_true, bind_pure_run, h3, hp, if_neg hpp, reduceCtorEq]
  simp only [bind_getToken, hv, if_true, bind_write]
  exact bind_of_outOfFuel _ _ _ h4

/-- C12 fails on the code: on `(fn main() (< a b))`, whose call-form has the
three tokens `<`, `a`, `b`, the run does not end, whatever the fuel. The
character `<` is read as a generic symbol, which `getNextToken` returns without
moving the cursor, so the call-form rule reads `<` three times and the loop of
call-forms goes on at the same place. On forms whose tokens move the cursor the
claimed text is emitted, string literals and sigil names included:
`(fn main() (= s "hi") (+ 1 *p))` gives the header, `s ="hi"; `, `1 +*p; ` and
`return 0;} `. -/
theorem main_symbol_operator :
    (∀ fuel, runTranslator fuel "(fn main() (< a b))".toList = .outOfFuel) ∧
    (∀ fuel, runTranslator (fuel + 2) "(fn main() (= s \"hi\") (+ 1 *p))".toList =
      .done () ⟨⟨[], []⟩, ⟨.tok_eof, []⟩,
        "int main () \x7b \ns =\"hi\"; \n1 +*p; \nreturn 0;\x7d \n".toList⟩) := by
  refine ⟨fun fuel => ?_, fun fuel => ?_⟩
  · have h1 : getNextToken ⟨"(fn main() (< a b))".toList, "(fn main() (< a b))".toList⟩ =
        .tok ⟨.tok_open_paren, ['(']⟩
          ⟨"fn main() (< a b))".toList, "(fn main() (< a b))".toList⟩ := by decide
    have h2 : getNextToken ⟨"fn main() (< a b))".toList, "(fn main() (< a b))".toList⟩ =
        .tok ⟨.tok_identifier, "fn".toList⟩
          ⟨" main() (< a b))".toList, "fn main() (< a b))".toList⟩ := by decide
    have h3 : getNextToken ⟨" main() (< a b))".toList, "fn main() (< a b))".toList⟩ =
        .tok ⟨.tok_identifier, "main".toList⟩
          ⟨"() (< a b))".toList, "main() (< a b))".toList⟩ := by decide
    have h4 : getNextToken ⟨"() (< a b))".toList, "main() (< a b))".toList⟩ =
        .tok ⟨.tok_open_paren, ['(']⟩ ⟨") (< a b))".toList, "() (< a b))".toList⟩ := by decide
    have h5 : getNextToken ⟨") (< a b))".toList, "() (< a b))".toList⟩ =
        .tok ⟨.tok_close_paren, [')']⟩ ⟨" (< a b))".toList, ") (< a b))".toList⟩ := by decide
    have h6 : getNextToken ⟨" (< a b))".toList, ") (< a b))".toList⟩ =
        .tok ⟨.tok_open_paren, ['(']⟩ ⟨"< a b))".toList, "(< a b))".toList⟩ := by decide
    rw [runTranslator, initial, Lexer.init, parse_open _ _ _ _ h1 rfl]
    cases fuel with
    | zero => rfl
    | succ r =>
      exact parseLoop_fn_outOfFuel _ _ _ _ _ h2 rfl rfl
        ((parseFunction_main _ _ _ _ h3 rfl rfl).trans
          (mainHelper_outOfFuel _ _ _ _ _ _ _ _ h4 rfl h5 rfl h6 (by decide)
            (callLoop_stuck "< a b))".toList ⟨.tok_symbol, "<".toList⟩ (fun _ => rfl)
              (by decide) (by decide) _ _ _ _)))
  · exact main_translation
      [⟨" ".toList, "=".toList, "s".toList, "\"hi\"".toList⟩,
       ⟨" ".toList, "+".toList, "1".toList, "*p".toList⟩]
      (by decide) (fuel + 2) (by omega) (by simp)

/-- C13 fails on the code: on `(class N (public (< a b)) (private (= a 1)))`
and on `(class N (private (< a b)))`, where a call-form has the three tokens
`<`, `a`, `b`, the run does not end, whatever the fuel. The character `<` is
read as a generic symbol, which `getNextToken` returns without moving the
cursor, so the loop of call-forms goes on at the same place. On forms whose
tokens move the cursor the claimed text is emitted, string literals and sigil
names included: `(class N (public (= s "hi")) (private (init int *p)))` gives
`class N { `, `public: `, `s ="hi"; `, `private: `, `int *p ; `, `}; `. -/
theorem class_symbol_operator :
    (∀ fuel, runTranslator fuel "(class N (public (< a b)) (private (= a 1)))".toList =
      .outOfFuel) ∧
    (∀ fuel, runTranslator fuel "(class N (private (< a b)))".toList = .outOfFuel) ∧
    (∀ fuel, runTranslator (fuel + 2)
        "(class N (public (= s \"hi\")) (private (init int *p)))".toList =
      .done () ⟨⟨[], []⟩, ⟨.tok_eof, []⟩,
        "class N \x7b \npublic: \ns =\"hi\"; \nprivate: \nint *p ; \n\x7d; \n".toList⟩) := by
  refine ⟨fun fuel => ?_, fun fuel => ?_, fun fuel => ?_⟩
  · have h1 : getNextToken ⟨"(class N (public (< a b)) (private (= a 1)))".toList,
        "(class N (public (< a b)) (private (= a 1)))".toList⟩ =
        .tok ⟨.tok_open_paren, ['(']⟩ ⟨"class N (public (< a b)) (private (= a 1)))".toList,
          "(class N (public (< a b)) (private (= a 1)))".toList⟩ := by decide
    have h2 : getNextToken ⟨"class N (public (< a b)) (private (= a 1)))".toList,
        "(class N (public (< a b)) (private (= a 1)))".toList⟩ =
        .tok ⟨.tok_identifier, "class".toList⟩
          ⟨" N (public (< a b)) (private (= a 1)))".toList,
            "class N (public (< a b)) (private (= a 1)))".toList⟩ := by decide
    have h3 : getNextToken ⟨" N (public (< a b)) (private (= a 1)))".toList,
        "class N (public (< a b)) (private (= a 1)))".toList⟩ =
        .tok ⟨.tok_identifier, "N".toList⟩
          ⟨" (public (< a b)) (private (= a 1)))".toList,
            "N (public (< a b)) (private (= a 1)))".toList⟩ := by decide
    have h4 : getNextToken ⟨" (public (< a b)) (private (= a 1)))".toList,
        "N (public (< a b)) (private (= a 1)))".toList⟩ =
        .tok ⟨.tok_open_paren, ['(']⟩ ⟨"public (< a b)) (private (= a 1)))".toList,
          "(public (< a b)) (private (= a 1)))".toList⟩ := by decide
    have h5 : getNextToken ⟨"public (< a b)) (private (= a 1)))".toList,
        "(public (< a b)) (private (= a 1)))".toList⟩ =
        .tok ⟨.tok_identifier, "public".toList⟩ ⟨" (< a b)) (private (= a 1)))".toList,
          "public (< a b)) (private (= a 1)))".toList⟩ := by decide
    have h6 : getNextToken ⟨" (< a b)) (private (= a 1)))".toList,
        "public (< a b)) (private (= a 1)))".toList⟩ =
        .tok ⟨.tok_open_paren, ['(']⟩ ⟨"< a b)) (private (= a 1)))".toList,
          "(< a b)) (private (= a 1)))".toList⟩ := by decide
    rw [runTranslator, initial, Lexer.init, parse_open _ _ _ _ h1 rfl]
    cases fuel with
    | zero => rfl
    | succ r =>
      refine parseLoop_class_outOfFuel _ _ _ _ _ h2 rfl rfl
        (parseClass_public_outOfFuel _ _ _ _ _ _ _ _ h3 rfl h4 rfl h5 rfl rfl ?_)
      simp only [parsePublic, bind_advance, h6]
      exact callLoop_stuck "< a b)) (private (= a 1)))".toList ⟨.tok_symbol, "<".toList⟩
        (fun _ => rfl) (by decide) (by decide) _ _ _ _
  · have h1 : getNextToken ⟨"(class N (private (< a b)))".toList,
        "(class N (private (< a b)))".toList⟩ =
        .tok ⟨.tok_open_paren, ['(']⟩ ⟨"class N (private (< a b)))".toList,
          "(class N (private (< a b)))".toList⟩ := by decide
    have h2 : getNextToken ⟨"class N (private (< a b)))".toList,
        "(class N (private (< a b)))".toList⟩ =
        .tok ⟨.tok_identifier, "class".toList⟩ ⟨" N (private (< a b)))".toList,
          "class N (private (< a b)))".toList⟩ := by decide
    have h3 : getNextToken ⟨" N (private (< a b)))".toList,
        "class N (private (< a b)))".toList⟩ =
        .tok ⟨.tok_identifier, "N".toList⟩ ⟨" (private (< a b)))".toList,
          "N (private (< a b)))".toList⟩ := by decide
    have h4 : getNextToken ⟨" (private (< a b)))".toList, "N (private (< a b)))".toList⟩ =
        .tok ⟨.tok_open_paren, ['(']⟩ ⟨"private (< a b)))".toList,
          "(private (< a b)))".toList⟩ := by decide
    have h5 : getNextToken ⟨"private (< a b)))".toList, "(private (< a b)))".toList⟩ =
        .tok ⟨.tok_identifier, "private".toList⟩ ⟨" (< a b)))".toList,
          "private (< a b)))".toList⟩ := by decide
    have h6 : getNextToken ⟨" (< a b)))".toList, "private (< a b)))".toList⟩ =
        .tok ⟨.tok_open_paren, ['(']⟩ ⟨"< a b)))".toList, "(< a b)))".toList⟩ := by decide
    rw [runTranslator, initial, Lexer.init, parse_open _ _ _ _ h1 rfl]
    cases fuel with
    | zero => rfl
    | succ r =>
      refine parseLoop_class_outOfFuel _ _ _ _ _ h2 rfl rfl
        (parseClass_private_outOfFuel _ _ _ _ _ _ _ _ h3 rfl h4 rfl h5 rfl rfl ?_)
      simp only [parsePrivate, bind_advance, h6]
      exact callLoop_stuck "< a b)))".toList ⟨.tok_symbol, "<".toList⟩
        (fun _ => rfl) (by decide) (by decide) _ _ _ _
  · exact (block_order_translation "N".toList
      [⟨" ".toList, "=".toList, "s".toList, "\"hi\"".toList⟩]
      [⟨" ".toList, "init".toList, "int".toList, "*p".toList⟩]
      (by decide) (by decide) (by decide) (by decide) (by decide) (fuel + 2) (by omega)
      (by simp) (by simp)).1
